import Mathlib

/-!
# dfr.js: a verification development

A shallow embedding of `src/dfr.js` (the dataframe helper library) and proofs of
its documented behaviour.

Modelling conventions

* JavaScript values are the inductive type `JSVal`.  Arrays are dense lists of
  values (no holes).  A value of type `JSVal` has no identity: in
  `arr [r, r]` the two rows are two objects with the same content.  A
  dataframe in which one row object occurs several times is modelled apart,
  with the row objects in a store (`convertToFloatHeap`); only
  `convertToFloat` writes to rows, so only there can sharing be observed.
* Strings are lists of Unicode characters, that is well-formed UTF-16 texts.
  JavaScript counts and indexes a string by UTF-16 code units, a character
  outside the Basic Multilingual Plane being two units: `codeUnits` gives the
  units, and `convertToFloat` indexes a string row through it.
* Numbers are IEEE-754 binary64 values (`JSNum`), with correctly rounded
  arithmetic; a decimal literal denotes the double nearest to it.
* A function that can throw returns `Except JSError _`; a function that
  mutates its argument returns the argument after the call with its result.
* Column indices and the entries of an export list are natural numbers.
-/

namespace Dfr

/-! ## Numbers -/

/-- A JavaScript Number, that is an IEEE-754 binary64 value.  A finite value is a
sign and a magnitude `k` counted in units of `2^-1074` (the least positive
double): the doubles below `2^-1021` are the `k < 2^53`, and above that the
magnitudes `m * 2^s` with `2^52 ≤ m < 2^53`, up to `k < 2^2098` (that is
`2^1024`).  Both zeros are present: `fin false 0` and `fin true 0`. -/
inductive JSNum where
  | nan : JSNum
  | inf (neg : Bool) : JSNum
  | fin (neg : Bool) (k : Nat) : JSNum
deriving DecidableEq, Repr

namespace JSNum

/-- Length of the binary numeral of `q`, by halving at most `fuel` times. -/
def bitLenAux : Nat → Nat → Nat
  | 0, _ => 0
  | fuel + 1, q => if q = 0 then 0 else bitLenAux fuel (q / 2) + 1

/-- Length of the binary numeral of `q` (`0` for `q = 0`). -/
def bitLen (q : Nat) : Nat := bitLenAux q q

/-- Number of low bits that do not fit in a 53 bit significand. -/
def dropBits (q : Nat) : Nat := bitLen q - 53

/-- The number one counted in units: `2^1074`. -/
@[irreducible] def unitsPerOne : Nat := 2 ^ 1074

/-- The magnitude `2^1024` counted in units, the least one that is not finite. -/
@[irreducible] def overflowUnits : Nat := 2 ^ 2098

/-- Round the non-negative rational `a / b`, counted in units of `2^-1074`, to
the nearest double of sign `neg`, ties to even; magnitudes that round to
`2^1024` or more overflow to infinity. -/
def roundUnits (neg : Bool) (a b : Nat) : JSNum :=
  let s := dropBits (a / b)
  let d := b * 2 ^ s
  let m := a / d
  let r := a % d
  let up : Bool := decide (d < 2 * r) || (decide (2 * r = d) && decide (m % 2 = 1))
  let k := (if up then m + 1 else m) * 2 ^ s
  if overflowUnits ≤ k then inf neg else fin neg k

/-- The double of a natural number (used for `array.length`). -/
def ofNat (n : Nat) : JSNum := roundUnits false (n * unitsPerOne) 1

/-- Unary minus. -/
def neg : JSNum → JSNum
  | nan => nan
  | inf s => inf (!s)
  | fin s k => fin (!s) k

/-- The exact value of a finite double as a signed count of units. -/
def units (s : Bool) (k : Nat) : Int := if s then - (k : Int) else (k : Int)

/-- IEEE addition, round to nearest even. -/
def add : JSNum → JSNum → JSNum
  | nan, _ => nan
  | _, nan => nan
  | inf s, inf t => if s = t then inf s else nan
  | inf s, fin _ _ => inf s
  | fin _ _, inf t => inf t
  | fin s j, fin t k =>
    let z := units s j + units t k
    if z = 0 then fin (s && t) 0
    else roundUnits (decide (z < 0)) z.natAbs 1

/-- IEEE subtraction: `a - b` is `a + (-b)`. -/
def sub (a b : JSNum) : JSNum := add a (neg b)

/-- IEEE division, round to nearest even. -/
def div : JSNum → JSNum → JSNum
  | nan, _ => nan
  | _, nan => nan
  | inf _, inf _ => nan
  | inf s, fin t _ => inf (xor s t)
  | fin s _, inf t => fin (xor s t) 0
  | fin s j, fin t k =>
    if k = 0 then (if j = 0 then nan else inf (xor s t))
    else roundUnits (xor s t) (j * unitsPerOne) k

/-- The test `v < 0`. -/
def isNeg : JSNum → Bool
  | nan => false
  | inf s => s
  | fin s k => s && decide (0 < k)

/-- The test `v > 0`. -/
def isPos : JSNum → Bool
  | nan => false
  | inf s => !s
  | fin s k => !s && decide (0 < k)

/-- The relation `a <= b` on numbers (false as soon as one side is NaN). -/
def le : JSNum → JSNum → Bool
  | nan, _ => false
  | _, nan => false
  | inf s, inf t => s || !t
  | inf s, fin _ _ => s
  | fin _ _, inf t => !t
  | fin s j, fin t k => decide (units s j ≤ units t k)

/-- Strict equality `===` on numbers: NaN differs from itself, the two zeros are
equal. -/
def strictEq : JSNum → JSNum → Bool
  | nan, _ => false
  | _, nan => false
  | inf s, inf t => s == t
  | inf _, fin _ _ => false
  | fin _ _, inf _ => false
  | fin s j, fin t k => decide (units s j = units t k)

/-- Whether the value is NaN. -/
def isNaN : JSNum → Bool
  | nan => true
  | _ => false

end JSNum

/-! ## Values -/

/-- JavaScript values.  `obj` is a plain object that is no array and has none
of the properties the library reads (no `length`, no indexed property, no
`filter`), such as `{}`.  Objects that have such properties are outside the
model. -/
inductive JSVal where
  | undefined : JSVal
  | null : JSVal
  | bool (b : Bool) : JSVal
  | num (n : JSNum) : JSVal
  | str (s : List Char) : JSVal
  | arr (elems : List JSVal) : JSVal
  | obj : JSVal

/-- The results of `typeof`. -/
inductive JSType where
  | undefined | object | boolean | number | string
deriving DecidableEq, Repr

/-- Errors thrown by the runtime. -/
inductive JSError where
  | typeError : JSError
deriving DecidableEq, Repr

namespace JSVal

/-- The `typeof` operator. -/
def typeOf : JSVal → JSType
  | undefined => JSType.undefined
  | null => JSType.object
  | bool _ => JSType.boolean
  | num _ => JSType.number
  | str _ => JSType.string
  | arr _ => JSType.object
  | obj => JSType.object

/-- The builtin `Array.isArray`. -/
def isArray : JSVal → Bool
  | arr _ => true
  | _ => false

end JSVal

open JSVal

mutual
/-- Structural equality test on values. -/
def JSVal.beq : JSVal → JSVal → Bool
  | undefined, undefined => true
  | null, null => true
  | JSVal.bool a, JSVal.bool b => a == b
  | num a, num b => decide (a = b)
  | str a, str b => decide (a = b)
  | arr a, arr b => JSVal.beqList a b
  | obj, obj => true
  | _, _ => false
/-- Structural equality test on lists of values. -/
def JSVal.beqList : List JSVal → List JSVal → Bool
  | [], [] => true
  | a :: l, b :: m => JSVal.beq a b && JSVal.beqList l m
  | _, _ => false
end

instance {ε α : Type} [DecidableEq ε] [DecidableEq α] : DecidableEq (Except ε α)
  | Except.ok a, Except.ok b =>
    if h : a = b then isTrue (by rw [h]) else isFalse (fun e => h (Except.ok.inj e))
  | Except.error a, Except.error b =>
    if h : a = b then isTrue (by rw [h]) else isFalse (fun e => h (Except.error.inj e))
  | Except.ok _, Except.error _ => isFalse (fun e => Except.noConfusion e)
  | Except.error _, Except.ok _ => isFalse (fun e => Except.noConfusion e)

/-- Read of the indexed property `v[i]`: `undefined` past the end of an array or
string, a one-character string inside a string, a `TypeError` on `undefined`
and `null`.  Inside a string the index counts characters, which is the index
of JavaScript for strings of the Basic Multilingual Plane; the theorems read
rows that are arrays. -/
def JSVal.get (v : JSVal) (i : Nat) : Except JSError JSVal :=
  match v with
  | undefined => Except.error JSError.typeError
  | null => Except.error JSError.typeError
  | arr elems => Except.ok (elems.getD i undefined)
  | str s => Except.ok (match s.get? i with
      | some c => str [c]
      | none => undefined)
  | _ => Except.ok undefined

/-- Strict equality `===`.  Arrays and objects compare by identity, and every
occurrence is a distinct object. -/
def strictEq : JSVal → JSVal → Bool
  | undefined, undefined => true
  | null, null => true
  | JSVal.bool a, JSVal.bool b => a == b
  | num a, num b => JSNum.strictEq a b
  | str a, str b => decide (a = b)
  | _, _ => false

/-! ## Strings denoting numbers -/

/-- The ten decimal digits matched by the class `\d`. -/
def decDigits : List Char := ['0', '1', '2', '3', '4', '5', '6', '7', '8', '9']

/-- Whether `c` is a decimal digit. -/
def isDecDigit (c : Char) : Bool := decDigits.contains c

/-- Code points of the characters removed by `trim` (WhiteSpace and
LineTerminator of the language definition). -/
def whiteSpaceCodes : List Nat :=
  [0x09, 0x0A, 0x0B, 0x0C, 0x0D, 0x20, 0xA0, 0x1680, 0x2000, 0x2001, 0x2002, 0x2003, 0x2004,
   0x2005, 0x2006, 0x2007, 0x2008, 0x2009, 0x200A, 0x2028, 0x2029, 0x202F, 0x205F, 0x3000, 0xFEFF]

/-- Whether `c` is removed by `trim`. -/
def isWhiteSpace (c : Char) : Bool := whiteSpaceCodes.contains c.toNat

/-- `s.trimStart()`. -/
def trimStart (s : List Char) : List Char := s.dropWhile isWhiteSpace

/-- `s.trim()`. -/
def trim (s : List Char) : List Char := (trimStart (trimStart s).reverse).reverse

/-- Value of a digit in a radix up to 16, if it is one. -/
def digitValue (c : Char) : Option Nat :=
  if '0'.toNat ≤ c.toNat ∧ c.toNat ≤ '9'.toNat then some (c.toNat - '0'.toNat)
  else if 'a'.toNat ≤ c.toNat ∧ c.toNat ≤ 'f'.toNat then some (c.toNat - 'a'.toNat + 10)
  else if 'A'.toNat ≤ c.toNat ∧ c.toNat ≤ 'F'.toNat then some (c.toNat - 'A'.toNat + 10)
  else none

/-- The natural number written by the digits `ds` in radix `b` (characters
that are no digit count as zero). -/
def digitsToNat (b : Nat) (ds : List Char) : Nat :=
  ds.foldl (fun n c => b * n + (digitValue c).getD 0) 0

/-- StringNumericValue of the decimal literal with integer digits `ip`, fraction
digits `fp` and exponent `e`: the double nearest to
`digits(ip ++ fp) * 10 ^ (e - fp.length)`, with sign `neg`. -/
def decimalValue (neg : Bool) (ip fp : List Char) (e : Int) : JSNum :=
  let m := digitsToNat 10 (ip ++ fp)
  let e10 : Int := e - fp.length
  if 0 ≤ e10 then JSNum.roundUnits neg (m * 10 ^ e10.toNat * JSNum.unitsPerOne) 1
  else JSNum.roundUnits neg (m * JSNum.unitsPerOne) (10 ^ (-e10).toNat)

/-- Scan an optional ExponentPart at the head of `r`: its value and the rest of
the input (`r` itself when there is none). -/
def scanExponent (r : List Char) : Int × List Char :=
  match r with
  | c :: t =>
    if c = 'e' ∨ c = 'E' then
      let (sgn, u) : Bool × List Char := match t with
        | '+' :: u => (false, u)
        | '-' :: u => (true, u)
        | _ => (false, t)
      let ds := u.takeWhile isDecDigit
      if ds = [] then (0, r)
      else ((if sgn then - (digitsToNat 10 ds : Int) else (digitsToNat 10 ds : Int)),
        u.dropWhile isDecDigit)
    else (0, r)
  | [] => (0, [])

/-- The characters of `Infinity`. -/
def infinityLit : List Char := ['I', 'n', 'f', 'i', 'n', 'i', 't', 'y']

/-- Scan the longest StrUnsignedDecimalLiteral at the head of `s`: its value with
sign `neg` and the rest of the input, or `none` when `s` starts with none. -/
def scanUnsigned (neg : Bool) (s : List Char) : Option (JSNum × List Char) :=
  if infinityLit.isPrefixOf s then some (JSNum.inf neg, s.drop infinityLit.length)
  else
    let ip := s.takeWhile isDecDigit
    let r := s.dropWhile isDecDigit
    match r with
    | '.' :: t =>
      let fp := t.takeWhile isDecDigit
      if ip = [] ∧ fp = [] then none
      else
        let (e, rest) := scanExponent (t.dropWhile isDecDigit)
        some (decimalValue neg ip fp e, rest)
    | _ =>
      if ip = [] then none
      else
        let (e, rest) := scanExponent r
        some (decimalValue neg ip [] e, rest)

/-- Scan the longest StrDecimalLiteral (an optional sign, then an unsigned
literal) at the head of `s`. -/
def scanDecimal (s : List Char) : Option (JSNum × List Char) :=
  match s with
  | '-' :: t => scanUnsigned true t
  | '+' :: t => scanUnsigned false t
  | _ => scanUnsigned false s

/-- Value of a NonDecimalIntegerLiteral (`0x..`, `0o..`, `0b..`), if `s` is one. -/
def nonDecimalValue (s : List Char) : Option JSNum :=
  match s with
  | '0' :: c :: ds =>
    let radix : Nat :=
      if c = 'x' ∨ c = 'X' then 16 else if c = 'o' ∨ c = 'O' then 8
      else if c = 'b' ∨ c = 'B' then 2 else 0
    if radix ≠ 0 ∧ ds ≠ [] ∧ ds.all (fun d => decide (∃ v, digitValue d = some v ∧ v < radix)) then
      some (JSNum.roundUnits false (digitsToNat radix ds * JSNum.unitsPerOne) 1)
    else none
  | _ => none

/-- The abstract operation StringToNumber: `Number(s)` for a string `s`. -/
def stringToNumber (s : List Char) : JSNum :=
  let t := trim s
  if t = [] then JSNum.fin false 0
  else match nonDecimalValue t with
    | some v => v
    | none => match scanDecimal t with
      | some (v, []) => v
      | _ => JSNum.nan

/-- The builtin `Number(v)`.  The conversion of arrays and objects (through
`ToPrimitive`) is outside the model and fixed to NaN; the program applies
`Number` only to values accepted by `validNumber`. -/
def toNumber : JSVal → JSNum
  | undefined => JSNum.nan
  | null => JSNum.fin false 0
  | JSVal.bool b => if b then JSNum.ofNat 1 else JSNum.fin false 0
  | num n => n
  | str s => stringToNumber s
  | arr _ => JSNum.nan
  | obj => JSNum.nan

/-- The builtin `parseFloat(s)` for a string `s`. -/
def parseFloatStr (s : List Char) : JSNum :=
  match scanDecimal (trimStart s) with
  | some (v, _) => v
  | none => JSNum.nan

/-- The builtin `parseFloat(v)`, which parses `ToString(v)`.  A number prints
and parses back to itself (the negative zero to the positive one); the
conversion of arrays is outside the model and fixed to NaN, and the program
passes strings only. -/
def parseFloat : JSVal → JSNum
  | str s => parseFloatStr s
  | num (JSNum.fin _ 0) => JSNum.fin false 0
  | num n => n
  | _ => JSNum.nan

/-! ## Regular expressions -/

/-- One or more repetitions, `r+`. -/
def rePlus (r : RegularExpression Char) : RegularExpression Char := r * RegularExpression.star r

/-- Zero or one occurrence, `r?`. -/
def reOpt (r : RegularExpression Char) : RegularExpression Char := 1 + r

/-- The character class `\d`. -/
def reDigit : RegularExpression Char :=
  decDigits.foldr (fun c r => RegularExpression.char c + r) 0

/-- The body of the literal `/^-?\d+(\.\d+)?$/`.  The anchors `^` and `$`
(without the multiline flag) make `test` succeed exactly when the whole input is
in the language of the body. -/
def pattern : RegularExpression Char :=
  reOpt (RegularExpression.char '-') *
    (rePlus reDigit * reOpt (RegularExpression.char '.' * rePlus reDigit))

/-- `pattern.test(s)`. -/
def patternTest (s : List Char) : Bool := pattern.rmatch s

/-! ## validNumber -/

/-- `validNumber(num)`. -/
def validNumber (num : JSVal) : Bool :=
  if num.typeOf = JSType.number then true
  else if num.typeOf = JSType.string then
    match num with
    | str s => patternTest s
    | _ => false
  else false

/-- The callback chain `.filter(validNumber).map(Number)` shared by the three
aggregators. -/
def validNums (dataset : List JSVal) : List JSNum :=
  (dataset.filter validNumber).map toNumber

/-- The reduction `.reduce((acc, val) => acc + val, 0)`. -/
def sumFrom0 (xs : List JSNum) : JSNum :=
  xs.foldl (fun acc val => JSNum.add acc val) (JSNum.fin false 0)

/-! ## dataDimensions -/

/-- `dataDimensions(data)`, the pair `[rows, columns]`. -/
def dataDimensions (data : JSVal) : Int × Int :=
  match data with
  | undefined => (-1, -1)
  | null => (-1, -1)
  | arr elems =>
    if elems.length = 0 then (0, -1)
    else if elems.all JSVal.isArray then
      match elems with
      | arr row :: _ => (elems.length, if row.length > 0 then (row.length : Int) else -1)
      -- not reached: the first element passed `Array.isArray`
      | _ => (elems.length, -1)
    else (elems.length, -1)
  | _ => (-1, -1)

/-! ## calculateMean and findTotal -/

/-- `calculateMean(dataset)`. -/
def calculateMean (dataset : JSVal) : JSVal :=
  match dataset with
  | arr xs =>
    if xs.length = 0 then JSVal.bool false
    else
      let nums := validNums xs
      if nums.length = 0 then JSVal.bool false
      else num (JSNum.div (sumFrom0 nums) (JSNum.ofNat nums.length))
  | _ => JSVal.bool false

/-- `findTotal(dataset)`. -/
def findTotal (dataset : JSVal) : JSVal :=
  match dataset with
  | arr xs =>
    if xs.length = 0 then JSVal.bool false
    else
      let nums := validNums xs
      if nums.length = 0 then JSVal.bool false
      else num (sumFrom0 nums)
  | _ => JSVal.bool false

/-! ## convertToFloat -/

/-- The UTF-16 code units of a string, which are what `length` counts and what
an index reads.  A character of the Basic Multilingual Plane is one unit,
`some c`; any other character is two units, the halves of a surrogate pair,
each of them `none` (a half is no character by itself). -/
def codeUnits : List Char → List (Option Char)
  | [] => []
  | c :: s => if c.toNat < 65536 then some c :: codeUnits s else none :: none :: codeUnits s

/-- One turn of the loop of `convertToFloat` on `row`: the row after the turn and
whether `count` was incremented.  Reading `row.length` throws on `undefined` and
`null`; it is `undefined` on numbers, booleans and the object `obj`, so that the
comparison with `colIndex` fails.  On a string, `row.length` is the number of
code units and `row[colIndex]` is the string made of the unit at that index,
which passes `validNumber` when the unit is a digit (half of a surrogate pair
is none); the assignment to an index of a string primitive is ignored (the
module is not in strict mode). -/
def convertRow (colIndex : Nat) (row : JSVal) : Except JSError (JSVal × Bool) :=
  match row with
  | undefined => Except.error JSError.typeError
  | null => Except.error JSError.typeError
  | arr cells =>
    let cell := cells.getD colIndex undefined
    if colIndex < cells.length ∧ cell.typeOf ≠ JSType.number ∧ validNumber cell = true then
      Except.ok (arr (cells.set colIndex (num (parseFloat cell))), true)
    else Except.ok (row, false)
  | str s =>
    match (codeUnits s).get? colIndex with
    | some (some c) => Except.ok (row, validNumber (str [c]))
    | some none => Except.ok (row, false)
    | none => Except.ok (row, false)
  | _ => Except.ok (row, false)

/-- The loop `for (let row of df)` on rows given as values: the rows after the
loop (also when a turn throws: the rows handled before it stay converted) and
the final `count`.  Every element of the list is a row object of its own; for
a dataframe that holds one row object several times see `convertLoopHeap`. -/
def convertLoop (colIndex : Nat) : List JSVal → Nat → List JSVal × Except JSError Nat
  | [], count => ([], Except.ok count)
  | row :: rest, count =>
    match convertRow colIndex row with
    | Except.error e => (row :: rest, Except.error e)
    | Except.ok (row', inc) =>
      let out := convertLoop colIndex rest (if inc then count + 1 else count)
      (row' :: out.1, out.2)

/-- `convertToFloat(df, colIndex)` on rows given as values: the dataframe after
the call and the value returned.  The value returned is the one of the code
when the rows of `df` are objects distinct from one another; the dataframe
after the call is the one of the code also when a row object occurs several
times (`convertToFloat_heap_state`). -/
def convertToFloat (df : JSVal) (colIndex : Nat) : JSVal × Except JSError Nat :=
  match df with
  | arr rows =>
    if rows.length = 0 then (df, Except.ok 0)
    else
      let out := convertLoop colIndex rows 0
      (arr out.1, out.2)
  | _ => (df, Except.ok 0)

/-- The loop `for (let row of df)` of `convertToFloat` on a dataframe in memory.
The row arrays live in the store `heap`, each at its address (its index in the
list), and the elements of `df` are addresses, so that one row array can be an
element of `df` several times.  A turn reads the row at the address and, when
its cell passes the test, writes the parsed number into that row array in the
store and increments `count`.  Result: the store after the loop and the final
`count`. -/
def convertLoopHeap (colIndex : Nat) :
    List Nat → List (List JSVal) → Nat → List (List JSVal) × Nat
  | [], heap, count => (heap, count)
  | a :: rest, heap, count =>
    let row := heap.getD a []
    let cell := row.getD colIndex undefined
    if colIndex < row.length ∧ cell.typeOf ≠ JSType.number ∧ validNumber cell = true then
      convertLoopHeap colIndex rest
        (heap.set a (row.set colIndex (num (parseFloat cell)))) (count + 1)
    else convertLoopHeap colIndex rest heap count

/-- `convertToFloat(df, colIndex)` on a dataframe in memory: `df` is an array
of addresses of row arrays in `heap`.  Result: the store after the call and the
value returned. -/
def convertToFloatHeap (heap : List (List JSVal)) (df : List Nat) (colIndex : Nat) :
    List (List JSVal) × Nat :=
  if df.length = 0 then (heap, 0)
  else convertLoopHeap colIndex df heap 0

/-- The rows of the dataframe `df` read from the store, in the order of `df`. -/
def rowsOf (heap : List (List JSVal)) (df : List Nat) : List (List JSVal) :=
  df.map (fun a => heap.getD a [])

/-! ## flatten -/

/-- `xs.map(f)` for a callback that may throw. -/
def mapE {α β : Type} (f : α → Except JSError β) : List α → Except JSError (List β)
  | [] => Except.ok []
  | x :: xs =>
    match f x with
    | Except.error e => Except.error e
    | Except.ok y =>
      match mapE f xs with
      | Except.error e => Except.error e
      | Except.ok ys => Except.ok (y :: ys)

/-- `xs.filter(p)` for a callback that may throw. -/
def filterE {α : Type} (p : α → Except JSError Bool) : List α → Except JSError (List α)
  | [] => Except.ok []
  | x :: xs =>
    match p x with
    | Except.error e => Except.error e
    | Except.ok b =>
      match filterE p xs with
      | Except.error e => Except.error e
      | Except.ok ys => Except.ok (if b then x :: ys else ys)

/-- `flatten(df)`. -/
def flatten (df : JSVal) : Except JSError JSVal :=
  match df with
  | arr rows =>
    if rows.length = 0 ∨ (dataDimensions df).2 ≠ 1 then Except.ok (arr [])
    else (mapE (fun row => row.get 0) rows).map arr
  | _ => Except.ok (arr [])

/-! ## calculateMedian -/

/-- Insert `a` in front of the first element it does not have to follow. -/
def sortInsert (cmp : JSNum → JSNum → JSNum) (a : JSNum) : List JSNum → List JSNum
  | [] => [a]
  | b :: l => if (cmp a b).isPos then b :: sortInsert cmp a l else a :: b :: l

/-- `xs.sort(cmp)` as the stable insertion sort: an element moves behind another
one only when the comparator is positive on the pair (a comparator result NaN
counts as zero, as `sort` reads it).  Where the comparator is consistent on the
elements this is the order the language prescribes for `Array.prototype.sort`,
which is stable.  With `(a, b) => a - b` that is so when no element is NaN, and
also when the elements other than NaN are all equal (every comparison is then
zero and the array stays as it is).  On other arrays holding NaN the order is
left to the implementation and this function need not give the order of the
engine (it does not on `[1, 0, NaN, 0]`); what is proved about the order is
proved for those two cases only. -/
def sortWith (cmp : JSNum → JSNum → JSNum) : List JSNum → List JSNum
  | [] => []
  | a :: l => sortInsert cmp a (sortWith cmp l)

/-- `calculateMedian(dataset)`.  Calling `.filter` on a value that is no array
throws.  The value returned is the one of the code wherever `sortWith` is the
order of the engine (see there), and also wherever the value does not depend
on the order. -/
def calculateMedian (dataset : JSVal) : Except JSError JSVal :=
  match dataset with
  | arr xs =>
    let nums := validNums xs
    if nums.length = 0 then Except.ok (JSVal.bool false)
    else
      let sorted := sortWith (fun a b => JSNum.sub a b) nums
      let mid := sorted.length / 2
      if sorted.length % 2 = 0 then
        Except.ok (num (JSNum.div
          (JSNum.add (sorted.getD (mid - 1) JSNum.nan) (sorted.getD mid JSNum.nan))
          (JSNum.ofNat 2)))
      else
        Except.ok (match sorted.get? mid with
          | some v => num v
          | none => undefined)
  | _ => Except.error JSError.typeError

/-- The two arrays `calculateMedian` works with: its argument, and the array
`validNums` it builds. -/
structure MedianArrays where
  dataset : JSVal
  validNums : List JSNum

/-- `calculateMedian(dataset)` with the arrays it leaves: `.filter` and `.map`
build new arrays and leave their receivers as they are; `.sort` reorders its
receiver, which is the array `validNums`. -/
def calculateMedianRun (dataset : JSVal) : MedianArrays × Except JSError JSVal :=
  match dataset with
  | arr xs =>
    let built : MedianArrays := { dataset := dataset, validNums := validNums xs }
    if built.validNums.length = 0 then (built, Except.ok (JSVal.bool false))
    else
      let sorted : MedianArrays :=
        { built with validNums := sortWith (fun a b => JSNum.sub a b) built.validNums }
      let mid := sorted.validNums.length / 2
      if sorted.validNums.length % 2 = 0 then
        (sorted, Except.ok (num (JSNum.div
          (JSNum.add (sorted.validNums.getD (mid - 1) JSNum.nan)
            (sorted.validNums.getD mid JSNum.nan))
          (JSNum.ofNat 2))))
      else
        (sorted, Except.ok (match sorted.validNums.get? mid with
          | some v => num v
          | none => undefined))
  | _ => ({ dataset := dataset, validNums := [] }, Except.error JSError.typeError)

/-! ## createSlice -/

/-- `createSlice(df, colIndex, colPattern, exportCols)`. -/
def createSlice (df : JSVal) (colIndex : Nat) (colPattern : JSVal) (exportCols : List Nat) :
    Except JSError JSVal :=
  match df with
  | arr rows =>
    if rows.length = 0 then Except.ok (arr [])
    else
      let rowsToInclude : Except JSError (List JSVal) :=
        if strictEq colPattern (str ['*']) = true then Except.ok rows
        else filterE (fun row => (row.get colIndex).map (fun v => strictEq v colPattern)) rows
      match rowsToInclude with
      | Except.error e => Except.error e
      | Except.ok included =>
        if exportCols.length = 0 then Except.ok (arr included)
        else (mapE (fun row => (mapE (fun i => row.get i) exportCols).map arr) included).map arr
  | _ => Except.ok (arr [])

/-! ## loadCSV -/

/-- The file system as the program sees it: the text of the file at a path, or
`none` when nothing exists there.  Reading an existing file succeeds;
directories and unreadable files are outside the model. -/
structure FileSystem where
  content : List Char → Option (List Char)

/-- The calls the program makes to the module `fs`. -/
inductive FsCall where
  | existsSync (path : List Char) : FsCall
  | readFileSync (path : List Char) : FsCall
deriving DecidableEq, Repr

/-- `s.split(sep)` for a separator of one character. -/
def splitOn (sep : Char) : List Char → List (List Char)
  | [] => [[]]
  | c :: cs =>
    if c = sep then [] :: splitOn sep cs
    else
      match splitOn sep cs with
      | l :: ls => (c :: l) :: ls
      | [] => [[c]]

/-- `xs.filter((x, index) => p(x, index))`, the first element having index
`start`. -/
def filterIdx {α : Type} (p : α → Nat → Bool) : List α → Nat → List α
  | [], _ => []
  | x :: xs, start =>
    if p x start then x :: filterIdx p xs (start + 1) else filterIdx p xs (start + 1)

/-- The array of arrays of strings made of the given rows of cells. -/
def toDataframe (rows : List (List (List Char))) : JSVal :=
  arr (rows.map (fun cells => arr (cells.map str)))

/-- `loadCSV(filename, ignoreRows, ignoreCols)`: the calls made to `fs` and the
triple returned.  `originalRows` and `originalCols` of the source are computed
and never used, and computing them cannot throw.  Reading `.length` of
`filteredData[0]` throws when `filteredData` is empty. -/
def loadCSV (fs : FileSystem) (filename : List Char) (ignoreRows : List Nat)
    (ignoreCols : JSVal) : List FsCall × Except JSError (JSVal × Int × Int) :=
  match fs.content filename, ignoreCols with
  | none, _ => ([FsCall.existsSync filename], Except.ok (arr [], -1, -1))
  | some text, _ =>
    let data := ((splitOn '\n' text).filter (fun line => decide ((trim line).length > 0))).map
      (fun line => splitOn ',' line)
    let filteredData := filterIdx (fun _ rowIndex => !ignoreRows.contains rowIndex) data 0
    let rows := filteredData.length + 1
    let cols : Except JSError Int :=
      if rows > 0 then
        match filteredData with
        | row :: _ => Except.ok (row.length : Int)
        | [] => Except.error JSError.typeError
      else Except.ok 0
    ([FsCall.existsSync filename, FsCall.readFileSync filename],
      cols.map (fun c => (toDataframe filteredData, (rows : Int), c)))

/-! ## Specification side of `validNumber` -/

/-- The shape the specification gives to a numeric text: an optional leading
minus sign, one or more decimal digits, and optionally a dot followed by one or
more decimal digits, with nothing before, between or after. -/
def NumericText (s : List Char) : Prop :=
  ∃ sign ip frac : List Char,
    s = sign ++ ip ++ frac ∧
    (sign = [] ∨ sign = ['-']) ∧
    (ip ≠ [] ∧ ∀ c ∈ ip, c ∈ decDigits) ∧
    (frac = [] ∨ ∃ fp : List Char, frac = '.' :: fp ∧ fp ≠ [] ∧ ∀ c ∈ fp, c ∈ decDigits)

/-- The numeric text with the given sign, integer digits `ip` and fraction
digits `fp` (no dot when `fp` is empty). -/
def mkText (neg : Bool) (ip fp : List Char) : List Char :=
  (if neg then ['-'] else []) ++ ip ++ (if fp = [] then [] else '.' :: fp)

/-- The number a numeric text denotes: the double nearest to the decimal numeral
it writes (all its digits, scaled down by ten for every digit after the dot),
negative when the text starts with a minus sign. -/
def denotedNumber (s : List Char) : JSNum :=
  let neg : Bool := decide (s.head? = some '-')
  let digits := s.filter isDecDigit
  let scale := (s.dropWhile (fun c => decide (c ≠ '.'))).length - 1
  JSNum.roundUnits neg (digitsToNat 10 digits * JSNum.unitsPerOne) (10 ^ scale)

/-- The numeric value of an element that passes `validNumber`: a number is its
own value and a numeric text has the value it denotes. -/
def numericValue : JSVal → JSNum
  | num n => n
  | str s => denotedNumber s
  | _ => JSNum.nan

/-! ## Specification side of `convertToFloat` -/

/-- The cells `convertToFloat` is documented to convert: those that exist in
the row, are not already a number and pass the validator. -/
def convertible (c : Nat) (row : List JSVal) : Bool :=
  decide (c < row.length) && decide ((row.getD c undefined).typeOf ≠ JSType.number) &&
    validNumber (row.getD c undefined)

/-- The row after the documented conversion of its cell in column `c`. -/
def coerceRow (c : Nat) (row : List JSVal) : List JSVal :=
  if convertible c row = true then row.set c (num (numericValue (row.getD c undefined))) else row

/-! ## Specification side of `createSlice` -/

/-- The rows `createSlice` is documented to select: all of them for the
wildcard, and otherwise those whose cell in column `c` is strictly equal to the
pattern. -/
def matchingRows (rows : List (List JSVal)) (c : Nat) (p : JSVal) : List (List JSVal) :=
  match p with
  | str ['*'] => rows
  | _ => rows.filter (fun r => strictEq (r.getD c undefined) p)

/-- The projection of a row onto the export columns `e`, in the order of `e`. -/
def projectRow (e : List Nat) (r : List JSVal) : List JSVal :=
  e.map (fun i => r.getD i undefined)

/-! ## Specification side of `loadCSV` -/

/-- The list `parts` is the text `s` split on `sep`: putting `sep` back between
consecutive parts gives `s`, and no part contains `sep`. -/
def IsSplit (sep : Char) (s : List Char) (parts : List (List Char)) : Prop :=
  parts ≠ [] ∧ (∀ l ∈ parts, sep ∉ l) ∧ [sep].intercalate parts = s

/-- A line that is empty or made of white space only. -/
def isBlank (line : List Char) : Bool := line.all isWhiteSpace

/-- The elements of `xs` whose zero-based index does not appear in `g`, in the
order of `xs`. -/
def dropIndices {α : Type} (g : List Nat) (xs : List α) : List α :=
  (xs.enum.filter (fun ix => decide (ix.1 ∉ g))).map Prod.snd

/-- The rows the specification gives to the text `t` with the rows `g`
ignored: the given rows are the lines of `t` that are not blank, split on
commas, and the ignored indices are dropped. -/
def IsCSVRows (t : List Char) (g : List Nat) (df : List (List (List Char))) : Prop :=
  ∃ (lines : List (List Char)) (rows : List (List (List Char))),
    IsSplit '\n' t lines ∧
    List.Forall₂ (fun line row => IsSplit ',' line row)
      (lines.filter (fun l => !isBlank l)) rows ∧
    df = dropIndices g rows

/-- The rows of the text `t` with the rows `g` ignored, computed. -/
def csvRows (t : List Char) (g : List Nat) : List (List (List Char)) :=
  dropIndices g (((splitOn '\n' t).filter (fun l => !isBlank l)).map (splitOn ','))

/-! ## Specification side of `convertToFloat` on values that are no dataframe -/

/-- The elements of an array that `convertToFloat` passes over without counting
them: numbers, booleans, plain objects with no `length` property (`obj`), and
strings whose code unit at index `c` is no decimal digit or is missing. -/
def passedOver (c : Nat) : JSVal → Bool
  | num _ => true
  | JSVal.bool _ => true
  | obj => true
  | str s =>
    match (codeUnits s).get? c with
    | some (some ch) => !isDecDigit ch
    | some none => true
    | none => true
  | _ => false

/-! ## Specification side of the number model -/

namespace JSNum

/-- The magnitude, in units, that `roundUnits` rounds `a / b` to, before the
test for overflow. -/
def roundMag (a b : Nat) : Nat :=
  let s := dropBits (a / b)
  let d := b * 2 ^ s
  let m := a / d
  let r := a % d
  let up : Bool := decide (d < 2 * r) || (decide (2 * r = d) && decide (m % 2 = 1))
  (if up then m + 1 else m) * 2 ^ s

/-- A magnitude that a double can have, the bound `2^1024` apart: at most 53
significant bits. -/
def representable (k : Nat) : Prop := k % 2 ^ dropBits k = 0

/-- The values of the model that are doubles: NaN, the infinities, and the
finite values whose magnitude has at most 53 significant bits and is below
`2^1024`. -/
def IsDouble : JSNum → Prop
  | nan => True
  | inf _ => True
  | fin _ k => representable k ∧ k < overflowUnits

/-- Whether the value is finite. -/
def isFinite : JSNum → Bool
  | fin _ _ => true
  | _ => false

/-- The comparison SameValueZero: NaN is the same as NaN and the two zeros are
the same. -/
def sameValueZero : JSNum → JSNum → Bool
  | nan, nan => true
  | inf s, inf t => s == t
  | fin s j, fin t k => decide (units s j = units t k)
  | _, _ => false

end JSNum

/-! ## Specification side of `calculateMedian` -/

/-- The value with the negative zero replaced by the positive one: two values
are the same for SameValueZero exactly when they have the same image. -/
def JSNum.canon : JSNum → JSNum
  | JSNum.fin _ 0 => JSNum.fin false 0
  | x => x

/-- The median read off a sorted list: the middle element, or half the sum of
the two middle elements. -/
def medianOfSorted (s : List JSNum) : JSNum :=
  if s.length % 2 = 0 then
    JSNum.div (JSNum.add (s.getD (s.length / 2 - 1) JSNum.nan) (s.getD (s.length / 2) JSNum.nan))
      (JSNum.ofNat 2)
  else s.getD (s.length / 2) JSNum.nan

/-- Two results of `calculateMedian` that are both `false`, or numbers that are
the same for SameValueZero. -/
def SameMedian (r₁ r₂ : Except JSError JSVal) : Prop :=
  (r₁ = Except.ok (JSVal.bool false) ∧ r₂ = Except.ok (JSVal.bool false)) ∨
    ∃ m₁ m₂ : JSNum, r₁ = Except.ok (num m₁) ∧ r₂ = Except.ok (num m₂) ∧
      JSNum.sameValueZero m₁ m₂ = true

/-- The number `m` lies between the smallest and the largest of `vals`. -/
def LiesBetween (vals : List JSNum) (m : JSNum) : Prop :=
  ∃ lo ∈ vals, ∃ hi ∈ vals,
    (∀ v ∈ vals, JSNum.le lo v = true ∧ JSNum.le v hi = true) ∧
    JSNum.le lo m = true ∧ JSNum.le m hi = true

/-- The largest finite double, `(2^53 - 1) * 2^971`. -/
def maxDouble : JSNum := JSNum.fin false ((2 ^ 53 - 1) * 2 ^ 2045)

/-! # Theorems -/

/-! ## Decidable equality of values -/

mutual
theorem JSVal.eq_of_beq : ∀ a b : JSVal, JSVal.beq a b = true → a = b
  | undefined, b, h => by cases b <;> simp_all [JSVal.beq]
  | null, b, h => by cases b <;> simp_all [JSVal.beq]
  | JSVal.bool x, b, h => by cases b <;> simp_all [JSVal.beq]
  | num x, b, h => by cases b <;> simp_all [JSVal.beq]
  | str x, b, h => by cases b <;> simp_all [JSVal.beq]
  | obj, b, h => by cases b <;> simp_all [JSVal.beq]
  | arr x, undefined, h => by simp [JSVal.beq] at h
  | arr x, null, h => by simp [JSVal.beq] at h
  | arr x, JSVal.bool _, h => by simp [JSVal.beq] at h
  | arr x, num _, h => by simp [JSVal.beq] at h
  | arr x, str _, h => by simp [JSVal.beq] at h
  | arr x, obj, h => by simp [JSVal.beq] at h
  | arr x, arr y, h => by
    have := JSVal.eq_of_beqList x y (by simpa [JSVal.beq] using h)
    rw [this]
theorem JSVal.eq_of_beqList : ∀ l m : List JSVal, JSVal.beqList l m = true → l = m
  | [], [], _ => rfl
  | [], _ :: _, h => by simp [JSVal.beqList] at h
  | _ :: _, [], h => by simp [JSVal.beqList] at h
  | a :: l, b :: m, h => by
    simp only [JSVal.beqList, Bool.and_eq_true] at h
    rw [JSVal.eq_of_beq a b h.1, JSVal.eq_of_beqList l m h.2]
end

mutual
theorem JSVal.beq_self : ∀ a : JSVal, JSVal.beq a a = true
  | undefined => rfl
  | null => rfl
  | JSVal.bool x => by simp [JSVal.beq]
  | num x => by simp [JSVal.beq]
  | str x => by simp [JSVal.beq]
  | obj => rfl
  | arr x => by simpa [JSVal.beq] using JSVal.beqList_self x
theorem JSVal.beqList_self : ∀ l : List JSVal, JSVal.beqList l l = true
  | [] => rfl
  | a :: l => by simp [JSVal.beqList, JSVal.beq_self a, JSVal.beqList_self l]
end

instance : DecidableEq JSVal := fun a b =>
  decidable_of_iff (JSVal.beq a b = true) ⟨JSVal.eq_of_beq a b, fun h => h ▸ JSVal.beq_self a⟩

/-! ## validNumber -/


theorem mem_charClass (ds : List Char) (x : List Char) :
    x ∈ (ds.foldr (fun c r => RegularExpression.char c + r) 0).matches' ↔
      ∃ c ∈ ds, x = [c] := by
  induction ds with
  | nil =>
    simp only [List.foldr, RegularExpression.matches'_zero, List.not_mem_nil, false_and,
      exists_false, iff_false]
    exact Language.not_mem_zero x
  | cons d ds ih =>
    simp only [List.foldr, RegularExpression.matches'_add, RegularExpression.matches'_char,
      Language.mem_add, ih, List.mem_cons]
    constructor
    · rintro (h | ⟨c, hc, rfl⟩)
      · exact ⟨d, Or.inl rfl, Set.mem_singleton_iff.mp h⟩
      · exact ⟨c, Or.inr hc, rfl⟩
    · rintro ⟨c, rfl | hc, rfl⟩
      · exact Or.inl (Set.mem_singleton_iff.mpr rfl)
      · exact Or.inr ⟨c, hc, rfl⟩

theorem mem_reDigit (x : List Char) :
    x ∈ reDigit.matches' ↔ ∃ c ∈ decDigits, x = [c] :=
  mem_charClass decDigits x

theorem mem_rePlus_reDigit (x : List Char) :
    x ∈ (rePlus reDigit).matches' ↔ x ≠ [] ∧ ∀ c ∈ x, c ∈ decDigits := by
  simp only [rePlus, RegularExpression.matches'_mul, RegularExpression.matches'_star,
    Language.mem_mul, Language.mem_kstar, mem_reDigit]
  constructor
  · rintro ⟨a, ⟨c, hc, rfl⟩, b, ⟨L, rfl, hL⟩, rfl⟩
    refine ⟨by simp, ?_⟩
    intro d hd
    simp only [List.singleton_append, List.mem_cons, List.mem_flatten] at hd
    rcases hd with rfl | ⟨y, hy, hdy⟩
    · exact hc
    · obtain ⟨e, he, rfl⟩ := hL y hy
      simp only [List.mem_singleton] at hdy
      exact hdy ▸ he
  · rintro ⟨hne, hall⟩
    cases x with
    | nil => exact absurd rfl hne
    | cons c t =>
      refine ⟨[c], ⟨c, hall c (List.mem_cons_self _ _), rfl⟩, t, ⟨t.map (fun d => [d]), ?_, ?_⟩, rfl⟩
      · clear hne hall
        induction t with
        | nil => rfl
        | cons d t ih => simpa [List.flatten] using ih
      · intro y hy
        obtain ⟨d, hd, rfl⟩ := List.mem_map.mp hy
        exact ⟨d, hall d (List.mem_cons_of_mem _ hd), rfl⟩

theorem patternTest_iff (s : List Char) : patternTest s = true ↔ NumericText s := by
  unfold patternTest
  rw [RegularExpression.rmatch_iff_matches']
  simp only [pattern, reOpt, RegularExpression.matches'_mul, RegularExpression.matches'_add,
    RegularExpression.matches'_epsilon, RegularExpression.matches'_char, Language.mem_mul,
    Language.mem_add, Language.mem_one, mem_rePlus_reDigit]
  constructor
  · rintro ⟨sign, hsign, rest, ⟨ip, hip, frac, hfrac, rfl⟩, rfl⟩
    refine ⟨sign, ip, frac, by simp [List.append_assoc], ?_, hip, ?_⟩
    · rcases hsign with h | h
      · exact Or.inl h
      · exact Or.inr (Set.mem_singleton_iff.mp h)
    · rcases hfrac with h | ⟨d, hd, fp, hfp, rfl⟩
      · exact Or.inl h
      · have hd' := Set.mem_singleton_iff.mp hd
        subst hd'
        exact Or.inr ⟨fp, rfl, hfp⟩
  · rintro ⟨sign, ip, frac, rfl, hsign, hip, hfrac⟩
    refine ⟨sign, ?_, ip ++ frac, ⟨ip, hip, frac, ?_, rfl⟩, by simp [List.append_assoc]⟩
    · rcases hsign with h | h
      · exact Or.inl h
      · exact Or.inr (Set.mem_singleton_iff.mpr h)
    · rcases hfrac with h | ⟨fp, rfl, hfp⟩
      · exact Or.inl h
      · exact Or.inr ⟨['.'], Set.mem_singleton_iff.mpr rfl, fp, hfp, rfl⟩

theorem validNumber_str (s : List Char) : validNumber (str s) = patternTest s := by
  simp [validNumber, JSVal.typeOf]

theorem not_isWhiteSpace_of_mem_decDigits {c : Char} (h : c ∈ decDigits) :
    isWhiteSpace c = false := by
  simp only [decDigits, List.mem_cons, List.mem_nil_iff, or_false] at h
  rcases h with rfl | rfl | rfl | rfl | rfl | rfl | rfl | rfl | rfl | rfl <;> decide

theorem NumericText.head {s : List Char} (h : NumericText s) :
    ∃ c t, s = c :: t ∧ (c = '-' ∨ c ∈ decDigits) := by
  obtain ⟨sign, ip, frac, rfl, hsign, ⟨hne, hip⟩, -⟩ := h
  cases ip with
  | nil => exact absurd rfl hne
  | cons d ip' =>
    rcases hsign with rfl | rfl
    · exact ⟨d, ip' ++ frac, by simp, Or.inr (hip d (List.mem_cons_self _ _))⟩
    · exact ⟨'-', d :: ip' ++ frac, by simp, Or.inl rfl⟩

theorem NumericText.last {s : List Char} (h : NumericText s) :
    ∃ t c, s = t ++ [c] ∧ c ∈ decDigits := by
  obtain ⟨sign, ip, frac, rfl, -, ⟨hne, hip⟩, hfrac⟩ := h
  rcases hfrac with rfl | ⟨fp, rfl, hfne, hfp⟩
  · refine ⟨sign ++ ip.dropLast, ip.getLast hne, ?_, hip _ (List.getLast_mem hne)⟩
    rw [List.append_nil, List.append_assoc, List.dropLast_append_getLast hne]
  · refine ⟨sign ++ ip ++ '.' :: fp.dropLast, fp.getLast hfne, ?_, hfp _ (List.getLast_mem hfne)⟩
    rw [List.append_assoc (sign ++ ip), List.cons_append, List.dropLast_append_getLast hfne]

/-- C1. On a string, `validNumber` answers true exactly when the whole string is
an optional leading minus sign, one or more decimal digits and optionally a dot
followed by one or more decimal digits.  It therefore rejects the empty string,
every string that starts or ends with a white space character (a trailing
newline included), a leading plus sign, exponent notation, a thousands
separator, a trailing dot and a leading dot. -/
theorem validNumber_string_iff :
    (∀ s : List Char, validNumber (str s) = true ↔ NumericText s) ∧
    validNumber (str []) = false ∧
    (∀ (s : List Char) (c : Char), isWhiteSpace c = true →
      validNumber (str (c :: s)) = false ∧ validNumber (str (s ++ [c])) = false) ∧
    validNumber (str " 5".toList) = false ∧
    validNumber (str "5 ".toList) = false ∧
    validNumber (str "5\n".toList) = false ∧
    validNumber (str "+5".toList) = false ∧
    validNumber (str "1e5".toList) = false ∧
    validNumber (str "1,000".toList) = false ∧
    validNumber (str "1.".toList) = false ∧
    validNumber (str ".5".toList) = false := by
  have key : ∀ s : List Char, validNumber (str s) = true ↔ NumericText s := fun s => by
    rw [validNumber_str, patternTest_iff]
  refine ⟨key, by decide, ?_, by decide, by decide, by decide, by decide, by decide, by decide,
    by decide, by decide⟩
  intro s c hc
  constructor
  · cases hv : validNumber (str (c :: s)) with
    | false => rfl
    | true =>
      obtain ⟨d, t, hdt, hd⟩ := ((key _).mp hv).head
      obtain ⟨rfl, -⟩ := List.cons.inj hdt
      rcases hd with rfl | hd
      · exact absurd hc (by decide)
      · rw [not_isWhiteSpace_of_mem_decDigits hd] at hc
        exact absurd hc (by decide)
  · cases hv : validNumber (str (s ++ [c])) with
    | false => rfl
    | true =>
      obtain ⟨t, d, htd, hd⟩ := ((key _).mp hv).last
      obtain ⟨-, hcd⟩ := List.append_inj' htd rfl
      obtain ⟨rfl, -⟩ := List.cons.inj hcd
      rw [not_isWhiteSpace_of_mem_decDigits hd] at hc
      exact absurd hc (by decide)

/-- C2. On a value that is not a string, `validNumber` answers true exactly when
the value has type number; NaN and both infinities are accepted, and booleans,
`null`, `undefined`, arrays and other objects are rejected. -/
theorem validNumber_nonString :
    (∀ v : JSVal, v.typeOf ≠ JSType.string →
      (validNumber v = true ↔ v.typeOf = JSType.number)) ∧
    (∀ n : JSNum, validNumber (num n) = true) ∧
    validNumber (num JSNum.nan) = true ∧
    validNumber (num (JSNum.inf false)) = true ∧
    validNumber (num (JSNum.inf true)) = true ∧
    (∀ b : Bool, validNumber (JSVal.bool b) = false) ∧
    validNumber null = false ∧
    validNumber undefined = false ∧
    (∀ elems : List JSVal, validNumber (arr elems) = false) ∧
    validNumber obj = false := by
  refine ⟨?_, fun _ => rfl, rfl, rfl, rfl, fun _ => rfl, rfl, rfl, fun _ => rfl, rfl⟩
  intro v hv
  cases v <;> simp_all [validNumber, JSVal.typeOf]

theorem dataDimensions_flat (elems : List JSVal) (hne : elems ≠ [])
    (h : ∃ e ∈ elems, e.isArray = false) :
    dataDimensions (arr elems) = ((elems.length : Int), -1) := by
  obtain ⟨e, he, hea⟩ := h
  have hlen : elems.length ≠ 0 := fun h => hne (List.length_eq_zero.mp h)
  have hall : elems.all JSVal.isArray = false := by
    rw [List.all_eq_false]
    exact ⟨e, he, by simp [hea]⟩
  simp [dataDimensions, hlen, hall]

theorem dataDimensions_arrays (row : List JSVal) (rest : List JSVal)
    (hrest : ∀ e ∈ rest, e.isArray = true) :
    dataDimensions (arr (arr row :: rest)) =
      (((arr row :: rest).length : Int), if 0 < row.length then (row.length : Int) else -1) := by
  have hall : (arr row :: rest).all JSVal.isArray = true := by
    simp only [List.all_cons, JSVal.isArray, Bool.true_and, List.all_eq_true]
    exact hrest
  simp only [dataDimensions, hall]
  simp

/-- C3. `dataDimensions` returns `[-1, -1]` on `undefined`, `null` and every
other value that is no array, `[0, -1]` on the empty array, `[length, -1]` on a
non-empty array with an element that is no array, and on a non-empty array of
arrays `[length, c]`, where `c` is the length of the first inner array when
that is positive and `-1` when it is zero, whatever the other inner arrays
are. -/
theorem dataDimensions_spec :
    dataDimensions undefined = (-1, -1) ∧
    dataDimensions null = (-1, -1) ∧
    (∀ d : JSVal, d.isArray = false → dataDimensions d = (-1, -1)) ∧
    dataDimensions (arr []) = (0, -1) ∧
    (∀ elems : List JSVal, elems ≠ [] → (∃ e ∈ elems, e.isArray = false) →
      dataDimensions (arr elems) = ((elems.length : Int), -1)) ∧
    (∀ (row : List JSVal) (rest : List JSVal), (∀ e ∈ rest, e.isArray = true) →
      dataDimensions (arr (arr row :: rest)) =
        (((arr row :: rest).length : Int), if 0 < row.length then (row.length : Int) else -1)) := by
  refine ⟨rfl, rfl, ?_, rfl, ?_, ?_⟩
  · intro d hd
    cases d <;> simp_all [dataDimensions, JSVal.isArray]
  · exact dataDimensions_flat
  · exact dataDimensions_arrays

/-! ## Numeric texts and the builtins `Number` and `parseFloat` -/

theorem decDigits_facts : ∀ c ∈ decDigits,
    isDecDigit c = true ∧ isWhiteSpace c = false ∧ c ≠ '-' ∧ c ≠ '+' ∧ c ≠ '.' ∧ c ≠ 'I' ∧
    c ≠ 'x' ∧ c ≠ 'X' ∧ c ≠ 'o' ∧ c ≠ 'O' ∧ c ≠ 'b' ∧ c ≠ 'B' := by
  decide

theorem isDecDigit_of_mem {c : Char} (h : c ∈ decDigits) : isDecDigit c = true :=
  (decDigits_facts c h).1

theorem scanUnsigned_int (neg : Bool) (ip : List Char)
    (hne : ip ≠ []) (hip : ∀ c ∈ ip, c ∈ decDigits) :
    scanUnsigned neg ip = some (decimalValue neg ip [] 0, []) := by
  have hd : ∀ c ∈ ip, isDecDigit c = true := fun c hc => isDecDigit_of_mem (hip c hc)
  have hpre : infinityLit.isPrefixOf ip = false := by
    cases ip with
    | nil => exact absurd rfl hne
    | cons d t =>
      have := (decDigits_facts d (hip d (List.mem_cons_self _ _))).2.2.2.2.2.1
      simp [infinityLit, List.isPrefixOf, Ne.symm this]
  have htake : ip.takeWhile isDecDigit = ip := List.takeWhile_eq_self_iff.mpr hd
  have hdrop : ip.dropWhile isDecDigit = [] := List.dropWhile_eq_nil_iff.mpr hd
  simp [scanUnsigned, hpre, htake, hdrop, hne, scanExponent]

theorem scanUnsigned_frac (neg : Bool) (ip fp : List Char)
    (hne : ip ≠ []) (hip : ∀ c ∈ ip, c ∈ decDigits) (hfp : ∀ c ∈ fp, c ∈ decDigits) :
    scanUnsigned neg (ip ++ '.' :: fp) = some (decimalValue neg ip fp 0, []) := by
  have hd : ∀ c ∈ ip, isDecDigit c = true := fun c hc => isDecDigit_of_mem (hip c hc)
  have hf : ∀ c ∈ fp, isDecDigit c = true := fun c hc => isDecDigit_of_mem (hfp c hc)
  have hpre : infinityLit.isPrefixOf (ip ++ '.' :: fp) = false := by
    cases ip with
    | nil => exact absurd rfl hne
    | cons d t =>
      have := (decDigits_facts d (hip d (List.mem_cons_self _ _))).2.2.2.2.2.1
      simp [infinityLit, List.isPrefixOf, Ne.symm this]
  have hdot : ¬ (isDecDigit '.' = true) := by decide
  have htake : (ip ++ '.' :: fp).takeWhile isDecDigit = ip := by
    rw [List.takeWhile_append_of_pos hd, List.takeWhile_cons_of_neg hdot, List.append_nil]
  have hdrop : (ip ++ '.' :: fp).dropWhile isDecDigit = '.' :: fp := by
    rw [List.dropWhile_append_of_pos hd, List.dropWhile_cons_of_neg hdot]
  have htake' : fp.takeWhile isDecDigit = fp := List.takeWhile_eq_self_iff.mpr hf
  have hdrop' : fp.dropWhile isDecDigit = [] := List.dropWhile_eq_nil_iff.mpr hf
  simp [scanUnsigned, hpre, htake, hdrop, htake', hdrop', hne, scanExponent]

theorem NumericText.parts {s : List Char} (h : NumericText s) :
    ∃ (neg : Bool) (ip fp : List Char), s = mkText neg ip fp ∧ ip ≠ [] ∧
      (∀ c ∈ ip, c ∈ decDigits) ∧ (∀ c ∈ fp, c ∈ decDigits) := by
  obtain ⟨sign, ip, frac, rfl, hsign, ⟨hne, hip⟩, hfrac⟩ := h
  rcases hfrac with rfl | ⟨fp, rfl, hfne, hfp⟩
  · rcases hsign with rfl | rfl
    · exact ⟨false, ip, [], by simp [mkText], hne, hip, by simp⟩
    · exact ⟨true, ip, [], by simp [mkText], hne, hip, by simp⟩
  · rcases hsign with rfl | rfl
    · exact ⟨false, ip, fp, by simp [mkText, hfne], hne, hip, hfp⟩
    · exact ⟨true, ip, fp, by simp [mkText, hfne], hne, hip, hfp⟩

theorem scanDecimal_mkText (neg : Bool) (ip fp : List Char)
    (hne : ip ≠ []) (hip : ∀ c ∈ ip, c ∈ decDigits) (hfp : ∀ c ∈ fp, c ∈ decDigits) :
    scanDecimal (mkText neg ip fp) = some (decimalValue neg ip fp 0, []) := by
  have hbody : scanUnsigned neg (ip ++ (if fp = [] then [] else '.' :: fp)) =
      some (decimalValue neg ip fp 0, []) := by
    by_cases hf : fp = []
    · subst hf
      simpa using scanUnsigned_int neg ip hne hip
    · simpa [hf] using scanUnsigned_frac neg ip fp hne hip hfp
  cases neg with
  | true =>
    simpa [mkText, scanDecimal, List.append_assoc] using hbody
  | false =>
    cases ip with
    | nil => exact absurd rfl hne
    | cons d t =>
      obtain ⟨-, -, h1, h2, -⟩ := decDigits_facts d (hip d (List.mem_cons_self _ _))
      have : scanDecimal (d :: (t ++ (if fp = [] then [] else '.' :: fp))) =
          scanUnsigned false (d :: (t ++ (if fp = [] then [] else '.' :: fp))) := by
        unfold scanDecimal
        split
        · rename_i heq
          exact absurd (List.cons.inj heq).1 h1
        · rename_i heq
          exact absurd (List.cons.inj heq).1 h2
        · rfl
      simpa [mkText, this] using hbody

theorem trimStart_mkText (neg : Bool) (ip fp : List Char)
    (hne : ip ≠ []) (hip : ∀ c ∈ ip, c ∈ decDigits) :
    trimStart (mkText neg ip fp) = mkText neg ip fp := by
  cases neg with
  | true =>
    have : ¬ (isWhiteSpace '-' = true) := by decide
    simp [mkText, trimStart, List.dropWhile_cons_of_neg this]
  | false =>
    cases ip with
    | nil => exact absurd rfl hne
    | cons d t =>
      have hd := (decDigits_facts d (hip d (List.mem_cons_self _ _))).2.1
      simp [mkText, trimStart, List.dropWhile_cons, hd]

theorem reverse_mkText_head (neg : Bool) (ip fp : List Char)
    (hne : ip ≠ []) (hip : ∀ c ∈ ip, c ∈ decDigits) (hfp : ∀ c ∈ fp, c ∈ decDigits) :
    ∃ d t, (mkText neg ip fp).reverse = d :: t ∧ d ∈ decDigits := by
  by_cases hf : fp = []
  · refine ⟨ip.getLast hne, (((if neg then ['-'] else []) ++ ip.dropLast)).reverse, ?_,
      hip _ (List.getLast_mem hne)⟩
    rw [← List.reverse_concat', List.append_assoc,
      List.dropLast_append_getLast hne]
    simp [mkText, hf]
  · refine ⟨fp.getLast hf, ((if neg then ['-'] else []) ++ ip ++ '.' :: fp.dropLast).reverse, ?_,
      hfp _ (List.getLast_mem hf)⟩
    rw [← List.reverse_concat', List.append_assoc _ ('.' :: fp.dropLast),
      List.cons_append, List.dropLast_append_getLast hf]
    simp [mkText, hf]

theorem trim_mkText (neg : Bool) (ip fp : List Char)
    (hne : ip ≠ []) (hip : ∀ c ∈ ip, c ∈ decDigits) (hfp : ∀ c ∈ fp, c ∈ decDigits) :
    trim (mkText neg ip fp) = mkText neg ip fp := by
  obtain ⟨d, t, hrev, hd⟩ := reverse_mkText_head neg ip fp hne hip hfp
  have hws := (decDigits_facts d hd).2.1
  unfold trim
  rw [trimStart_mkText neg ip fp hne hip, hrev]
  have : trimStart (d :: t) = d :: t := by simp [trimStart, List.dropWhile_cons, hws]
  rw [this, ← hrev, List.reverse_reverse]

theorem nonDecimalValue_mkText (neg : Bool) (ip fp : List Char)
    (hip : ∀ c ∈ ip, c ∈ decDigits) :
    nonDecimalValue (mkText neg ip fp) = none := by
  have key : ∀ (c : Char) (ds : List Char), c = '.' ∨ c ∈ decDigits →
      nonDecimalValue ('0' :: c :: ds) = none := by
    intro c ds hc
    have hfacts : c ≠ 'x' ∧ c ≠ 'X' ∧ c ≠ 'o' ∧ c ≠ 'O' ∧ c ≠ 'b' ∧ c ≠ 'B' := by
      rcases hc with rfl | hc
      · decide
      · exact (decDigits_facts c hc).2.2.2.2.2.2
    obtain ⟨h1, h2, h3, h4, h5, h6⟩ := hfacts
    simp [nonDecimalValue, h1, h2, h3, h4, h5, h6]
  cases neg with
  | true => simp [mkText, nonDecimalValue]
  | false =>
    match ip, hip with
    | [], _ =>
      by_cases hf : fp = []
      · simp [mkText, hf, nonDecimalValue]
      · simp [mkText, hf, nonDecimalValue]
    | [d], hip =>
      by_cases hf : fp = []
      · simp [mkText, hf, nonDecimalValue]
      · by_cases hd : d = '0'
        · subst hd
          simpa [mkText, hf] using key '.' fp (Or.inl rfl)
        · simp [mkText, hf, nonDecimalValue, hd]
    | d :: c :: t, hip =>
      by_cases hd : d = '0'
      · subst hd
        have hc : c ∈ decDigits := hip c (by simp)
        simpa [mkText] using key c (t ++ (if fp = [] then [] else '.' :: fp)) (Or.inr hc)
      · simp [mkText, nonDecimalValue, hd]

theorem denotedNumber_mkText (neg : Bool) (ip fp : List Char)
    (hne : ip ≠ []) (hip : ∀ c ∈ ip, c ∈ decDigits) (hfp : ∀ c ∈ fp, c ∈ decDigits) :
    denotedNumber (mkText neg ip fp) = decimalValue neg ip fp 0 := by
  have hd : ∀ c ∈ ip, isDecDigit c = true := fun c hc => isDecDigit_of_mem (hip c hc)
  have hf : ∀ c ∈ fp, isDecDigit c = true := fun c hc => isDecDigit_of_mem (hfp c hc)
  have hnd : ∀ c ∈ ip, decide (c ≠ '.') = true := fun c hc => by
    simpa using (decDigits_facts c (hip c hc)).2.2.2.2.1
  have hhead : decide ((mkText neg ip fp).head? = some '-') = neg := by
    cases neg with
    | true => simp [mkText]
    | false =>
      cases ip with
      | nil => exact absurd rfl hne
      | cons d t =>
        have := (decDigits_facts d (hip d (List.mem_cons_self _ _))).2.2.1
        simp [mkText, this]
  have hdigits : (mkText neg ip fp).filter isDecDigit = ip ++ fp := by
    have h1 : (if neg then ['-'] else []).filter isDecDigit = [] := by
      cases neg
      · rfl
      · decide
    have h2 : (if fp = [] then [] else '.' :: fp).filter isDecDigit = fp := by
      by_cases hfe : fp = []
      · simp [hfe]
      · have hdot : isDecDigit '.' = false := by decide
        simp only [hfe, if_false, List.filter_cons, hdot]
        exact List.filter_eq_self.mpr hf
    simp only [mkText, List.filter_append, h1, h2, List.nil_append,
      List.filter_eq_self.mpr hd]
  have hscale : ((mkText neg ip fp).dropWhile (fun c => decide (c ≠ '.'))).length - 1 =
      fp.length := by
    have h1 : ∀ c ∈ (if neg then ['-'] else []), decide (c ≠ '.') = true := by
      cases neg <;> simp
    have h2 : ((if fp = [] then [] else '.' :: fp)).dropWhile (fun c => decide (c ≠ '.')) =
        (if fp = [] then [] else '.' :: fp) := by
      by_cases hfe : fp = []
      · simp [hfe]
      · simp [hfe, List.dropWhile_cons]
    simp only [mkText, List.append_assoc]
    rw [List.dropWhile_append_of_pos h1, List.dropWhile_append_of_pos hnd, h2]
    by_cases hfe : fp = []
    · simp [hfe]
    · simp [hfe]
  unfold denotedNumber
  simp only [hhead, hdigits, hscale, decimalValue]
  by_cases hfe : fp = []
  · subst hfe
    simp only [List.length_nil, List.append_nil, pow_zero, Nat.cast_zero, sub_self, le_refl,
      if_true, Int.toNat_zero, mul_one]
  · have hpos : 0 < fp.length := List.length_pos.mpr hfe
    have hneg : ¬ (0 : Int) ≤ 0 - (fp.length : Int) := by omega
    rw [if_neg hneg]
    congr 2
    omega

/-- On a numeric text both `Number` and `parseFloat` return the number the text
denotes. -/
theorem builtins_on_numericText {s : List Char} (h : NumericText s) :
    stringToNumber s = denotedNumber s ∧ parseFloatStr s = denotedNumber s := by
  obtain ⟨neg, ip, fp, rfl, hne, hip, hfp⟩ := h.parts
  have hnil : mkText neg ip fp ≠ [] := by
    cases ip with
    | nil => exact absurd rfl hne
    | cons d t => cases neg <;> simp [mkText]
  constructor
  · unfold stringToNumber
    simp only [trim_mkText neg ip fp hne hip hfp, hnil, if_false,
      nonDecimalValue_mkText neg ip fp hip, scanDecimal_mkText neg ip fp hne hip hfp,
      denotedNumber_mkText neg ip fp hne hip hfp]
  · unfold parseFloatStr
    simp only [trimStart_mkText neg ip fp hne hip, scanDecimal_mkText neg ip fp hne hip hfp,
      denotedNumber_mkText neg ip fp hne hip hfp]

theorem toNumber_of_valid {v : JSVal} (h : validNumber v = true) :
    toNumber v = numericValue v := by
  cases v with
  | num n => rfl
  | str s =>
    rw [validNumber_str, patternTest_iff] at h
    exact (builtins_on_numericText h).1
  | _ => simp [validNumber, JSVal.typeOf] at h

/-! ## The aggregators -/

theorem validNums_eq (xs : List JSVal) :
    validNums xs = (xs.filter validNumber).map numericValue := by
  unfold validNums
  apply List.map_congr_left
  intro v hv
  exact toNumber_of_valid (List.mem_filter.mp hv).2

theorem validNums_length (xs : List JSVal) :
    (validNums xs).length = (xs.filter validNumber).length := by
  simp [validNums]

theorem validNums_eq_nil_iff (xs : List JSVal) :
    validNums xs = [] ↔ ∀ x ∈ xs, validNumber x = false := by
  simp [validNums, List.filter_eq_nil_iff]

/-- C4. `calculateMean` returns `false` exactly when its argument is no array, is
the empty array, or has no element accepted by `validNumber`.  Otherwise it
returns a number: the sum, taken from the left starting at zero, of the
numeric values of the accepted elements, divided by how many they are.  A
mean of zero or below zero is returned as that number. -/
theorem calculateMean_spec :
    (∀ d : JSVal, calculateMean d = JSVal.bool false ↔
      (d.isArray = false ∨ d = arr [] ∨
        ∃ xs, d = arr xs ∧ ∀ x ∈ xs, validNumber x = false)) ∧
    (∀ xs : List JSVal, (∃ x ∈ xs, validNumber x = true) →
      calculateMean (arr xs) =
        num (JSNum.div
          (List.foldl JSNum.add (JSNum.fin false 0) ((xs.filter validNumber).map numericValue))
          (JSNum.ofNat (xs.filter validNumber).length))) ∧
    calculateMean (arr [num (JSNum.ofNat 1), num (JSNum.neg (JSNum.ofNat 1))]) =
      num (JSNum.fin false 0) ∧
    calculateMean (arr [str "-3".toList, num (JSNum.ofNat 1), str "x".toList]) =
      num (JSNum.neg (JSNum.ofNat 1)) := by
  refine ⟨?_, ?_, by decide!, by decide!⟩
  · intro d
    cases d with
    | arr xs =>
      by_cases hnil : xs = []
      · subst hnil
        simp [calculateMean]
      · by_cases hv : validNums xs = []
        · have hall := (validNums_eq_nil_iff xs).mp hv
          simp only [calculateMean, hv, List.length_nil, if_true, ite_self, true_iff]
          exact Or.inr (Or.inr ⟨xs, rfl, hall⟩)
        · have hl1 : xs.length ≠ 0 := fun h => hnil (List.length_eq_zero.mp h)
          have hl2 : (validNums xs).length ≠ 0 := fun h => hv (List.length_eq_zero.mp h)
          simp only [calculateMean, hl1, hl2, if_false, JSVal.isArray]
          constructor
          · intro h
            exact JSVal.noConfusion h
          · rintro (h | h | ⟨ys, hys, hall⟩)
            · exact absurd h (by decide)
            · exact absurd (JSVal.arr.inj h) hnil
            · obtain rfl := JSVal.arr.inj hys
              exact absurd ((validNums_eq_nil_iff xs).mpr hall) hv
    | _ => simp [calculateMean, JSVal.isArray]
  · rintro xs ⟨x, hx, hvx⟩
    have hnil : xs.length ≠ 0 := by
      intro h
      rw [List.length_eq_zero.mp h] at hx
      exact absurd hx (List.not_mem_nil _)
    have hv : (validNums xs).length ≠ 0 := by
      intro h
      have := (validNums_eq_nil_iff xs).mp (List.length_eq_zero.mp h) x hx
      rw [hvx] at this
      exact absurd this (by decide)
    simp only [calculateMean, hnil, hv, if_false, sumFrom0]
    rw [validNums_length, validNums_eq]

/-- C5. `findTotal` returns `false` exactly when its argument is no array, is the
empty array, or has no element accepted by `validNumber`.  Otherwise it returns
the sum, taken from the left starting at zero, of the numeric values of the
accepted elements: a numeric text counts for the number it denotes and the
rejected elements are left out. -/
theorem findTotal_spec :
    (∀ d : JSVal, findTotal d = JSVal.bool false ↔
      (d.isArray = false ∨ d = arr [] ∨
        ∃ xs, d = arr xs ∧ ∀ x ∈ xs, validNumber x = false)) ∧
    (∀ xs : List JSVal, (∃ x ∈ xs, validNumber x = true) →
      findTotal (arr xs) =
        num (List.foldl JSNum.add (JSNum.fin false 0)
          ((xs.filter validNumber).map numericValue))) ∧
    findTotal (arr []) = JSVal.bool false ∧
    findTotal (arr [num (JSNum.ofNat 1), str "2".toList, num (JSNum.ofNat 3)]) =
      num (JSNum.ofNat 6) ∧
    findTotal (arr [num (JSNum.ofNat 1), str "x".toList, JSVal.bool true, null]) =
      num (JSNum.ofNat 1) := by
  refine ⟨?_, ?_, by decide, by decide!, by decide!⟩
  · intro d
    cases d with
    | arr xs =>
      by_cases hnil : xs = []
      · subst hnil
        simp [findTotal]
      · by_cases hv : validNums xs = []
        · have hall := (validNums_eq_nil_iff xs).mp hv
          simp only [findTotal, hv, List.length_nil, if_true, ite_self, true_iff]
          exact Or.inr (Or.inr ⟨xs, rfl, hall⟩)
        · have hl1 : xs.length ≠ 0 := fun h => hnil (List.length_eq_zero.mp h)
          have hl2 : (validNums xs).length ≠ 0 := fun h => hv (List.length_eq_zero.mp h)
          simp only [findTotal, hl1, hl2, if_false, JSVal.isArray]
          constructor
          · intro h
            exact JSVal.noConfusion h
          · rintro (h | h | ⟨ys, hys, hall⟩)
            · exact absurd h (by decide)
            · exact absurd (JSVal.arr.inj h) hnil
            · obtain rfl := JSVal.arr.inj hys
              exact absurd ((validNums_eq_nil_iff xs).mpr hall) hv
    | _ => simp [findTotal, JSVal.isArray]
  · rintro xs ⟨x, hx, hvx⟩
    have hnil : xs.length ≠ 0 := by
      intro h
      rw [List.length_eq_zero.mp h] at hx
      exact absurd hx (List.not_mem_nil _)
    have hv : (validNums xs).length ≠ 0 := by
      intro h
      have := (validNums_eq_nil_iff xs).mp (List.length_eq_zero.mp h) x hx
      rw [hvx] at this
      exact absurd this (by decide)
    simp only [findTotal, hnil, hv, if_false, sumFrom0]
    rw [validNums_eq]

/-! ## Number facts used by the sort -/

namespace JSNum

theorem bitLenAux_pos (fuel q : Nat) (hq : q ≠ 0) (hf : q ≤ fuel) : 0 < bitLenAux fuel q := by
  cases fuel with
  | zero => omega
  | succ f => simp [bitLenAux, hq]

theorem bitLenAux_lower (fuel : Nat) :
    ∀ q : Nat, q ≠ 0 → q ≤ fuel → 2 ^ (bitLenAux fuel q - 1) ≤ q := by
  induction fuel with
  | zero => intro q hq hf; omega
  | succ f ih =>
    intro q hq hf
    simp only [bitLenAux, hq, if_false, Nat.add_sub_cancel]
    by_cases h2 : q / 2 = 0
    · have h0 : bitLenAux f 0 = 0 := by cases f <;> simp [bitLenAux]
      rw [h2, h0]
      simp only [pow_zero]
      omega
    · have hle : q / 2 ≤ f := by omega
      have hpos := bitLenAux_pos f (q / 2) h2 hle
      have := ih (q / 2) h2 hle
      have hpow : 2 ^ bitLenAux f (q / 2) = 2 * 2 ^ (bitLenAux f (q / 2) - 1) := by
        rw [← pow_succ']
        congr 1
        omega
      rw [hpow]
      omega

theorem two_pow_dropBits_le (a : Nat) (ha : a ≠ 0) : 2 ^ dropBits a ≤ a := by
  have h1 := bitLenAux_lower a a ha (le_refl a)
  have h2 : 2 ^ dropBits a ≤ 2 ^ (bitLenAux a a - 1) := by
    apply Nat.pow_le_pow_right (by decide)
    unfold dropBits bitLen
    omega
  exact le_trans h2 h1

theorem roundUnits_eq (neg : Bool) (a b : Nat) :
    ∃ k : Nat, a / (b * 2 ^ dropBits (a / b)) * 2 ^ dropBits (a / b) ≤ k ∧
      roundUnits neg a b = if overflowUnits ≤ k then inf neg else fin neg k := by
  refine ⟨_, ?_, rfl⟩
  apply Nat.mul_le_mul_right
  split <;> omega

theorem isPos_roundUnits (neg : Bool) (a : Nat) (ha : a ≠ 0) :
    (roundUnits neg a 1).isPos = !neg := by
  have hle := two_pow_dropBits_le a ha
  have hp : 0 < 2 ^ dropBits a := Nat.pos_pow_of_pos _ (by decide)
  have hm : 0 < a / 2 ^ dropBits a := Nat.div_pos hle hp
  obtain ⟨k, hk, hr⟩ := roundUnits_eq neg a 1
  simp only [Nat.div_one, one_mul] at hk
  have hk0 : 0 < k := lt_of_lt_of_le (Nat.mul_pos hm hp) hk
  rw [hr]
  by_cases h : overflowUnits ≤ k
  · rw [if_pos h]
    rfl
  · rw [if_neg h]
    simp only [isPos, hk0, decide_True, Bool.and_true]

theorem isPos_sub_fin (s t : Bool) (j k : Nat) :
    (sub (fin s j) (fin t k)).isPos = decide (units t k < units s j) := by
  have hneg : units (!t) k = - units t k := by
    cases t <;> simp [units]
  simp only [sub, neg, add, hneg]
  by_cases hz : units s j + -units t k = 0
  · rw [if_pos hz]
    have : ¬ units t k < units s j := by omega
    simp [isPos, this]
  · rw [if_neg hz]
    have hne : (units s j + -units t k).natAbs ≠ 0 := by omega
    rw [isPos_roundUnits _ _ hne]
    by_cases hlt : units t k < units s j
    · have : ¬ units s j + -units t k < 0 := by omega
      simp [hlt, this]
    · have : units s j + -units t k < 0 := by omega
      simp [hlt, this]

/-- The comparator `a - b` is positive only when `b <= a`. -/
theorem le_of_isPos_sub {a b : JSNum} (h : (sub a b).isPos = true) : le b a = true := by
  cases a with
  | nan => simp [sub, add, isPos] at h
  | inf s =>
    cases b with
    | nan => simp [sub, neg, add, isPos] at h
    | inf t => cases s <;> cases t <;> simp_all [sub, neg, add, isPos, le]
    | fin t k => cases s <;> simp_all [sub, neg, add, isPos, le]
  | fin s j =>
    cases b with
    | nan => simp [sub, neg, add, isPos] at h
    | inf t => cases t <;> simp_all [sub, neg, add, isPos, le]
    | fin t k =>
      rw [isPos_sub_fin] at h
      simp only [le, decide_eq_true_eq] at h ⊢
      omega

/-- When neither side is NaN and the comparator `a - b` is not positive,
`a <= b`. -/
theorem le_of_not_isPos_sub {a b : JSNum} (ha : a ≠ nan) (hb : b ≠ nan)
    (h : (sub a b).isPos = false) : le a b = true := by
  cases a with
  | nan => exact absurd rfl ha
  | inf s =>
    cases b with
    | nan => exact absurd rfl hb
    | inf t => cases s <;> cases t <;> simp_all [sub, neg, add, isPos, le]
    | fin t k => cases s <;> simp_all [sub, neg, add, isPos, le]
  | fin s j =>
    cases b with
    | nan => exact absurd rfl hb
    | inf t => cases t <;> simp_all [sub, neg, add, isPos, le]
    | fin t k =>
      rw [isPos_sub_fin] at h
      simp only [le, decide_eq_true_eq, decide_eq_false_iff_not] at h ⊢
      omega

theorem le_trans' {a b c : JSNum} (hab : le a b = true) (hbc : le b c = true) :
    le a c = true := by
  cases a <;> cases b <;> cases c <;> simp_all [le] <;> first | omega | (rename_i s _ t; cases s <;> cases t <;> simp_all)

end JSNum

/-! ## The sort -/

theorem sortInsert_perm (cmp : JSNum → JSNum → JSNum) (a : JSNum) (l : List JSNum) :
    (sortInsert cmp a l).Perm (a :: l) := by
  induction l with
  | nil => exact List.Perm.refl _
  | cons b l ih =>
    unfold sortInsert
    split
    · exact (List.Perm.cons b ih).trans (List.Perm.swap a b l)
    · exact List.Perm.refl _

theorem sortWith_perm (cmp : JSNum → JSNum → JSNum) (l : List JSNum) :
    (sortWith cmp l).Perm l := by
  induction l with
  | nil => exact List.Perm.refl _
  | cons a l ih =>
    unfold sortWith
    exact (sortInsert_perm cmp a _).trans (List.Perm.cons a ih)

theorem sortInsert_sorted (a : JSNum) (l : List JSNum) (ha : a ≠ JSNum.nan)
    (hl : ∀ v ∈ l, v ≠ JSNum.nan) (hs : l.Pairwise (fun x y => JSNum.le x y = true)) :
    (sortInsert (fun x y => JSNum.sub x y) a l).Pairwise (fun x y => JSNum.le x y = true) := by
  induction l with
  | nil => simp [sortInsert]
  | cons b l ih =>
    have hb : b ≠ JSNum.nan := hl b (List.mem_cons_self _ _)
    have hl' : ∀ v ∈ l, v ≠ JSNum.nan := fun v hv => hl v (List.mem_cons_of_mem _ hv)
    obtain ⟨hbl, hsl⟩ := List.pairwise_cons.mp hs
    unfold sortInsert
    by_cases hpos : (JSNum.sub a b).isPos = true
    · rw [if_pos hpos]
      refine List.pairwise_cons.mpr ⟨?_, ih hl' hsl⟩
      intro v hv
      rcases List.mem_cons.mp ((sortInsert_perm _ a l).subset hv) with rfl | hv'
      · exact JSNum.le_of_isPos_sub hpos
      · exact hbl v hv'
    · rw [if_neg hpos]
      have hab : JSNum.le a b = true :=
        JSNum.le_of_not_isPos_sub ha hb (by simpa using hpos)
      refine List.pairwise_cons.mpr ⟨?_, hs⟩
      intro v hv
      rcases List.mem_cons.mp hv with rfl | hv'
      · exact hab
      · exact JSNum.le_trans' hab (hbl v hv')

theorem sortWith_sorted (l : List JSNum) (hl : ∀ v ∈ l, v ≠ JSNum.nan) :
    (sortWith (fun x y => JSNum.sub x y) l).Pairwise (fun x y => JSNum.le x y = true) := by
  induction l with
  | nil => simp [sortWith]
  | cons a l ih =>
    have hl' : ∀ v ∈ l, v ≠ JSNum.nan := fun v hv => hl v (List.mem_cons_of_mem _ hv)
    unfold sortWith
    apply sortInsert_sorted a _ (hl a (List.mem_cons_self _ _))
    · intro v hv
      exact hl' v ((sortWith_perm _ l).subset hv)
    · exact ih hl'

theorem JSNum.le_nan_right (a : JSNum) : JSNum.le a JSNum.nan = false := by
  cases a <;> rfl

theorem not_pairwise_le_of_nan {s : List JSNum} (hmem : JSNum.nan ∈ s) (hlen : 2 ≤ s.length) :
    ¬ s.Pairwise (fun a b => JSNum.le a b = true) := by
  intro hp
  cases s with
  | nil => simp at hlen
  | cons a t =>
    obtain ⟨hat, -⟩ := List.pairwise_cons.mp hp
    rcases List.mem_cons.mp hmem with ha | ht
    · cases t with
      | nil => simp at hlen
      | cons b t =>
        have := hat b (List.mem_cons_self _ _)
        rw [← ha] at this
        exact absurd this (by simp [JSNum.le])
    · have := hat _ ht
      rw [JSNum.le_nan_right] at this
      exact absurd this (by decide)

/-- C6, as amended. On an array with no element accepted by `validNumber`,
`calculateMedian` returns `false`.  On an array with an accepted element and
such that no numeric value of an accepted element is NaN, the numeric values of
the accepted elements have an arrangement `s` in ascending order such that the
result is the element of `s` at index `(n - 1) / 2` when the length `n` of `s`
is odd, and half the sum of the elements at `n / 2 - 1` and `n / 2` when it is
even. -/
theorem calculateMedian_spec :
    (∀ xs : List JSVal, (∀ x ∈ xs, validNumber x = false) →
      calculateMedian (arr xs) = Except.ok (JSVal.bool false)) ∧
    (∀ xs : List JSVal, (∃ x ∈ xs, validNumber x = true) →
      (∀ v ∈ (xs.filter validNumber).map numericValue, v ≠ JSNum.nan) →
      ∃ s : List JSNum,
        s.Perm ((xs.filter validNumber).map numericValue) ∧
        s.Pairwise (fun a b => JSNum.le a b = true) ∧
        (s.length % 2 = 1 → ∃ v, s.get? ((s.length - 1) / 2) = some v ∧
          calculateMedian (arr xs) = Except.ok (num v)) ∧
        (s.length % 2 = 0 → ∃ u v, s.get? (s.length / 2 - 1) = some u ∧
          s.get? (s.length / 2) = some v ∧
          calculateMedian (arr xs) =
            Except.ok (num (JSNum.div (JSNum.add u v) (JSNum.ofNat 2))))) ∧
    calculateMedian (arr [num (JSNum.ofNat 3), num (JSNum.ofNat 1), num (JSNum.ofNat 2)]) =
      Except.ok (num (JSNum.ofNat 2)) ∧
    calculateMedian (arr [num (JSNum.ofNat 4), num (JSNum.ofNat 1), num (JSNum.ofNat 2),
        num (JSNum.ofNat 3)]) =
      Except.ok (num (JSNum.div (JSNum.ofNat 5) (JSNum.ofNat 2))) := by
  refine ⟨?_, ?_, by decide!, by decide!⟩
  · intro xs hall
    have hv := (validNums_eq_nil_iff xs).mpr hall
    simp [calculateMedian, hv]
  · rintro xs ⟨x, hx, hvx⟩ hnan
    rw [← validNums_eq] at hnan
    have hv : (validNums xs).length ≠ 0 := by
      intro h
      have := (validNums_eq_nil_iff xs).mp (List.length_eq_zero.mp h) x hx
      rw [hvx] at this
      exact absurd this (by decide)
    have hperm := sortWith_perm (fun a b => JSNum.sub a b) (validNums xs)
    have hlen : (sortWith (fun a b => JSNum.sub a b) (validNums xs)).length ≠ 0 := by
      rw [hperm.length_eq]
      exact hv
    refine ⟨sortWith (fun a b => JSNum.sub a b) (validNums xs), ?_, ?_, ?_, ?_⟩
    · rw [← validNums_eq]
      exact hperm
    · exact sortWith_sorted _ hnan
    · intro hodd
      have hmod : ¬ (sortWith (fun a b => JSNum.sub a b) (validNums xs)).length % 2 = 0 := by
        omega
      have hidx : ((sortWith (fun a b => JSNum.sub a b) (validNums xs)).length - 1) / 2 =
          (sortWith (fun a b => JSNum.sub a b) (validNums xs)).length / 2 := by omega
      have hlt : (sortWith (fun a b => JSNum.sub a b) (validNums xs)).length / 2 <
          (sortWith (fun a b => JSNum.sub a b) (validNums xs)).length := by omega
      refine ⟨(sortWith (fun a b => JSNum.sub a b) (validNums xs)).get ⟨_, hlt⟩, ?_, ?_⟩
      · rw [hidx]
        exact List.get?_eq_get hlt
      · simp only [calculateMedian, hv, if_false, hmod, List.get?_eq_get hlt]
    · intro heven
      have hlt : (sortWith (fun a b => JSNum.sub a b) (validNums xs)).length / 2 <
          (sortWith (fun a b => JSNum.sub a b) (validNums xs)).length := by omega
      have hlt' : (sortWith (fun a b => JSNum.sub a b) (validNums xs)).length / 2 - 1 <
          (sortWith (fun a b => JSNum.sub a b) (validNums xs)).length := by omega
      refine ⟨(sortWith (fun a b => JSNum.sub a b) (validNums xs)).get ⟨_, hlt'⟩,
        (sortWith (fun a b => JSNum.sub a b) (validNums xs)).get ⟨_, hlt⟩,
        List.get?_eq_get hlt', List.get?_eq_get hlt, ?_⟩
      simp only [calculateMedian, hv, if_false, heven, if_true, List.getD_eq_getElem?_getD,
        List.getElem?_eq_getElem hlt, List.getElem?_eq_getElem hlt', Option.getD_some,
        List.get_eq_getElem]

/-! ## convertToFloat -/

theorem parseFloat_of_convertible {v : JSVal} (ht : v.typeOf ≠ JSType.number)
    (hv : validNumber v = true) : parseFloat v = numericValue v := by
  cases v with
  | str s =>
    rw [validNumber_str, patternTest_iff] at hv
    exact (builtins_on_numericText hv).2
  | _ => simp_all [validNumber, JSVal.typeOf]

theorem convertible_iff (c : Nat) (row : List JSVal) :
    convertible c row = true ↔
      c < row.length ∧ (row.getD c undefined).typeOf ≠ JSType.number ∧
        validNumber (row.getD c undefined) = true := by
  simp [convertible, and_assoc]

theorem convertRow_arr (c : Nat) (cells : List JSVal) :
    convertRow c (arr cells) = Except.ok (arr (coerceRow c cells), convertible c cells) := by
  by_cases h : convertible c cells = true
  · have hc := (convertible_iff c cells).mp h
    have : convertRow c (arr cells) =
        Except.ok (arr (cells.set c (num (parseFloat (cells.getD c undefined)))), true) := by
      simp only [convertRow]
      exact if_pos hc
    rw [this, parseFloat_of_convertible hc.2.1 hc.2.2, coerceRow, if_pos h, h]
  · have hc := (not_congr (convertible_iff c cells)).mp h
    have : convertRow c (arr cells) = Except.ok (arr cells, false) := by
      simp only [convertRow]
      exact if_neg hc
    rw [this, coerceRow, if_neg h, Bool.not_eq_true _ |>.mp h]

theorem convertLoop_rows (c : Nat) (rows : List (List JSVal)) (count : Nat) :
    convertLoop c (rows.map arr) count =
      ((rows.map (coerceRow c)).map arr,
        Except.ok (count + rows.countP (convertible c))) := by
  induction rows generalizing count with
  | nil => simp [convertLoop]
  | cons r rows ih =>
    simp only [List.map_cons, convertLoop, convertRow_arr, ih, List.countP_cons]
    by_cases h : convertible c r = true
    · simp only [h, if_true]
      congr 2
      omega
    · simp [h]

theorem coerceRow_length (c : Nat) (row : List JSVal) :
    (coerceRow c row).length = row.length := by
  unfold coerceRow
  split <;> simp

theorem coerceRow_get? (c : Nat) (row : List JSVal) (k : Nat) (v : JSVal)
    (hk : row.get? k = some v) :
    (coerceRow c row).get? k =
      some (if k = c ∧ v.typeOf ≠ JSType.number ∧ validNumber v = true
        then num (numericValue v) else v) := by
  have hlt : k < row.length := by
    by_contra hge
    rw [List.get?_eq_none.mpr (by omega)] at hk
    exact absurd hk (by simp)
  have hv : row.getD k undefined = v := by
    simp [List.getD_eq_getElem?_getD, ← List.get?_eq_getElem?, hk]
  by_cases hkc : k = c
  · subst hkc
    by_cases hq : convertible k row = true
    · have hc := (convertible_iff k row).mp hq
      rw [hv] at hc
      rw [coerceRow, if_pos hq, if_pos ⟨rfl, hc.2⟩, hv, List.get?_eq_getElem?,
        List.getElem?_set_self hlt]
    · have hc := (not_congr (convertible_iff k row)).mp hq
      rw [hv] at hc
      rw [coerceRow, if_neg hq, if_neg (fun h => hc ⟨hlt, h.2⟩), hk]
  · rw [if_neg (fun h => hkc h.1)]
    unfold coerceRow
    split
    · rw [List.get?_eq_getElem?, List.getElem?_set_ne (Ne.symm hkc), ← List.get?_eq_getElem?, hk]
    · exact hk

theorem convertible_coerceRow (c : Nat) (row : List JSVal) :
    convertible c (coerceRow c row) = false := by
  by_cases h : convertible c row = true
  · have hlt := ((convertible_iff c row).mp h).1
    have hget : (row.set c (num (numericValue (row.getD c undefined)))).getD c undefined =
        num (numericValue (row.getD c undefined)) := by
      simp [List.getD_eq_getElem?_getD, List.getElem?_set_self hlt]
    rw [coerceRow, if_pos h]
    unfold convertible
    rw [hget]
    simp [JSVal.typeOf]
  · rw [coerceRow, if_neg h]
    simpa using h

theorem coerceRow_idem (c : Nat) (row : List JSVal) :
    coerceRow c (coerceRow c row) = coerceRow c row := by
  have h := convertible_coerceRow c row
  generalize coerceRow c row = r at h
  simp [coerceRow, h]

theorem convertToFloat_rows (rows : List (List JSVal)) (c : Nat) :
    convertToFloat (arr (rows.map arr)) c =
      (arr ((rows.map (coerceRow c)).map arr), Except.ok (rows.countP (convertible c))) := by
  cases rows with
  | nil => simp [convertToFloat]
  | cons r rows =>
    have := convertLoop_rows c (r :: rows) 0
    simp only [convertToFloat, List.map_cons, List.length_cons, Nat.succ_ne_zero, if_false]
    simp only [List.map_cons] at this
    rw [this]
    simp only [Nat.zero_add]

/-! ## convertToFloat on a dataframe in memory -/

theorem coerceRow_nil (c : Nat) : coerceRow c [] = [] := by
  simp [coerceRow, convertible]

theorem set_getD_self {α : Type} (l : List α) (a : Nat) (d : α) :
    l.set a (l.getD a d) = l := by
  induction l generalizing a with
  | nil => rfl
  | cons x l ih =>
    cases a with
    | zero => rfl
    | succ a => simp only [List.set_cons_succ, List.getD_cons_succ, ih]

theorem getD_set_coerceRow (c : Nat) (heap : List (List JSVal)) (a b : Nat) :
    (heap.set a (coerceRow c (heap.getD a []))).getD b [] =
      if b = a then coerceRow c (heap.getD a []) else heap.getD b [] := by
  by_cases hba : b = a
  · subst hba
    rw [if_pos rfl]
    by_cases h : b < heap.length
    · simp [List.getD_eq_getElem?_getD, List.getElem?_set_self h]
    · have hle : heap.length ≤ b := by omega
      rw [List.set_eq_of_length_le hle]
      have : heap.getD b [] = [] := by
        simp [List.getD_eq_getElem?_getD, List.getElem?_eq_none hle]
      rw [this, coerceRow_nil]
  · rw [if_neg hba]
    simp [List.getD_eq_getElem?_getD, List.getElem?_set_ne (Ne.symm hba)]

theorem convertLoopHeap_cons (c : Nat) (a : Nat) (rest : List Nat) (heap : List (List JSVal))
    (count : Nat) :
    convertLoopHeap c (a :: rest) heap count =
      convertLoopHeap c rest (heap.set a (coerceRow c (heap.getD a [])))
        (count + if convertible c (heap.getD a []) = true then 1 else 0) := by
  by_cases h : convertible c (heap.getD a []) = true
  · have hc := (convertible_iff c (heap.getD a [])).mp h
    rw [convertLoopHeap, if_pos hc, if_pos h, parseFloat_of_convertible hc.2.1 hc.2.2, coerceRow,
      if_pos h]
  · have hc := (not_congr (convertible_iff c (heap.getD a []))).mp h
    rw [convertLoopHeap, if_neg hc, if_neg h, coerceRow, if_neg h, set_getD_self]
    rfl

theorem convertLoopHeap_length (c : Nat) (df : List Nat) (heap : List (List JSVal))
    (count : Nat) : (convertLoopHeap c df heap count).1.length = heap.length := by
  induction df generalizing heap count with
  | nil => rfl
  | cons a rest ih => rw [convertLoopHeap_cons, ih, List.length_set]

theorem convertLoopHeap_getD (c : Nat) (df : List Nat) (heap : List (List JSVal))
    (count : Nat) (b : Nat) :
    (convertLoopHeap c df heap count).1.getD b [] =
      if b ∈ df then coerceRow c (heap.getD b []) else heap.getD b [] := by
  induction df generalizing heap count with
  | nil => simp [convertLoopHeap]
  | cons a rest ih =>
    rw [convertLoopHeap_cons, ih, getD_set_coerceRow]
    by_cases hba : b = a
    · subst hba
      simp only [if_true, List.mem_cons, true_or, coerceRow_idem]
      split <;> rfl
    · simp only [if_neg hba, List.mem_cons, hba, false_or, if_false]

theorem rowsOf_convertLoopHeap (c : Nat) (df : List Nat) (heap : List (List JSVal))
    (count : Nat) :
    rowsOf (convertLoopHeap c df heap count).1 df = (rowsOf heap df).map (coerceRow c) := by
  unfold rowsOf
  rw [List.map_map]
  apply List.map_congr_left
  intro a ha
  simp only [Function.comp, convertLoopHeap_getD, if_pos ha]

theorem rowsOf_set_of_not_mem (heap : List (List JSVal)) (df : List Nat) (a : Nat)
    (r : List JSVal) (ha : a ∉ df) : rowsOf (heap.set a r) df = rowsOf heap df := by
  unfold rowsOf
  apply List.map_congr_left
  intro b hb
  have hne : a ≠ b := fun h => ha (h ▸ hb)
  simp [List.getD_eq_getElem?_getD, List.getElem?_set_ne hne]

theorem convertLoopHeap_count (c : Nat) (df : List Nat) (hnd : df.Nodup)
    (heap : List (List JSVal)) (count : Nat) :
    (convertLoopHeap c df heap count).2 = count + (rowsOf heap df).countP (convertible c) := by
  induction df generalizing heap count with
  | nil => simp [convertLoopHeap, rowsOf]
  | cons a rest ih =>
    obtain ⟨ha, hrest⟩ := List.nodup_cons.mp hnd
    rw [convertLoopHeap_cons, ih hrest, rowsOf_set_of_not_mem _ _ _ _ ha]
    simp only [rowsOf, List.map_cons, List.countP_cons]
    omega

theorem convertToFloatHeap_eq (heap : List (List JSVal)) (df : List Nat) (c : Nat) :
    convertToFloatHeap heap df c = convertLoopHeap c df heap 0 := by
  cases df with
  | nil => rfl
  | cons a rest => simp [convertToFloatHeap]

theorem convertToFloat_heap_state (heap : List (List JSVal)) (df : List Nat) (c : Nat) :
    (convertToFloat (arr ((rowsOf heap df).map arr)) c).1 =
      arr ((rowsOf (convertToFloatHeap heap df c).1 df).map arr) := by
  rw [convertToFloat_rows, convertToFloatHeap_eq, rowsOf_convertLoopHeap]

/-- C7, as amended. Let `df` be a dataframe whose rows are array objects
distinct from one another (`df.Nodup`: no address occurs twice), held in the
store `heap`.  Then `convertToFloat` returns the number of rows whose cell in
column `c` exists, is not already a number and passes `validNumber`.  After the
call the store has the same row objects, those that are no row of `df` as they
were, and `df` has the same rows in the same order; every row has its length,
the cells counted hold the number their text denoted, and every other cell is
what it was; a row too short for the column is untouched.  On such a dataframe
the call on rows given as values, `convertToFloat`, gives the same result. -/
theorem convertToFloat_spec :
    (∀ (heap : List (List JSVal)) (df : List Nat) (c : Nat),
      df.Nodup → (∀ a ∈ df, a < heap.length) →
      ∃ heap' : List (List JSVal),
        convertToFloatHeap heap df c =
          (heap', (rowsOf heap df).countP (fun r =>
            decide (c < r.length) && decide ((r.getD c undefined).typeOf ≠ JSType.number) &&
              validNumber (r.getD c undefined))) ∧
        heap'.length = heap.length ∧
        (∀ a, a ∉ df → heap'.getD a [] = heap.getD a []) ∧
        (∀ i r r', (rowsOf heap df).get? i = some r → (rowsOf heap' df).get? i = some r' →
          r'.length = r.length ∧
          (r.length ≤ c → r' = r) ∧
          ∀ k v, r.get? k = some v →
            r'.get? k = some (if k = c ∧ v.typeOf ≠ JSType.number ∧ validNumber v = true
              then num (numericValue v) else v)) ∧
        convertToFloat (arr ((rowsOf heap df).map arr)) c =
          (arr ((rowsOf heap' df).map arr), Except.ok (convertToFloatHeap heap df c).2)) ∧
    convertToFloatHeap [[str "1".toList], [str "x".toList], [str "2.5".toList]] [0, 1, 2] 0 =
      ([[num (JSNum.ofNat 1)], [str "x".toList],
          [num (JSNum.div (JSNum.ofNat 5) (JSNum.ofNat 2))]], 2) := by
  refine ⟨?_, by decide!⟩
  intro heap df c hnd _
  have hcount := convertLoopHeap_count c df hnd heap 0
  rw [Nat.zero_add] at hcount
  have hrows := rowsOf_convertLoopHeap c df heap 0
  refine ⟨(convertLoopHeap c df heap 0).1, ?_, convertLoopHeap_length c df heap 0, ?_, ?_, ?_⟩
  · rw [convertToFloatHeap_eq]
    exact Prod.ext rfl hcount
  · intro a ha
    rw [convertLoopHeap_getD, if_neg ha]
  · intro i r r' hr hr'
    have : r' = coerceRow c r := by
      rw [hrows, List.get?_eq_getElem?, List.getElem?_map, ← List.get?_eq_getElem?, hr] at hr'
      exact (Option.some.inj hr').symm
    subst this
    refine ⟨coerceRow_length c r, ?_, coerceRow_get? c r⟩
    intro hle
    have : convertible c r = false := by
      simp [convertible, Nat.not_lt.mpr hle]
    simp [coerceRow, this]
  · rw [convertToFloat_rows, hrows, convertToFloatHeap_eq, hcount]

/-- C8. `convertToFloat` is idempotent on dataframes: a second call on the
dataframe left by a first call, for the same column, returns 0 and leaves the
dataframe as it is. -/
theorem convertToFloat_idempotent (rows : List (List JSVal)) (c : Nat) :
    convertToFloat (convertToFloat (arr (rows.map arr)) c).1 c =
      ((convertToFloat (arr (rows.map arr)) c).1, Except.ok 0) := by
  rw [convertToFloat_rows rows c]
  simp only []
  rw [convertToFloat_rows (rows.map (coerceRow c)) c]
  congr 2
  · congr 1
    rw [List.map_map]
    apply List.map_congr_left
    intro r _
    exact coerceRow_idem c r
  · rw [List.countP_eq_zero]
    intro r hr
    obtain ⟨r0, -, rfl⟩ := List.mem_map.mp hr
    simp [convertible_coerceRow]

/-! ## flatten -/

theorem mapE_ok {α β : Type} (f : α → Except JSError β) (g : α → β) (xs : List α)
    (h : ∀ x ∈ xs, f x = Except.ok (g x)) : mapE f xs = Except.ok (xs.map g) := by
  induction xs with
  | nil => rfl
  | cons x xs ih =>
    have hx := h x (List.mem_cons_self _ _)
    have hxs := ih (fun y hy => h y (List.mem_cons_of_mem _ hy))
    simp only [mapE, hx, hxs, List.map_cons]

theorem filterE_ok {α : Type} (p : α → Except JSError Bool) (q : α → Bool) (xs : List α)
    (h : ∀ x ∈ xs, p x = Except.ok (q x)) : filterE p xs = Except.ok (xs.filter q) := by
  induction xs with
  | nil => rfl
  | cons x xs ih =>
    have hx := h x (List.mem_cons_self _ _)
    have hxs := ih (fun y hy => h y (List.mem_cons_of_mem _ hy))
    simp only [filterE, hx, hxs, List.filter_cons]

theorem exists_rows_of_all_isArray (elems : List JSVal)
    (h : elems.all JSVal.isArray = true) : ∃ rows : List (List JSVal), elems = rows.map arr := by
  induction elems with
  | nil => exact ⟨[], rfl⟩
  | cons e elems ih =>
    simp only [List.all_cons, Bool.and_eq_true] at h
    obtain ⟨rows, rfl⟩ := ih h.2
    cases e with
    | arr r => exact ⟨r :: rows, rfl⟩
    | _ => simp [JSVal.isArray] at h

theorem dataDimensions_cols_eq_one {df : JSVal} (h : (dataDimensions df).2 = 1) :
    ∃ (x : JSVal) (rows : List (List JSVal)), df = arr (([x] :: rows).map arr) := by
  cases df with
  | arr elems =>
    by_cases hall : elems.all JSVal.isArray = true
    · obtain ⟨rows, rfl⟩ := exists_rows_of_all_isArray elems hall
      cases rows with
      | nil => simp [dataDimensions] at h
      | cons r rows =>
        have hrest : ∀ e ∈ rows.map arr, e.isArray = true := by
          intro e he
          obtain ⟨r', -, rfl⟩ := List.mem_map.mp he
          rfl
        rw [List.map_cons, dataDimensions_arrays r _ hrest] at h
        by_cases hr : 0 < r.length
        · simp only [hr, if_true] at h
          have h1 : r.length = 1 := by exact_mod_cast h
          match r, h1 with
          | [x], _ => exact ⟨x, rows, rfl⟩
        · simp [hr] at h
    · by_cases hne : elems = []
      · subst hne
        simp [dataDimensions] at h
      · have hex : ∃ e ∈ elems, e.isArray = false := by
          simpa [List.all_eq_true] using hall
        rw [dataDimensions_flat elems hne hex] at h
        simp at h
  | _ => simp [dataDimensions] at h

/-- C9. When `dataDimensions` reports exactly one column, `flatten` returns one
entry per row, in row order: the first cell of the row (its only cell when the
row has one cell).  In every other case it returns the empty array: an argument
that is no array, the empty array, a flat dataset, and a dataframe whose first
row has no cell or more than one. -/
theorem flatten_spec :
    (∀ df : JSVal, (dataDimensions df).2 = 1 →
      ∃ rows : List (List JSVal), df = arr (rows.map arr) ∧
        flatten df = Except.ok (arr (rows.map (fun r => r.getD 0 undefined)))) ∧
    (∀ cells : List JSVal, cells ≠ [] →
      flatten (arr (cells.map (fun x => arr [x]))) = Except.ok (arr cells)) ∧
    (∀ df : JSVal, (dataDimensions df).2 ≠ 1 → flatten df = Except.ok (arr [])) ∧
    (∀ df : JSVal, df.isArray = false → flatten df = Except.ok (arr [])) ∧
    flatten (arr []) = Except.ok (arr []) ∧
    (∀ elems : List JSVal, (∃ e ∈ elems, e.isArray = false) →
      flatten (arr elems) = Except.ok (arr [])) ∧
    (∀ (row : List JSVal) (rest : List JSVal), row.length ≠ 1 →
      flatten (arr (arr row :: rest)) = Except.ok (arr [])) ∧
    flatten (arr [arr [num (JSNum.ofNat 1)], arr [num (JSNum.ofNat 2)],
        arr [num (JSNum.ofNat 3)]]) =
      Except.ok (arr [num (JSNum.ofNat 1), num (JSNum.ofNat 2), num (JSNum.ofNat 3)]) ∧
    flatten (arr [arr [num (JSNum.ofNat 1), num (JSNum.ofNat 2)],
        arr [num (JSNum.ofNat 3), num (JSNum.ofNat 4)]]) = Except.ok (arr []) := by
  have hone : ∀ df : JSVal, (dataDimensions df).2 = 1 →
      ∃ rows : List (List JSVal), df = arr (rows.map arr) ∧
        flatten df = Except.ok (arr (rows.map (fun r => r.getD 0 undefined))) := by
    intro df h
    obtain ⟨x, rows, rfl⟩ := dataDimensions_cols_eq_one h
    refine ⟨[x] :: rows, rfl, ?_⟩
    have hm : mapE (fun row : JSVal => row.get 0) (([x] :: rows).map arr) =
        Except.ok ((([x] :: rows).map arr).map (fun row => match row with
          | arr r => r.getD 0 undefined
          | _ => undefined)) := by
      apply mapE_ok
      intro e he
      obtain ⟨r, -, rfl⟩ := List.mem_map.mp he
      rfl
    have hlen : ¬ ((([x] :: rows).map arr).length = 0 ∨
        (dataDimensions (arr (([x] :: rows).map arr))).2 ≠ 1) := by
      rw [h]
      simp
    rw [flatten, if_neg hlen, hm]
    simp only [Except.map, List.map_map]
    rfl
  have hnot : ∀ df : JSVal, (dataDimensions df).2 ≠ 1 → flatten df = Except.ok (arr []) := by
    intro df h
    cases df with
    | arr elems => simp [flatten, h]
    | _ => rfl
  refine ⟨hone, ?_, hnot, ?_, rfl, ?_, ?_, by decide!, by decide!⟩
  · intro cells hne
    cases cells with
    | nil => exact absurd rfl hne
    | cons x cells =>
      have hd : (dataDimensions (arr ((x :: cells).map (fun x => arr [x])))).2 = 1 := by
        have hall : ((x :: cells).map (fun x => arr [x])).all JSVal.isArray = true := by
          simp [JSVal.isArray]
        simp only [dataDimensions]
        rw [if_neg (by simp), if_pos hall]
        simp
      obtain ⟨rows, hrows, hres⟩ := hone _ hd
      have hinj : rows = (x :: cells).map (fun x => [x]) := by
        have h1 := JSVal.arr.inj hrows
        have h2 : (x :: cells).map (fun x => arr [x]) =
            ((x :: cells).map (fun x => [x])).map arr := by
          rw [List.map_map]
          rfl
        rw [h2] at h1
        exact (List.map_injective_iff.mpr (fun a b hab => JSVal.arr.inj hab) h1).symm
      rw [hres, hinj, List.map_map]
      congr 2
      exact List.map_id' _
  · intro df hdf
    cases df <;> simp_all [flatten, JSVal.isArray]
  · intro elems ⟨e, he, hea⟩
    apply hnot
    have hne : elems ≠ [] := List.ne_nil_of_mem he
    rw [dataDimensions_flat elems hne ⟨e, he, hea⟩]
    simp
  · intro row rest hrow
    apply hnot
    intro h
    obtain ⟨x, rows, hx⟩ := dataDimensions_cols_eq_one h
    have := JSVal.arr.inj hx
    simp only [List.map_cons] at this
    have h1 := JSVal.arr.inj (List.cons.inj this).1
    rw [h1] at hrow
    exact hrow rfl

/-! ## createSlice -/

theorem strictEq_star (p : JSVal) : strictEq p (str ['*']) = true ↔ p = str ['*'] := by
  cases p <;> simp [strictEq]

theorem filterE_rows (c : Nat) (p : JSVal) (rows : List (List JSVal)) :
    filterE (fun row : JSVal => (row.get c).map (fun v => strictEq v p)) (rows.map arr) =
      Except.ok ((rows.filter (fun r => strictEq (r.getD c undefined) p)).map arr) := by
  have h := filterE_ok (fun row : JSVal => (row.get c).map (fun v => strictEq v p))
    (fun row : JSVal => match row with
      | arr r => strictEq (r.getD c undefined) p
      | _ => false)
    (rows.map arr) (by
      intro e he
      obtain ⟨r, -, rfl⟩ := List.mem_map.mp he
      rfl)
  rw [h, List.filter_map]
  rfl

/-- C10. With an empty list of export columns, `createSlice` on a dataframe (an
array of array rows) returns all the rows, as they are and in order, when the
pattern is the string `*`, and otherwise exactly the rows whose cell in column
`c` is strictly equal to the pattern, as they are and in their order; strict
equality does not convert, so the number 1 does not match the text `1`.  On the
empty array and on an argument that is no array it returns the empty array. -/
theorem createSlice_noExport :
    (∀ (rows : List (List JSVal)) (c : Nat),
      createSlice (arr (rows.map arr)) c (str ['*']) [] = Except.ok (arr (rows.map arr))) ∧
    (∀ (rows : List (List JSVal)) (c : Nat) (p : JSVal), p ≠ str ['*'] →
      createSlice (arr (rows.map arr)) c p [] =
        Except.ok (arr ((rows.filter (fun r => strictEq (r.getD c undefined) p)).map arr))) ∧
    strictEq (num (JSNum.ofNat 1)) (str ['1']) = false ∧
    strictEq (str ['1']) (num (JSNum.ofNat 1)) = false ∧
    createSlice (arr [arr [num (JSNum.ofNat 1), str ['a']], arr [str ['1'], str ['b']]]) 0
        (str ['1']) [] =
      Except.ok (arr [arr [str ['1'], str ['b']]]) ∧
    createSlice (arr [arr [num (JSNum.ofNat 1), str ['a']], arr [str ['1'], str ['b']]]) 0
        (num (JSNum.ofNat 1)) [] =
      Except.ok (arr [arr [num (JSNum.ofNat 1), str ['a']]]) ∧
    (∀ (c : Nat) (p : JSVal), createSlice (arr []) c p [] = Except.ok (arr [])) ∧
    (∀ (df : JSVal) (c : Nat) (p : JSVal), df.isArray = false →
      createSlice df c p [] = Except.ok (arr [])) := by
  refine ⟨?_, ?_, rfl, rfl, by decide!, by decide!, fun _ _ => rfl, ?_⟩
  · intro rows c
    cases rows with
    | nil => rfl
    | cons r rows =>
      have hs : strictEq (str ['*']) (str ['*']) = true := by decide
      simp only [createSlice, List.map_cons, List.length_cons, Nat.succ_ne_zero, if_false, hs,
        if_true, List.length_nil]
  · intro rows c p hp
    cases rows with
    | nil => rfl
    | cons r rows =>
      have hs : ¬ (strictEq p (str ['*']) = true) := fun h => hp ((strictEq_star p).mp h)
      have hf := filterE_rows c p (r :: rows)
      simp only [List.map_cons] at hf
      simp only [createSlice, List.map_cons, List.length_cons, Nat.succ_ne_zero, if_false, hs,
        hf, List.length_nil, if_true]
      rfl
  · intro df c p hdf
    cases df <;> simp_all [createSlice, JSVal.isArray]

theorem matchingRows_of_ne {p : JSVal} (hp : p ≠ str ['*']) (rows : List (List JSVal))
    (c : Nat) :
    matchingRows rows c p = rows.filter (fun r => strictEq (r.getD c undefined) p) := by
  unfold matchingRows
  split
  · exact absurd rfl hp
  · rfl

theorem createSlice_rows (rows : List (List JSVal)) (c : Nat) (p : JSVal) (e : List Nat) :
    createSlice (arr (rows.map arr)) c p e =
      Except.ok (arr (if e = [] then (matchingRows rows c p).map arr
        else (matchingRows rows c p).map (fun r => arr (projectRow e r)))) := by
  have hinc : (if strictEq p (str ['*']) = true then Except.ok (rows.map arr)
      else filterE (fun row : JSVal => (row.get c).map (fun v => strictEq v p)) (rows.map arr)) =
      (Except.ok ((matchingRows rows c p).map arr) : Except JSError (List JSVal)) := by
    by_cases hp : p = str ['*']
    · rw [if_pos ((strictEq_star p).mpr hp), hp, matchingRows]
    · rw [if_neg (fun h => hp ((strictEq_star p).mp h)), filterE_rows, matchingRows_of_ne hp]
  have hproj : mapE (fun row : JSVal => (mapE (fun i => row.get i) e).map arr)
      ((matchingRows rows c p).map arr) =
      Except.ok (((matchingRows rows c p).map arr).map (fun row => match row with
        | arr r => arr (projectRow e r)
        | _ => undefined)) := by
    apply mapE_ok
    intro x hx
    obtain ⟨r, -, rfl⟩ := List.mem_map.mp hx
    have : mapE (fun i => (arr r).get i) e = Except.ok (e.map (fun i => r.getD i undefined)) :=
      mapE_ok _ _ e (fun i _ => rfl)
    rw [this]
    rfl
  cases rows with
  | nil =>
    have hnil : matchingRows [] c p = [] := by
      by_cases hp : p = str ['*']
      · rw [hp, matchingRows]
      · rw [matchingRows_of_ne hp, List.filter_nil]
    simp [createSlice, hnil]
  | cons r rows =>
    have hlen : ¬ ((r :: rows).map arr).length = 0 := by simp
    simp only [createSlice, hlen, if_false, hinc]
    by_cases he : e = []
    · subst he
      simp
    · have hl : ¬ e.length = 0 := fun h => he (List.length_eq_zero.mp h)
      simp only [hl, if_false, he]
      rw [hproj]
      simp only [Except.map, List.map_map]
      rfl

/-- C11. With a non-empty list of export columns `e`, `createSlice` on a
dataframe returns one row for every row selected without export columns, in the
same order, and each result row has exactly `e.length` cells, the cell at
position `j` being the selected row's cell at index `e[j]`; an index may occur
twice and in any order. -/
theorem createSlice_export :
    (∀ (rows : List (List JSVal)) (c : Nat) (p : JSVal) (e : List Nat), e ≠ [] →
      ∃ sel : List (List JSVal),
        createSlice (arr (rows.map arr)) c p [] = Except.ok (arr (sel.map arr)) ∧
        ∃ out : List (List JSVal),
          createSlice (arr (rows.map arr)) c p e = Except.ok (arr (out.map arr)) ∧
          out.length = sel.length ∧
          ∀ k r o, sel.get? k = some r → out.get? k = some o →
            o.length = e.length ∧
            ∀ j i, e.get? j = some i → o.get? j = some (r.getD i undefined)) ∧
    createSlice
        (arr [arr [str ['x'], str ['A'], str ['1']], arr [str ['y'], str ['B'], str ['2']],
          arr [str ['z'], str ['A'], str ['3']]]) 1 (str ['A']) [0, 2] =
      Except.ok (arr [arr [str ['x'], str ['1']], arr [str ['z'], str ['3']]]) ∧
    createSlice (arr [arr [str ['x'], str ['A']]]) 0 (str ['*']) [1, 1, 0, 5] =
      Except.ok (arr [arr [str ['A'], str ['A'], str ['x'], undefined]]) := by
  refine ⟨?_, by decide, by decide⟩
  intro rows c p e he
  refine ⟨matchingRows rows c p, ?_, (matchingRows rows c p).map (projectRow e), ?_, by simp, ?_⟩
  · rw [createSlice_rows, if_pos rfl]
  · rw [createSlice_rows, if_neg he, List.map_map]
    rfl
  · intro k r o hr ho
    have ho' : o = projectRow e r := by
      rw [List.get?_eq_getElem?, List.getElem?_map, ← List.get?_eq_getElem?, hr] at ho
      exact (Option.some.inj ho).symm
    subst ho'
    refine ⟨by simp [projectRow], ?_⟩
    intro j i hj
    rw [projectRow, List.get?_eq_getElem?, List.getElem?_map, ← List.get?_eq_getElem?, hj]
    rfl

/-! ## loadCSV -/

theorem intercalate_cons_cons (sep x y : List Char) (ys : List (List Char)) :
    sep.intercalate (x :: y :: ys) = x ++ sep ++ sep.intercalate (y :: ys) := by
  simp [List.intercalate, List.intersperse, List.flatten]

theorem splitOn_isSplit (sep : Char) (s : List Char) : IsSplit sep s (splitOn sep s) := by
  induction s with
  | nil =>
    refine ⟨by simp [splitOn], ?_, ?_⟩
    · intro l hl
      simp only [splitOn, List.mem_singleton] at hl
      subst hl
      exact List.not_mem_nil _
    · simp [splitOn, List.intercalate, List.intersperse, List.flatten]
  | cons c cs ih =>
    obtain ⟨hne, hno, hint⟩ := ih
    cases hsp : splitOn sep cs with
    | nil => exact absurd hsp hne
    | cons l ls =>
      rw [hsp] at hno hint
      by_cases hc : c = sep
      · subst hc
        have : splitOn c (c :: cs) = [] :: l :: ls := by simp [splitOn, hsp]
        rw [this]
        refine ⟨by simp, ?_, ?_⟩
        · intro x hx
          rcases List.mem_cons.mp hx with rfl | hx'
          · exact List.not_mem_nil _
          · exact hno x hx'
        · rw [intercalate_cons_cons, hint]
          rfl
      · have : splitOn sep (c :: cs) = (c :: l) :: ls := by simp [splitOn, hsp, hc]
        rw [this]
        refine ⟨by simp, ?_, ?_⟩
        · intro x hx
          rcases List.mem_cons.mp hx with rfl | hx'
          · intro hmem
            rcases List.mem_cons.mp hmem with h | h
            · exact hc h.symm
            · exact hno l (List.mem_cons_self _ _) h
          · exact hno x (List.mem_cons_of_mem _ hx')
        · cases ls with
          | nil =>
            have h1 : [sep].intercalate [l] = l := by
              simp [List.intercalate, List.intersperse, List.flatten]
            have h2 : [sep].intercalate [c :: l] = c :: l := by
              simp [List.intercalate, List.intersperse, List.flatten]
            rw [h2, ← hint, h1]
          | cons y ys =>
            rw [intercalate_cons_cons] at hint ⊢
            rw [← hint]
            rfl

theorem trim_eq_nil_iff (line : List Char) : trim line = [] ↔ isBlank line = true := by
  unfold trim trimStart isBlank
  rw [List.reverse_eq_nil_iff, List.dropWhile_eq_nil_iff, List.all_eq_true]
  constructor
  · intro h
    have hnil : line.dropWhile isWhiteSpace = [] := by
      by_contra hne
      have hhead := List.head_dropWhile_not isWhiteSpace line hne
      have hmem : (line.dropWhile isWhiteSpace).head hne ∈
          (line.dropWhile isWhiteSpace).reverse :=
        List.mem_reverse.mpr (List.head_mem hne)
      rw [h _ hmem] at hhead
      exact absurd hhead (by decide)
    exact List.dropWhile_eq_nil_iff.mp hnil
  · intro h x hx
    rw [List.dropWhile_eq_nil_iff.mpr h] at hx
    exact absurd hx (List.not_mem_nil _)

theorem filterIdx_eq (g : List Nat) {α : Type} (xs : List α) (start : Nat) :
    filterIdx (fun _ rowIndex => !g.contains rowIndex) xs start =
      ((xs.enumFrom start).filter (fun ix => decide (ix.1 ∉ g))).map Prod.snd := by
  induction xs generalizing start with
  | nil => rfl
  | cons x xs ih =>
    simp only [filterIdx, List.enumFrom_cons, List.filter_cons, ih]
    by_cases h : start ∈ g
    · simp [h]
    · simp [h]

theorem IsSplit.eq_splitOn {sep : Char} :
    ∀ {s : List Char} {parts : List (List Char)}, IsSplit sep s parts → parts = splitOn sep s
  | [], parts, ⟨hne, _, hint⟩ => by
    match parts, hne with
    | [x], _ =>
      have : x = [] := by
        simpa [List.intercalate, List.intersperse, List.flatten] using hint
      rw [this]
      rfl
    | x :: y :: ys, _ =>
      rw [intercalate_cons_cons] at hint
      simp at hint
  | c :: cs, parts, ⟨hne, hno, hint⟩ => by
    match parts, hne with
    | [x], _ =>
      have hx : x = c :: cs := by
        simpa [List.intercalate, List.intersperse, List.flatten] using hint
      subst hx
      have hc : c ≠ sep := fun h => hno _ (List.mem_cons_self _ _) (h ▸ List.mem_cons_self _ _)
      have hsub : IsSplit sep cs [cs] :=
        ⟨by simp, fun l hl => by
          rw [List.mem_singleton.mp hl]
          exact fun hm => hno _ (List.mem_cons_self _ _) (List.mem_cons_of_mem _ hm),
          by simp [List.intercalate, List.intersperse, List.flatten]⟩
      have := hsub.eq_splitOn
      simp [splitOn, hc, ← this]
    | [] :: y :: ys, _ =>
      rw [intercalate_cons_cons] at hint
      simp only [List.nil_append, List.singleton_append, List.cons.injEq] at hint
      obtain ⟨hsep, hrest⟩ := hint
      have hsub : IsSplit sep cs (y :: ys) :=
        ⟨by simp, fun l hl => hno l (List.mem_cons_of_mem _ hl), hrest⟩
      have := hsub.eq_splitOn
      simp [splitOn, hsep.symm, ← this]
    | (d :: x) :: y :: ys, _ =>
      rw [intercalate_cons_cons] at hint
      simp only [List.cons_append, List.cons.injEq] at hint
      obtain ⟨hd, hrest⟩ := hint
      subst hd
      have hc : d ≠ sep := fun h => hno _ (List.mem_cons_self _ _) (h ▸ List.mem_cons_self _ _)
      have hsub : IsSplit sep cs (x :: y :: ys) :=
        ⟨by simp, fun l hl => by
          rcases List.mem_cons.mp hl with rfl | hl'
          · exact fun hm => hno _ (List.mem_cons_self _ _) (List.mem_cons_of_mem _ hm)
          · exact hno l (List.mem_cons_of_mem _ hl'),
          by rw [intercalate_cons_cons]; exact hrest⟩
      have := hsub.eq_splitOn
      simp [splitOn, hc, ← this]

theorem forall₂_isSplit_eq {kept : List (List Char)} {rows : List (List (List Char))}
    (h : List.Forall₂ (fun line row => IsSplit ',' line row) kept rows) :
    rows = kept.map (splitOn ',') := by
  induction h with
  | nil => rfl
  | cons hab _ ih => rw [List.map_cons, ← ih, hab.eq_splitOn]

theorem forall₂_isSplit_map (kept : List (List Char)) :
    List.Forall₂ (fun line row => IsSplit ',' line row) kept (kept.map (splitOn ',')) := by
  induction kept with
  | nil => exact List.Forall₂.nil
  | cons l ls ih => exact List.Forall₂.cons (splitOn_isSplit ',' l) ih

theorem isCSVRows_csvRows (t : List Char) (g : List Nat) : IsCSVRows t g (csvRows t g) :=
  ⟨splitOn '\n' t, _, splitOn_isSplit '\n' t, forall₂_isSplit_map _, rfl⟩

theorem IsCSVRows.eq_csvRows {t : List Char} {g : List Nat} {df : List (List (List Char))}
    (h : IsCSVRows t g df) : df = csvRows t g := by
  obtain ⟨lines, rows, hl, hr, rfl⟩ := h
  rw [hl.eq_splitOn] at hr
  rw [forall₂_isSplit_eq hr]
  rfl

theorem loadCSV_of_file (fs : FileSystem) (path t : List Char) (g : List Nat) (ic : JSVal)
    (h : fs.content path = some t) :
    loadCSV fs path g ic =
      ([FsCall.existsSync path, FsCall.readFileSync path],
        match csvRows t g with
        | [] => Except.error JSError.typeError
        | row :: rest =>
          Except.ok (toDataframe (row :: rest), ((row :: rest).length : Int) + 1,
            (row.length : Int))) := by
  have hfilter : (splitOn '\n' t).filter (fun line => decide ((trim line).length > 0)) =
      (splitOn '\n' t).filter (fun l => !isBlank l) := by
    apply List.filter_congr
    intro l _
    have := trim_eq_nil_iff l
    cases hb : isBlank l
    · have hne : trim l ≠ [] := fun h0 => by
        rw [this.mp h0] at hb
        exact absurd hb (by decide)
      simp [List.length_pos.mpr hne]
    · simp [this.mpr hb]
  have hrows : filterIdx (fun _ rowIndex => !g.contains rowIndex)
      (((splitOn '\n' t).filter (fun line => decide ((trim line).length > 0))).map
        (fun line => splitOn ',' line)) 0 = csvRows t g := by
    rw [hfilter, filterIdx_eq]
    rfl
  unfold loadCSV
  rw [h]
  simp only [hrows]
  cases csvRows t g with
  | nil => rfl
  | cons row rest =>
    simp only [List.length_cons, gt_iff_lt, Nat.zero_lt_succ, if_true, Except.map,
      Nat.cast_add, Nat.cast_one]

/-- C12. For an existing file with text `t` and ignored rows `g`, let `df` be the
rows obtained by splitting `t` on newlines, discarding the blank lines,
splitting the other lines on commas and dropping the rows whose index is in
`g`.  When `df` has a row, `loadCSV` returns `df` as its dataframe.  When `df`
has no row the call does not return a dataframe: it throws a `TypeError`, as
on the empty file. -/
theorem loadCSV_dataframe :
    (∀ (t : List Char) (g : List Nat), ∃ df, IsCSVRows t g df) ∧
    (∀ (fs : FileSystem) (path t : List Char) (g : List Nat) (ic : JSVal)
        (df : List (List (List Char))),
      fs.content path = some t → IsCSVRows t g df → df ≠ [] →
      ∃ r c, (loadCSV fs path g ic).2 = Except.ok (toDataframe df, r, c)) ∧
    (∀ (fs : FileSystem) (path t : List Char) (g : List Nat) (ic : JSVal),
      fs.content path = some t → IsCSVRows t g [] →
      (loadCSV fs path g ic).2 = Except.error JSError.typeError) ∧
    IsCSVRows [] [] [] ∧
    (loadCSV ⟨fun _ => some []⟩ "data.csv".toList [] (arr [])).2 =
      Except.error JSError.typeError := by
  refine ⟨fun t g => ⟨_, isCSVRows_csvRows t g⟩, ?_, ?_, isCSVRows_csvRows [] [], by decide⟩
  · intro fs path t g ic df h hdf hne
    rw [loadCSV_of_file fs path t g ic h, ← hdf.eq_csvRows]
    cases df with
    | nil => exact absurd rfl hne
    | cons row rest => exact ⟨_, _, rfl⟩
  · intro fs path t g ic h hdf
    rw [loadCSV_of_file fs path t g ic h, ← hdf.eq_csvRows]

/-- C13. For an existing file whose rows, after blank-line removal and row
exclusion, start with the row `row`, the column count returned by `loadCSV`
is the length of `row`.  When no row remains the call does not return 0: it
throws a `TypeError`, on the empty file and on a file whose rows are all
excluded. -/
theorem loadCSV_cols :
    (∀ (fs : FileSystem) (path t : List Char) (g : List Nat) (ic : JSVal)
        (row : List (List Char)) (rest : List (List (List Char))),
      fs.content path = some t → IsCSVRows t g (row :: rest) →
      ∃ d r, (loadCSV fs path g ic).2 = Except.ok (d, r, (row.length : Int))) ∧
    (∀ (fs : FileSystem) (path t : List Char) (g : List Nat) (ic : JSVal),
      fs.content path = some t → IsCSVRows t g [] →
      (loadCSV fs path g ic).2 = Except.error JSError.typeError) ∧
    (loadCSV ⟨fun _ => some []⟩ "data.csv".toList [] (arr [])).2 =
      Except.error JSError.typeError ∧
    (loadCSV ⟨fun _ => some "a,b\nc,d\n".toList⟩ "data.csv".toList [0, 1] (arr [])).2 =
      Except.error JSError.typeError := by
  refine ⟨?_, ?_, by decide, by decide⟩
  · intro fs path t g ic row rest h hdf
    rw [loadCSV_of_file fs path t g ic h, ← hdf.eq_csvRows]
    exact ⟨_, _, rfl⟩
  · intro fs path t g ic h hdf
    rw [loadCSV_of_file fs path t g ic h, ← hdf.eq_csvRows]

/-- C16. For an existing file and ignored rows for which at least one row
remains, the row count returned by `loadCSV` is the number of rows of the
returned dataframe plus one. -/
theorem loadCSV_rowCount (fs : FileSystem) (path t : List Char) (g : List Nat) (ic : JSVal)
    (df : List (List (List Char)))
    (hfile : fs.content path = some t) (hdf : IsCSVRows t g df) (hne : df ≠ []) :
    ∃ (rows : List JSVal) (c : Int),
      (loadCSV fs path g ic).2 = Except.ok (arr rows, (rows.length : Int) + 1, c) ∧
      arr rows = toDataframe df ∧ rows.length = df.length := by
  rw [loadCSV_of_file fs path t g ic hfile, ← hdf.eq_csvRows]
  cases df with
  | nil => exact absurd rfl hne
  | cons row rest =>
    refine ⟨(row :: rest).map (fun cells : List (List Char) => arr (cells.map str)), row.length,
      ?_, by rfl, by simp⟩
    simp only [toDataframe, List.length_map]

/-- C17. The argument `ignoreCols` has no effect: for every file system, path
and ignored rows, two calls of `loadCSV` that differ in it only make the same
calls to `fs` and have the same outcome, the same triple or the same error. -/
theorem loadCSV_ignoreCols (fs : FileSystem) (path : List Char) (g : List Nat)
    (c1 c2 : JSVal) : loadCSV fs path g c1 = loadCSV fs path g c2 := by
  unfold loadCSV
  cases fs.content path <;> rfl

/-- C18. At a path where no file exists `loadCSV` returns `[[], -1, -1]`,
whatever the other two arguments are; it asks whether the file exists and
makes no other call to `fs`, so the file is not read, and nothing is thrown. -/
theorem loadCSV_missing (fs : FileSystem) (path : List Char) (g : List Nat) (ic : JSVal)
    (h : fs.content path = none) :
    loadCSV fs path g ic = ([FsCall.existsSync path], Except.ok (arr [], -1, -1)) := by
  unfold loadCSV
  rw [h]

/-! ## Inputs outside the documented domain -/

/-- C14. `calculateMedian` throws a `TypeError` on every argument that is no
array, such as `undefined`, `null`, a number and a plain object: it calls
`.filter` on its argument without the guard `calculateMean` and `findTotal`
have.  On an array it does not throw and returns a number or `false`. -/
theorem calculateMedian_nonArray :
    calculateMedian undefined = Except.error JSError.typeError ∧
    calculateMedian null = Except.error JSError.typeError ∧
    calculateMedian (num (JSNum.ofNat 5)) = Except.error JSError.typeError ∧
    calculateMedian obj = Except.error JSError.typeError ∧
    (∀ d : JSVal, d.isArray = false → calculateMedian d = Except.error JSError.typeError) ∧
    (∀ d : JSVal, d.isArray = false →
      calculateMean d = JSVal.bool false ∧ findTotal d = JSVal.bool false) ∧
    (∀ xs : List JSVal, calculateMedian (arr xs) = Except.ok (JSVal.bool false) ∨
      ∃ n, calculateMedian (arr xs) = Except.ok (num n)) := by
  refine ⟨rfl, rfl, rfl, rfl, ?_, ?_, ?_⟩
  · intro d hd
    cases d <;> simp_all [calculateMedian, JSVal.isArray]
  · intro d hd
    cases d <;> simp_all [calculateMean, findTotal, JSVal.isArray]
  · intro xs
    by_cases hv : (validNums xs).length = 0
    · left
      simp [calculateMedian, hv]
    · right
      have hperm := sortWith_perm (fun a b => JSNum.sub a b) (validNums xs)
      have hlen : (sortWith (fun a b => JSNum.sub a b) (validNums xs)).length ≠ 0 := by
        rw [hperm.length_eq]
        exact hv
      by_cases heven : (sortWith (fun a b => JSNum.sub a b) (validNums xs)).length % 2 = 0
      · simp only [calculateMedian, hv, if_false, heven, if_true]
        exact ⟨_, rfl⟩
      · have hlt : (sortWith (fun a b => JSNum.sub a b) (validNums xs)).length / 2 <
            (sortWith (fun a b => JSNum.sub a b) (validNums xs)).length := by omega
        simp only [calculateMedian, hv, if_false, heven, List.get?_eq_get hlt]
        exact ⟨_, rfl⟩

theorem validNumber_singleChar (ch : Char) : validNumber (str [ch]) = isDecDigit ch := by
  cases hd : isDecDigit ch with
  | true =>
    have hmem : ch ∈ decDigits := by
      simpa [isDecDigit] using hd
    rw [validNumber_str, patternTest_iff]
    exact ⟨[], [ch], [], rfl, Or.inl rfl, ⟨by simp, fun c hc => by
      rw [List.mem_singleton.mp hc]; exact hmem⟩, Or.inl rfl⟩
  | false =>
    cases hv : validNumber (str [ch]) with
    | false => rfl
    | true =>
      rw [validNumber_str, patternTest_iff] at hv
      obtain ⟨t, d, htd, hdm⟩ := hv.last
      have hlen := congrArg List.length htd
      simp only [List.length_singleton, List.length_append] at hlen
      have ht : t = [] := List.length_eq_zero.mp (by omega)
      subst ht
      obtain ⟨rfl, -⟩ := List.cons.inj htd
      rw [isDecDigit_of_mem hdm] at hd
      exact absurd hd (by decide)

theorem convertLoop_passedOver (c : Nat) (elems : List JSVal) (count : Nat)
    (h : ∀ e ∈ elems, passedOver c e = true) :
    convertLoop c elems count = (elems, Except.ok count) := by
  induction elems generalizing count with
  | nil => rfl
  | cons e elems ih =>
    have he := h e (List.mem_cons_self _ _)
    have hrest := ih count (fun x hx => h x (List.mem_cons_of_mem _ hx))
    have hrow : convertRow c e = Except.ok (e, false) := by
      cases e with
      | str s =>
        simp only [passedOver] at he
        simp only [convertRow]
        cases hg : (codeUnits s).get? c with
        | none => rfl
        | some u =>
          cases u with
          | none => rfl
          | some ch =>
            rw [hg] at he
            simp only [validNumber_singleChar]
            have : isDecDigit ch = false := by simpa using he
            rw [this]
      | num n => rfl
      | bool b => rfl
      | obj => rfl
      | undefined => simp [passedOver] at he
      | null => simp [passedOver] at he
      | arr x => simp [passedOver] at he
    simp only [convertLoop, hrow, Bool.false_eq_true, if_false, hrest]

theorem convertLoop_nonArrays (c : Nat) (elems : List JSVal) (count : Nat)
    (h : ∀ e ∈ elems, e.isArray = false) :
    (convertLoop c elems count).1 = elems := by
  induction elems generalizing count with
  | nil => rfl
  | cons e elems ih =>
    have he := h e (List.mem_cons_self _ _)
    have hrest := fun n => ih n (fun x hx => h x (List.mem_cons_of_mem _ hx))
    cases e with
    | arr x => simp [JSVal.isArray] at he
    | undefined => rfl
    | null => rfl
    | num n => simp only [convertLoop, convertRow, hrest]
    | bool b => simp only [convertLoop, convertRow, hrest]
    | obj => simp only [convertLoop, convertRow, hrest]
    | str s =>
      simp only [convertLoop, convertRow]
      cases (codeUnits s).get? c with
      | none => simp only [hrest]
      | some u => cases u <;> simp only [hrest]

theorem convertLoop_count_le (c : Nat) (elems : List JSVal) (count n : Nat)
    (h : (convertLoop c elems count).2 = Except.ok n) : count ≤ n := by
  induction elems generalizing count with
  | nil =>
    simp only [convertLoop] at h
    exact le_of_eq (Except.ok.inj h)
  | cons e elems ih =>
    simp only [convertLoop] at h
    cases hr : convertRow c e with
    | error err =>
      rw [hr] at h
      exact absurd h (by simp)
    | ok p =>
      obtain ⟨row', inc⟩ := p
      rw [hr] at h
      have := ih _ h
      cases inc
      · simpa using this
      · have h1 : count + 1 ≤ n := by simpa using this
        omega

theorem passedOver_of_convertLoop (c : Nat) (elems : List JSVal) (count : Nat)
    (hna : ∀ e ∈ elems, e.isArray = false)
    (h : (convertLoop c elems count).2 = Except.ok count) :
    ∀ e ∈ elems, passedOver c e = true := by
  induction elems generalizing count with
  | nil => intro e he; exact absurd he (List.not_mem_nil e)
  | cons x elems ih =>
    have hx := hna x (List.mem_cons_self _ _)
    have hna' : ∀ e ∈ elems, e.isArray = false :=
      fun e he => hna e (List.mem_cons_of_mem _ he)
    simp only [convertLoop] at h
    cases hr : convertRow c x with
    | error err =>
      rw [hr] at h
      exact absurd h (by simp)
    | ok p =>
      obtain ⟨row', inc⟩ := p
      rw [hr] at h
      cases inc with
      | true =>
        have := convertLoop_count_le c elems _ _ h
        simp only [if_true] at this
        omega
      | false =>
        simp only [Bool.false_eq_true, if_false] at h
        have hrest := ih count hna' h
        have hpx : passedOver c x = true := by
          cases x with
          | arr r => simp [JSVal.isArray] at hx
          | undefined => simp [convertRow] at hr
          | null => simp [convertRow] at hr
          | num n => rfl
          | bool b => rfl
          | obj => rfl
          | str s =>
            simp only [convertRow] at hr
            simp only [passedOver]
            cases hg : (codeUnits s).get? c with
            | none => rfl
            | some u =>
              cases u with
              | none => rfl
              | some ch =>
                rw [hg] at hr
                simp only [validNumber_singleChar] at hr
                have hd : isDecDigit ch = false := (Prod.mk.inj (Except.ok.inj hr)).2
                simp [hd]
        intro e he
        rcases List.mem_cons.mp he with rfl | he'
        · exact hpx
        · exact hrest e he'

/-- C15, as amended. On an argument that is no array, on the empty array, and
on an array whose elements are numbers, booleans, plain objects with no
`length` property, or strings whose UTF-16 code unit at index `c` is missing or
is no decimal digit, `convertToFloat` returns 0, throws nothing and changes
nothing.  On an array whose elements are primitive values (`undefined`, `null`,
booleans, numbers, strings) or such plain objects, the array is left as it
was whatever is returned or thrown, and 0 is returned only in the case just
described. -/
theorem convertToFloat_nonDataframe :
    (∀ (df : JSVal) (c : Nat), df.isArray = false →
      convertToFloat df c = (df, Except.ok 0)) ∧
    (∀ c : Nat, convertToFloat (arr []) c = (arr [], Except.ok 0)) ∧
    (∀ (elems : List JSVal) (c : Nat), (∀ e ∈ elems, passedOver c e = true) →
      convertToFloat (arr elems) c = (arr elems, Except.ok 0)) ∧
    (∀ (elems : List JSVal) (c : Nat), (∀ e ∈ elems, e.isArray = false) →
      (convertToFloat (arr elems) c).1 = arr elems ∧
      ((convertToFloat (arr elems) c).2 = Except.ok 0 ↔
        ∀ e ∈ elems, passedOver c e = true)) := by
  refine ⟨?_, fun _ => rfl, ?_, ?_⟩
  · intro df c hdf
    cases df <;> simp_all [convertToFloat, JSVal.isArray]
  · intro elems c h
    cases elems with
    | nil => rfl
    | cons e elems =>
      simp only [convertToFloat, List.length_cons, Nat.succ_ne_zero, if_false,
        convertLoop_passedOver c (e :: elems) 0 h]
  · intro elems c h
    cases elems with
    | nil =>
      refine ⟨rfl, fun _ => ?_, fun _ => rfl⟩
      intro e he
      exact absurd he (List.not_mem_nil e)
    | cons e elems =>
      refine ⟨?_, ?_, ?_⟩
      · simp only [convertToFloat, List.length_cons, Nat.succ_ne_zero, if_false,
          convertLoop_nonArrays c (e :: elems) 0 h]
      · intro h0
        apply passedOver_of_convertLoop c (e :: elems) 0 h
        simpa only [convertToFloat, List.length_cons, Nat.succ_ne_zero, if_false] using h0
      · intro hp
        simp only [convertToFloat, List.length_cons, Nat.succ_ne_zero, if_false,
          convertLoop_passedOver c (e :: elems) 0 hp]

/-! ## Coercion and the aggregates -/

theorem coerceRow_getD (c : Nat) (r : List JSVal) :
    (coerceRow c r).getD c undefined =
      if convertible c r = true then num (numericValue (r.getD c undefined))
      else r.getD c undefined := by
  by_cases h : convertible c r = true
  · have hlt := ((convertible_iff c r).mp h).1
    rw [coerceRow, if_pos h, if_pos h]
    simp [List.getD_eq_getElem?_getD, List.getElem?_set_self hlt]
  · rw [coerceRow, if_neg h, if_neg h]

theorem validNums_coerced (c : Nat) (rows : List (List JSVal)) :
    validNums ((rows.map (coerceRow c)).map (fun r => r.getD c undefined)) =
      validNums (rows.map (fun r => r.getD c undefined)) := by
  induction rows with
  | nil => rfl
  | cons r rows ih =>
    unfold validNums at ih ⊢
    simp only [List.map_cons, List.filter_cons, coerceRow_getD]
    by_cases h : convertible c r = true
    · obtain ⟨-, -, hv⟩ := (convertible_iff c r).mp h
      have hv' : validNumber (num (numericValue (r.getD c undefined))) = true := rfl
      simp only [h, if_true, hv, hv', List.map_cons, ih]
      rw [toNumber_of_valid hv]
      rfl
    · have h' : convertible c r = false := by simpa using h
      simp only [h', Bool.false_eq_true, if_false]
      by_cases hv : validNumber (r.getD c undefined) = true
      · simp only [hv, if_true, List.map_cons, ih]
      · have hv' : validNumber (r.getD c undefined) = false := by simpa using hv
        simp only [hv', Bool.false_eq_true, if_false, ih]

theorem aggregates_congr {xs ys : List JSVal} (hlen : xs.length = ys.length)
    (hv : validNums xs = validNums ys) :
    findTotal (arr xs) = findTotal (arr ys) ∧
      calculateMean (arr xs) = calculateMean (arr ys) ∧
      calculateMedian (arr xs) = calculateMedian (arr ys) := by
  simp only [findTotal, calculateMean, calculateMedian, hlen, hv, and_self]

/-- C20. Coercing a column does not change its aggregates: for a dataframe whose
rows all have a cell at index `c`, `findTotal`, `calculateMean` and
`calculateMedian` give the same results on the cells of column `c` before and
after `convertToFloat(df, c)`.  The number `parseFloat` gives for a text that
passes `validNumber` is the number `Number` gives for it. -/
theorem convertToFloat_preserves_aggregates :
    (∀ (rows : List (List JSVal)) (c : Nat), (∀ r ∈ rows, c < r.length) →
      ∃ rows' : List (List JSVal),
        (convertToFloat (arr (rows.map arr)) c).1 = arr (rows'.map arr) ∧
        findTotal (arr (rows'.map (fun r => r.getD c undefined))) =
          findTotal (arr (rows.map (fun r => r.getD c undefined))) ∧
        calculateMean (arr (rows'.map (fun r => r.getD c undefined))) =
          calculateMean (arr (rows.map (fun r => r.getD c undefined))) ∧
        calculateMedian (arr (rows'.map (fun r => r.getD c undefined))) =
          calculateMedian (arr (rows.map (fun r => r.getD c undefined)))) ∧
    (∀ s : List Char, validNumber (str s) = true → parseFloat (str s) = toNumber (str s)) := by
  constructor
  · intro rows c _
    refine ⟨rows.map (coerceRow c), by rw [convertToFloat_rows], ?_⟩
    exact aggregates_congr (by simp) (validNums_coerced c rows)
  · intro s hs
    rw [validNumber_str, patternTest_iff] at hs
    have := builtins_on_numericText hs
    simp only [parseFloat, toNumber, this.1, this.2]

/-! ## Rounding never crosses a double -/

namespace JSNum

theorem roundUnits_eq_roundMag (neg : Bool) (a b : Nat) :
    roundUnits neg a b =
      if overflowUnits ≤ roundMag a b then inf neg else fin neg (roundMag a b) := rfl

theorem bitLenAux_zero (fuel : Nat) : bitLenAux fuel 0 = 0 := by
  cases fuel <;> simp [bitLenAux]

theorem bitLenAux_upper (fuel : Nat) : ∀ q : Nat, q ≤ fuel → q < 2 ^ bitLenAux fuel q := by
  induction fuel with
  | zero =>
    intro q hq
    have : q = 0 := by omega
    subst this
    simp [bitLenAux]
  | succ f ih =>
    intro q hq
    by_cases h0 : q = 0
    · subst h0
      simp [bitLenAux]
    · simp only [bitLenAux, h0, if_false]
      have := ih (q / 2) (by omega)
      rw [pow_succ]
      omega

theorem lt_two_pow_bitLen (q : Nat) : q < 2 ^ bitLen q := bitLenAux_upper q q (le_refl q)

theorem two_pow_bitLen_le (q : Nat) (hq : q ≠ 0) : 2 ^ (bitLen q - 1) ≤ q :=
  bitLenAux_lower q q hq (le_refl q)

theorem bitLen_zero : bitLen 0 = 0 := rfl

theorem bitLen_le_of_lt {k n : Nat} (h : k < 2 ^ n) : bitLen k ≤ n := by
  by_contra hcon
  have hk : k ≠ 0 := by
    intro h0
    rw [h0, bitLen_zero] at hcon
    omega
  have h1 := two_pow_bitLen_le k hk
  have h2 : 2 ^ n ≤ 2 ^ (bitLen k - 1) := Nat.pow_le_pow_right (by decide) (by omega)
  omega

theorem bitLen_mono {a b : Nat} (h : a ≤ b) : bitLen a ≤ bitLen b :=
  bitLen_le_of_lt (lt_of_le_of_lt h (lt_two_pow_bitLen b))

theorem dropBits_mono {a b : Nat} (h : a ≤ b) : dropBits a ≤ dropBits b := by
  have := bitLen_mono h
  unfold dropBits
  omega

theorem le_floor_of_dvd {s q R : Nat} (hd : 2 ^ s ∣ R) (h : R ≤ q) : R ≤ q / 2 ^ s * 2 ^ s := by
  obtain ⟨t, rfl⟩ := hd
  have hp : 0 < 2 ^ s := Nat.pos_pow_of_pos _ (by decide)
  have : t ≤ q / 2 ^ s := (Nat.le_div_iff_mul_le hp).mpr (by rw [Nat.mul_comm]; exact h)
  calc 2 ^ s * t = t * 2 ^ s := Nat.mul_comm _ _
    _ ≤ q / 2 ^ s * 2 ^ s := Nat.mul_le_mul_right _ this

theorem representable.dvd {R s : Nat} (hR : representable R) (hs : s ≤ dropBits R) :
    2 ^ s ∣ R :=
  Nat.dvd_trans (Nat.pow_dvd_pow 2 hs) (Nat.dvd_of_mod_eq_zero hR)

theorem floor_mul_le_roundMag (a b : Nat) :
    a / b / 2 ^ dropBits (a / b) * 2 ^ dropBits (a / b) ≤ roundMag a b := by
  unfold roundMag
  simp only [Nat.div_div_eq_div_mul]
  apply Nat.mul_le_mul_right
  split <;> omega

/-- Rounding does not go below a double that is below the exact value. -/
theorem roundMag_lower (a b R : Nat) (hb : 0 < b) (hR : representable R) (h : R * b ≤ a) :
    R ≤ roundMag a b := by
  refine le_trans ?_ (floor_mul_le_roundMag a b)
  have hRq : R ≤ a / b := (Nat.le_div_iff_mul_le hb).mpr h
  by_cases hs : dropBits (a / b) ≤ dropBits R
  · exact le_floor_of_dvd (hR.dvd hs) hRq
  · have hs' : dropBits R < dropBits (a / b) := Nat.lt_of_not_le hs
    have hpos : 0 < dropBits (a / b) := by omega
    have hq0 : a / b ≠ 0 := by
      intro h0
      rw [h0] at hpos
      simp [dropBits, bitLen_zero] at hpos
    have hlo := two_pow_bitLen_le (a / b) hq0
    have hbl : bitLen (a / b) = dropBits (a / b) + 53 := by
      unfold dropBits at hpos ⊢
      omega
    have hRlt : R < 2 ^ (dropBits (a / b) + 52) := by
      have h1 := lt_two_pow_bitLen R
      have h2 : bitLen R ≤ dropBits (a / b) + 52 := by
        unfold dropBits at hs'
        omega
      exact lt_of_lt_of_le h1 (Nat.pow_le_pow_right (by decide) h2)
    have hqlo : 2 ^ (dropBits (a / b) + 52) ≤ a / b := by
      have : bitLen (a / b) - 1 = dropBits (a / b) + 52 := by omega
      rw [this] at hlo
      exact hlo
    have hdvd : 2 ^ dropBits (a / b) ∣ 2 ^ (dropBits (a / b) + 52) :=
      Nat.pow_dvd_pow 2 (by omega)
    exact le_trans (le_of_lt hRlt) (le_floor_of_dvd hdvd hqlo)

/-- Rounding does not go above a double that is above the exact value. -/
theorem roundMag_upper (a b R : Nat) (hb : 0 < b) (hR : representable R) (h : a ≤ R * b) :
    roundMag a b ≤ R := by
  have hp : 0 < 2 ^ dropBits (a / b) := Nat.pos_pow_of_pos _ (by decide)
  have hd : 0 < b * 2 ^ dropBits (a / b) := Nat.mul_pos hb hp
  have hqR : a / b ≤ R := Nat.div_le_of_le_mul (by rw [Nat.mul_comm]; exact h)
  have hdvd : 2 ^ dropBits (a / b) ∣ R := hR.dvd (dropBits_mono hqR)
  unfold roundMag
  simp only
  split
  · rename_i hup
    have hr : 0 < a % (b * 2 ^ dropBits (a / b)) := by
      by_contra h0
      have h0' : a % (b * 2 ^ dropBits (a / b)) = 0 := by omega
      rw [h0'] at hup
      simp only [Nat.mul_zero, Nat.not_lt_zero, decide_False, Bool.false_or,
        Bool.and_eq_true, decide_eq_true_eq] at hup
      omega
    have hdecomp := Nat.div_add_mod a (b * 2 ^ dropBits (a / b))
    obtain ⟨t, rfl⟩ := hdvd
    have hlt : a / (b * 2 ^ dropBits (a / b)) * (2 ^ dropBits (a / b) * b) <
        t * (2 ^ dropBits (a / b) * b) := by
      calc a / (b * 2 ^ dropBits (a / b)) * (2 ^ dropBits (a / b) * b)
          = b * 2 ^ dropBits (a / b) * (a / (b * 2 ^ dropBits (a / b))) := by ring
        _ < a := by omega
        _ ≤ 2 ^ dropBits (a / b) * t * b := h
        _ = t * (2 ^ dropBits (a / b) * b) := by ring
    have hmt : a / (b * 2 ^ dropBits (a / b)) < t := Nat.lt_of_mul_lt_mul_right hlt
    calc (a / (b * 2 ^ dropBits (a / b)) + 1) * 2 ^ dropBits (a / b)
        ≤ t * 2 ^ dropBits (a / b) := Nat.mul_le_mul_right _ hmt
      _ = 2 ^ dropBits (a / b) * t := Nat.mul_comm _ _
  · rw [← Nat.div_div_eq_div_mul]
    exact le_trans (Nat.div_mul_le_self _ _) hqR

theorem representable_zero : representable 0 := by
  simp [representable]

theorem roundMag_zero (b : Nat) (hb : 0 < b) : roundMag 0 b = 0 :=
  Nat.le_zero.mp (roundMag_upper 0 b 0 hb representable_zero (by simp))

theorem representable_mul_pow (m s : Nat) (hm : m ≤ 2 ^ 53) : representable (m * 2 ^ s) := by
  unfold representable
  apply Nat.mod_eq_zero_of_dvd
  rcases Nat.lt_or_eq_of_le hm with hlt | heq
  · have hk : m * 2 ^ s < 2 ^ (53 + s) := by
      rw [pow_add]
      exact Nat.mul_lt_mul_of_pos_right hlt (Nat.pos_pow_of_pos _ (by decide))
    have hd : dropBits (m * 2 ^ s) ≤ s := by
      have := bitLen_le_of_lt hk
      unfold dropBits
      omega
    exact Nat.dvd_trans (Nat.pow_dvd_pow 2 hd) (Nat.dvd_mul_left _ _)
  · subst heq
    rw [← pow_add]
    have hk : 2 ^ (53 + s) < 2 ^ (54 + s) := Nat.pow_lt_pow_right (by decide) (by omega)
    have hd : dropBits (2 ^ (53 + s)) ≤ 53 + s := by
      have := bitLen_le_of_lt hk
      unfold dropBits
      omega
    exact Nat.pow_dvd_pow 2 hd

theorem representable_roundMag (a b : Nat) : representable (roundMag a b) := by
  have hp : 0 < 2 ^ dropBits (a / b) := Nat.pos_pow_of_pos _ (by decide)
  have hq : a / b < 2 ^ 53 * 2 ^ dropBits (a / b) := by
    have h1 := lt_two_pow_bitLen (a / b)
    have h2 : bitLen (a / b) ≤ 53 + dropBits (a / b) := by
      unfold dropBits
      omega
    rw [← pow_add]
    exact lt_of_lt_of_le h1 (Nat.pow_le_pow_right (by decide) h2)
  have hm : a / (b * 2 ^ dropBits (a / b)) < 2 ^ 53 := by
    rw [← Nat.div_div_eq_div_mul]
    exact (Nat.div_lt_iff_lt_mul hp).mpr hq
  unfold roundMag
  simp only
  apply representable_mul_pow
  split <;> omega

theorem representable_two_mul {k : Nat} (hk : representable k) : representable (2 * k) := by
  unfold representable at hk ⊢
  apply Nat.mod_eq_zero_of_dvd
  have h1 : 2 * k < 2 ^ (bitLen k + 1) := by
    have := lt_two_pow_bitLen k
    rw [pow_succ]
    omega
  have hd : dropBits (2 * k) ≤ dropBits k + 1 := by
    have := bitLen_le_of_lt h1
    unfold dropBits
    omega
  have h2 : 2 ^ (dropBits k + 1) ∣ 2 * k := by
    rw [pow_succ, Nat.mul_comm]
    exact Nat.mul_dvd_mul_left 2 (Nat.dvd_of_mod_eq_zero hk)
  exact Nat.dvd_trans (Nat.pow_dvd_pow 2 hd) h2

theorem isDouble_roundUnits (neg : Bool) (a b : Nat) : IsDouble (roundUnits neg a b) := by
  rw [roundUnits_eq_roundMag]
  by_cases h : overflowUnits ≤ roundMag a b
  · rw [if_pos h]
    trivial
  · rw [if_neg h]
    exact ⟨representable_roundMag a b, Nat.lt_of_not_le h⟩

theorem units_natAbs (s : Bool) (k : Nat) : (units s k).natAbs = k := by
  cases s <;> simp [units]

theorem units_mul (s : Bool) (k c : Nat) : units s (k * c) = units s k * (c : Int) := by
  cases s <;> simp [units]

theorem units_decide_neg (z : Int) : units (decide (z < 0)) z.natAbs = z := by
  by_cases h : z < 0
  · simp only [h, decide_True, units, if_true]
    omega
  · simp only [h, decide_False, units]
    simp only [Bool.false_eq_true, if_false]
    omega

/-- Rounding a signed value never crosses a double, on either side. -/
theorem signed_sandwich (sg : Bool) (a b : Nat) (hb : 0 < b) (R : Int)
    (hR : representable R.natAbs) :
    ((R * (b : Int) ≤ units sg a → R ≤ units sg (roundMag a b)) ∧
      (units sg a ≤ R * (b : Int) → units sg (roundMag a b) ≤ R)) := by
  have hbz : (0 : Int) < (b : Int) := by exact_mod_cast hb
  rcases Int.natAbs_eq R with hRn | hRn
  · -- `R` is the non-negative `n`
    generalize R.natAbs = n at hR hRn
    subst hRn
    cases sg with
    | false =>
      simp only [units, Bool.false_eq_true, if_false]
      constructor
      · intro h
        have h' : n * b ≤ a := by exact_mod_cast h
        exact_mod_cast roundMag_lower a b n hb hR h'
      · intro h
        have h' : a ≤ n * b := by exact_mod_cast h
        exact_mod_cast roundMag_upper a b n hb hR h'
    | true =>
      simp only [units, if_true]
      constructor
      · intro h
        have hnb : (0 : Int) ≤ (n : Int) * (b : Int) := by positivity
        have ha : (a : Int) = 0 := by omega
        have ha' : a = 0 := by exact_mod_cast ha
        have hn : n * b = 0 := by
          have : (n : Int) * (b : Int) = 0 := by omega
          exact_mod_cast this
        have hn0 : n = 0 := by
          rcases Nat.mul_eq_zero.mp hn with h0 | h0
          · exact h0
          · omega
        subst ha' hn0
        rw [roundMag_zero b hb]
        simp
      · intro _
        have : (0 : Int) ≤ (roundMag a b : Int) := Int.natCast_nonneg _
        have : (0 : Int) ≤ (n : Int) := Int.natCast_nonneg _
        omega
  · -- `R` is `-n`
    generalize R.natAbs = n at hR hRn
    subst hRn
    cases sg with
    | false =>
      simp only [units, Bool.false_eq_true, if_false]
      constructor
      · intro _
        have : (0 : Int) ≤ (roundMag a b : Int) := Int.natCast_nonneg _
        have : (0 : Int) ≤ (n : Int) := Int.natCast_nonneg _
        omega
      · intro h
        have hnb : (0 : Int) ≤ (n : Int) * (b : Int) := by positivity
        have h1 : -(n : Int) * (b : Int) = -((n : Int) * (b : Int)) := by ring
        rw [h1] at h
        have ha : (a : Int) = 0 := by
          have : (0 : Int) ≤ (a : Int) := Int.natCast_nonneg _
          omega
        have ha' : a = 0 := by exact_mod_cast ha
        have hn : n * b = 0 := by
          have : (n : Int) * (b : Int) = 0 := by omega
          exact_mod_cast this
        have hn0 : n = 0 := by
          rcases Nat.mul_eq_zero.mp hn with h0 | h0
          · exact h0
          · omega
        subst ha' hn0
        rw [roundMag_zero b hb]
        simp
    | true =>
      simp only [units, if_true]
      have h1 : -(n : Int) * (b : Int) = -((n : Int) * (b : Int)) := by ring
      rw [h1]
      constructor
      · intro h
        have h' : a ≤ n * b := by
          have : (a : Int) ≤ (n : Int) * (b : Int) := by omega
          exact_mod_cast this
        have := roundMag_upper a b n hb hR h'
        have : (roundMag a b : Int) ≤ (n : Int) := by exact_mod_cast this
        omega
      · intro h
        have h' : n * b ≤ a := by
          have : (n : Int) * (b : Int) ≤ (a : Int) := by omega
          exact_mod_cast this
        have := roundMag_lower a b n hb hR h'
        have : (n : Int) ≤ (roundMag a b : Int) := by exact_mod_cast this
        omega

theorem ofNat_two : ofNat 2 = fin false (2 * unitsPerOne) := by decide!

theorem unitsPerOne_pos : 0 < unitsPerOne := by decide!

theorem overflowUnits_pos : 0 < overflowUnits := by decide!

theorem units_zero (s : Bool) : units s 0 = 0 := by
  cases s <;> simp [units]

theorem div_two_fin (s : Bool) (k : Nat) :
    div (fin s k) (ofNat 2) = roundUnits s (k * unitsPerOne) (2 * unitsPerOne) := by
  have h2 : ¬ 2 * unitsPerOne = 0 := by
    have := unitsPerOne_pos
    omega
  rw [ofNat_two]
  simp only [div, h2, if_false, Bool.xor_false]

theorem div_two_not_fin {w : JSNum} (hw : w.isFinite = false) :
    (div w (ofNat 2)).isFinite = false := by
  rw [ofNat_two]
  cases w with
  | nan => rfl
  | inf s => rfl
  | fin s k => simp [isFinite] at hw

/-- Half the sum of two doubles `u <= v`, when it is finite, lies between
them. -/
theorem mid_between {u v : JSNum} (hu : IsDouble u) (hv : IsDouble v) (hle : le u v = true)
    (hfin : (div (add u v) (ofNat 2)).isFinite = true) :
    le u (div (add u v) (ofNat 2)) = true ∧ le (div (add u v) (ofNat 2)) v = true := by
  have hU := unitsPerOne_pos
  cases u with
  | nan => simp [le] at hle
  | inf s =>
    have : (add (inf s) v).isFinite = false := by
      cases v with
      | nan => rfl
      | inf t => by_cases h : s = t <;> simp [add, h, isFinite]
      | fin t k => rfl
    rw [div_two_not_fin this] at hfin
    exact absurd hfin (by decide)
  | fin s j =>
    cases v with
    | nan => simp [le] at hle
    | inf t =>
      have : (add (fin s j) (inf t)).isFinite = false := rfl
      rw [div_two_not_fin this] at hfin
      exact absurd hfin (by decide)
    | fin t k =>
      obtain ⟨hrj, -⟩ := hu
      obtain ⟨hrk, -⟩ := hv
      have hXY : units s j ≤ units t k := by simpa [le] using hle
      have hadd : add (fin s j) (fin t k) =
          if units s j + units t k = 0 then fin (s && t) 0
          else roundUnits (decide (units s j + units t k < 0))
            (units s j + units t k).natAbs 1 := rfl
      have hrX : representable (units s j).natAbs := by rw [units_natAbs]; exact hrj
      have hrY : representable (units t k).natAbs := by rw [units_natAbs]; exact hrk
      have hr2X : representable (2 * units s j).natAbs := by
        rw [Int.natAbs_mul, units_natAbs]
        exact representable_two_mul hrj
      have hr2Y : representable (2 * units t k).natAbs := by
        rw [Int.natAbs_mul, units_natAbs]
        exact representable_two_mul hrk
      have hleL : ∀ (sg : Bool) (q : Nat), le (fin s j) (fin sg q) = decide (units s j ≤ units sg q) :=
        fun _ _ => rfl
      have hleR : ∀ (sg : Bool) (q : Nat), le (fin sg q) (fin t k) = decide (units sg q ≤ units t k) :=
        fun _ _ => rfl
      generalize units s j = X at hXY hadd hrX hr2X hleL
      generalize units t k = Y at hXY hadd hrY hr2Y hleR
      rw [hadd] at hfin ⊢
      by_cases hz : X + Y = 0
      · rw [if_pos hz, div_two_fin, roundUnits_eq_roundMag, Nat.zero_mul,
          roundMag_zero _ (by omega), if_neg (by have := overflowUnits_pos; omega)]
        rw [hleL, hleR]
        simp only [units_zero, decide_eq_true_eq]
        constructor <;> omega
      · rw [if_neg hz] at hfin ⊢
        rw [roundUnits_eq_roundMag] at hfin ⊢
        by_cases hov : overflowUnits ≤ roundMag (X + Y).natAbs 1
        · rw [if_pos hov] at hfin
          have hinf : (inf (decide (X + Y < 0))).isFinite = false := rfl
          rw [div_two_not_fin hinf] at hfin
          exact absurd hfin (by decide)
        · rw [if_neg hov] at hfin ⊢
          rw [div_two_fin, roundUnits_eq_roundMag] at hfin ⊢
          by_cases hov2 : overflowUnits ≤
              roundMag (roundMag (X + Y).natAbs 1 * unitsPerOne) (2 * unitsPerOne)
          · rw [if_pos hov2] at hfin
            exact absurd hfin (by simp [isFinite])
          · rw [if_neg hov2]
            have hz' := units_decide_neg (X + Y)
            have s1 := signed_sandwich (decide (X + Y < 0)) (X + Y).natAbs 1 (by decide)
              (2 * X) hr2X
            have s2 := signed_sandwich (decide (X + Y < 0)) (X + Y).natAbs 1 (by decide)
              (2 * Y) hr2Y
            rw [hz'] at s1 s2
            have hW1 := s1.1 (by push_cast; omega)
            have hW2 := s2.2 (by push_cast; omega)
            have t1 := signed_sandwich (decide (X + Y < 0))
              (roundMag (X + Y).natAbs 1 * unitsPerOne) (2 * unitsPerOne) (by omega) X hrX
            have t2 := signed_sandwich (decide (X + Y < 0))
              (roundMag (X + Y).natAbs 1 * unitsPerOne) (2 * unitsPerOne) (by omega) Y hrY
            rw [units_mul] at t1 t2
            have hUz : (0 : Int) < (unitsPerOne : Int) := by exact_mod_cast hU
            have hM1 := t1.1 (by push_cast; nlinarith)
            have hM2 := t2.2 (by push_cast; nlinarith)
            rw [hleL, hleR]
            simp only [decide_eq_true_eq]
            exact ⟨hM1, hM2⟩

end JSNum

/-! ## The median under permutation -/

namespace JSNum

theorem canon_fin (s : Bool) (k : Nat) :
    canon (fin s k) = if k = 0 then fin false 0 else fin s k := by
  cases k <;> simp [canon]

theorem units_eq_iff (s t : Bool) (j k : Nat) :
    units s j = units t k ↔ j = k ∧ (j ≠ 0 → s = t) := by
  cases s <;> cases t <;> simp [units] <;> omega

theorem sameValueZero_fin (s t : Bool) (j k : Nat) :
    sameValueZero (fin s j) (fin t k) = true ↔ canon (fin s j) = canon (fin t k) := by
  simp only [sameValueZero, decide_eq_true_eq, units_eq_iff, canon_fin]
  by_cases hj : j = 0
  · subst hj
    by_cases hk : k = 0
    · subst hk
      simp
    · have hk' : ¬ (0 = k) := fun h => hk h.symm
      simp [hk, hk']
  · by_cases hk : k = 0
    · subst hk
      simp [hj]
    · simp only [hj, hk, if_false, ne_eq, not_false_eq_true, true_implies, fin.injEq]
      tauto

theorem sameValueZero_iff_canon (a b : JSNum) :
    sameValueZero a b = true ↔ canon a = canon b := by
  cases a with
  | nan =>
    cases b with
    | nan => simp [sameValueZero]
    | inf t => simp [sameValueZero, canon]
    | fin t k => simp only [sameValueZero, canon_fin, canon]; split <;> simp
  | inf s =>
    cases b with
    | nan => simp [sameValueZero, canon]
    | inf t => simp [sameValueZero, canon]
    | fin t k => simp only [sameValueZero, canon_fin, canon]; split <;> simp
  | fin s j =>
    cases b with
    | nan => simp only [sameValueZero, canon_fin, canon]; split <;> simp
    | inf t => simp only [sameValueZero, canon_fin, canon]; split <;> simp
    | fin t k => exact sameValueZero_fin s t j k

theorem units_canon (s : Bool) (k : Nat) :
    ∃ s', canon (fin s k) = fin s' k ∧ units s' k = units s k := by
  by_cases hk : k = 0
  · subst hk
    exact ⟨false, rfl, by simp [units_zero]⟩
  · exact ⟨s, by rw [canon_fin, if_neg hk], rfl⟩

theorem le_canon (a b : JSNum) : le (canon a) (canon b) = le a b := by
  cases a with
  | nan => cases b <;> simp [le, canon]
  | inf s =>
    cases b with
    | nan => simp [le, canon]
    | inf t => simp [le, canon]
    | fin t k =>
      obtain ⟨t', ht, -⟩ := units_canon t k
      rw [ht]
      simp [le, canon]
  | fin s j =>
    obtain ⟨s', hs, hs'⟩ := units_canon s j
    rw [hs]
    cases b with
    | nan => simp [le, canon]
    | inf t => simp [le, canon]
    | fin t k =>
      obtain ⟨t', ht, ht'⟩ := units_canon t k
      rw [ht]
      simp only [le, hs', ht']

theorem canon_ne_nan {a : JSNum} (h : a ≠ nan) : canon a ≠ nan := by
  cases a with
  | nan => exact absurd rfl h
  | inf s => simp [canon]
  | fin s k => rw [canon_fin]; split <;> simp

theorem canon_antisymm {a b : JSNum} (hab : le (canon a) (canon b) = true)
    (hba : le (canon b) (canon a) = true) : canon a = canon b := by
  rw [le_canon] at hab hba
  rw [← sameValueZero_iff_canon]
  cases a with
  | nan => simp [le] at hab
  | inf s =>
    cases b with
    | nan => simp [le] at hab
    | inf t => cases s <;> cases t <;> simp_all [le, sameValueZero]
    | fin t k => cases s <;> simp_all [le]
  | fin s j =>
    cases b with
    | nan => simp [le] at hab
    | inf t => cases t <;> simp_all [le]
    | fin t k =>
      simp only [le, decide_eq_true_eq] at hab hba
      simp only [sameValueZero, decide_eq_true_eq]
      omega

theorem sameValueZero_refl (a : JSNum) : sameValueZero a a = true := by
  cases a <;> simp [sameValueZero]

theorem add_congr {a a' b b' : JSNum} (h1 : sameValueZero a a' = true)
    (h2 : sameValueZero b b' = true) : sameValueZero (add a b) (add a' b') = true := by
  cases a with
  | nan =>
    cases a' with
    | nan => simp [add, sameValueZero]
    | inf s' => simp [sameValueZero] at h1
    | fin s' j' => simp [sameValueZero] at h1
  | inf s =>
    cases a' with
    | nan => simp [sameValueZero] at h1
    | fin s' j' => simp [sameValueZero] at h1
    | inf s' =>
      have hs : s = s' := by simpa [sameValueZero] using h1
      subst hs
      cases b with
      | nan => cases b' <;> simp_all [sameValueZero, add]
      | inf t =>
        cases b' with
        | inf t' =>
          have ht : t = t' := by simpa [sameValueZero] using h2
          subst ht
          exact sameValueZero_refl _
        | nan => simp [sameValueZero] at h2
        | fin t' k' => simp [sameValueZero] at h2
      | fin t k =>
        cases b' with
        | fin t' k' => simp [add, sameValueZero]
        | nan => simp [sameValueZero] at h2
        | inf t' => simp [sameValueZero] at h2
  | fin s j =>
    cases a' with
    | nan => simp [sameValueZero] at h1
    | inf s' => simp [sameValueZero] at h1
    | fin s' j' =>
      have hu : units s j = units s' j' := by simpa [sameValueZero] using h1
      cases b with
      | nan => cases b' <;> simp_all [sameValueZero, add]
      | inf t =>
        cases b' with
        | inf t' =>
          have ht : t = t' := by simpa [sameValueZero] using h2
          subst ht
          simp [add, sameValueZero]
        | nan => simp [sameValueZero] at h2
        | fin t' k' => simp [sameValueZero] at h2
      | fin t k =>
        cases b' with
        | fin t' k' =>
          have hv : units t k = units t' k' := by simpa [sameValueZero] using h2
          simp only [add, hu, hv]
          split
          · simp [sameValueZero, units_zero]
          · exact sameValueZero_refl _
        | nan => simp [sameValueZero] at h2
        | inf t' => simp [sameValueZero] at h2

theorem div_two_congr {w w' : JSNum} (h : sameValueZero w w' = true) :
    sameValueZero (div w (ofNat 2)) (div w' (ofNat 2)) = true := by
  cases w with
  | nan =>
    cases w' with
    | nan => exact sameValueZero_refl _
    | inf s' => simp [sameValueZero] at h
    | fin s' j' => simp [sameValueZero] at h
  | inf s =>
    cases w' with
    | inf s' =>
      have hs : s = s' := by simpa [sameValueZero] using h
      subst hs
      exact sameValueZero_refl _
    | nan => simp [sameValueZero] at h
    | fin s' j' => simp [sameValueZero] at h
  | fin s j =>
    cases w' with
    | nan => simp [sameValueZero] at h
    | inf s' => simp [sameValueZero] at h
    | fin s' j' =>
      have hu : units s j = units s' j' := by simpa [sameValueZero] using h
      obtain ⟨hj, hs⟩ := (units_eq_iff s s' j j').mp hu
      subst hj
      by_cases h0 : j = 0
      · subst h0
        have hU := unitsPerOne_pos
        have hO := overflowUnits_pos
        rw [div_two_fin, div_two_fin, roundUnits_eq_roundMag, roundUnits_eq_roundMag,
          Nat.zero_mul, roundMag_zero _ (by omega), if_neg (by omega), if_neg (by omega)]
        simp [sameValueZero, units_zero]
      · rw [hs h0]
        exact sameValueZero_refl _

theorem le_refl' {a : JSNum} (h : a ≠ nan) : le a a = true := by
  cases a with
  | nan => exact absurd rfl h
  | inf s => cases s <;> rfl
  | fin s k => simp [le]

end JSNum

theorem calculateMedian_of_validNums (xs : List JSVal) (hv : validNums xs ≠ []) :
    calculateMedian (arr xs) =
      Except.ok (num (medianOfSorted (sortWith (fun a b => JSNum.sub a b) (validNums xs)))) := by
  have hperm := sortWith_perm (fun a b => JSNum.sub a b) (validNums xs)
  have hv0 : (validNums xs).length ≠ 0 := fun h => hv (List.length_eq_zero.mp h)
  have hlen : (sortWith (fun a b => JSNum.sub a b) (validNums xs)).length ≠ 0 := by
    rw [hperm.length_eq]
    exact hv0
  by_cases heven : (sortWith (fun a b => JSNum.sub a b) (validNums xs)).length % 2 = 0
  · simp only [calculateMedian, hv0, if_false, heven, if_true, medianOfSorted]
  · have hlt : (sortWith (fun a b => JSNum.sub a b) (validNums xs)).length / 2 <
        (sortWith (fun a b => JSNum.sub a b) (validNums xs)).length := by omega
    simp only [calculateMedian, hv0, if_false, heven, medianOfSorted, List.get?_eq_get hlt,
      List.getD_eq_getElem?_getD, List.getElem?_eq_getElem hlt, Option.getD_some,
      List.get_eq_getElem]

theorem validNums_perm {xs ys : List JSVal} (h : xs.Perm ys) :
    (validNums xs).Perm (validNums ys) :=
  (h.filter validNumber).map toNumber

theorem sorted_canon_eq {v₁ v₂ : List JSNum} (hp : v₁.Perm v₂)
    (hnan : ∀ v ∈ v₁, v ≠ JSNum.nan) :
    (sortWith (fun a b => JSNum.sub a b) v₁).map JSNum.canon =
      (sortWith (fun a b => JSNum.sub a b) v₂).map JSNum.canon := by
  have hnan₂ : ∀ v ∈ v₂, v ≠ JSNum.nan := fun v hv => hnan v (hp.symm.subset hv)
  have hs₁ := sortWith_sorted v₁ hnan
  have hs₂ := sortWith_sorted v₂ hnan₂
  have hperm : (sortWith (fun a b => JSNum.sub a b) v₁).Perm
      (sortWith (fun a b => JSNum.sub a b) v₂) :=
    ((sortWith_perm _ v₁).trans hp).trans (sortWith_perm _ v₂).symm
  have hmap : ∀ l : List JSNum, l.Pairwise (fun x y => JSNum.le x y = true) →
      (l.map JSNum.canon).Pairwise (fun x y => JSNum.le x y = true) := by
    intro l hl
    rw [List.pairwise_map]
    exact hl.imp (fun h => by rw [JSNum.le_canon]; exact h)
  refine @List.Perm.eq_of_sorted JSNum (fun x y => JSNum.le x y = true) _ _ ?_ (hmap _ hs₁)
    (hmap _ hs₂) (hperm.map _)
  intro a b ha hb hab hba
  obtain ⟨a0, -, rfl⟩ := List.mem_map.mp ha
  obtain ⟨b0, -, rfl⟩ := List.mem_map.mp hb
  exact JSNum.canon_antisymm hab hba

theorem getD_sameValueZero {s₁ s₂ : List JSNum}
    (h : s₁.map JSNum.canon = s₂.map JSNum.canon) (i : Nat) :
    JSNum.sameValueZero (s₁.getD i JSNum.nan) (s₂.getD i JSNum.nan) = true := by
  rw [JSNum.sameValueZero_iff_canon]
  have hi := congrArg (fun l => l[i]?) h
  simp only [List.getElem?_map] at hi
  simp only [List.getD_eq_getElem?_getD]
  cases h1 : s₁[i]? with
  | none =>
    cases h2 : s₂[i]? with
    | none => rfl
    | some b => rw [h1, h2] at hi; simp at hi
  | some a =>
    cases h2 : s₂[i]? with
    | none => rw [h1, h2] at hi; simp at hi
    | some b =>
      rw [h1, h2] at hi
      simpa using hi

theorem medianOfSorted_congr {s₁ s₂ : List JSNum}
    (h : s₁.map JSNum.canon = s₂.map JSNum.canon) :
    JSNum.sameValueZero (medianOfSorted s₁) (medianOfSorted s₂) = true := by
  have hlen : s₁.length = s₂.length := by
    have := congrArg List.length h
    simpa using this
  unfold medianOfSorted
  rw [hlen]
  split
  · exact JSNum.div_two_congr
      (JSNum.add_congr (getD_sameValueZero h _) (getD_sameValueZero h _))
  · exact getD_sameValueZero h _

theorem calculateMedian_perm {xs₁ xs₂ : List JSVal} (hp : xs₁.Perm xs₂)
    (hnan : ∀ v ∈ validNums xs₁, v ≠ JSNum.nan) :
    SameMedian (calculateMedian (arr xs₁)) (calculateMedian (arr xs₂)) := by
  have hvp := validNums_perm hp
  by_cases hv : validNums xs₁ = []
  · have hv₂ : validNums xs₂ = [] := by
      rw [hv] at hvp
      exact hvp.nil_eq.symm
    left
    simp [calculateMedian, hv, hv₂]
  · have hv₂ : validNums xs₂ ≠ [] := by
      intro h0
      rw [h0] at hvp
      exact hv hvp.eq_nil
    right
    exact ⟨_, _, calculateMedian_of_validNums xs₁ hv, calculateMedian_of_validNums xs₂ hv₂,
      medianOfSorted_congr (sorted_canon_eq hvp hnan)⟩

/-! ## The median between the extremes -/

theorem sorted_getD_le {s : List JSNum} (hs : s.Pairwise (fun x y => JSNum.le x y = true))
    (hnan : ∀ v ∈ s, v ≠ JSNum.nan) {i j : Nat} (hij : i ≤ j) (hj : j < s.length) :
    JSNum.le (s.getD i JSNum.nan) (s.getD j JSNum.nan) = true := by
  have hi : i < s.length := lt_of_le_of_lt hij hj
  rw [List.getD_eq_getElem _ _ hi, List.getD_eq_getElem _ _ hj]
  rcases Nat.lt_or_eq_of_le hij with hlt | heq
  · exact List.pairwise_iff_getElem.mp hs i j hi hj hlt
  · subst heq
    exact JSNum.le_refl' (hnan _ (List.getElem_mem _))

theorem getD_mem {s : List JSNum} {i : Nat} (hi : i < s.length) : s.getD i JSNum.nan ∈ s := by
  rw [List.getD_eq_getElem _ _ hi]
  exact List.getElem_mem _

theorem medianOfSorted_between {s : List JSNum} (hne : s ≠ [])
    (hs : s.Pairwise (fun x y => JSNum.le x y = true))
    (hnan : ∀ v ∈ s, v ≠ JSNum.nan) (hd : ∀ v ∈ s, JSNum.IsDouble v)
    (hc : (medianOfSorted s).isFinite = true ∨ s.length % 2 = 1) :
    LiesBetween s (medianOfSorted s) := by
  have hlen : 0 < s.length := List.length_pos.mpr hne
  have hall : ∀ v ∈ s, JSNum.le (s.getD 0 JSNum.nan) v = true ∧
      JSNum.le v (s.getD (s.length - 1) JSNum.nan) = true := by
    intro v hv
    obtain ⟨i, hi, rfl⟩ := List.getElem_of_mem hv
    rw [← List.getD_eq_getElem s JSNum.nan hi]
    exact ⟨sorted_getD_le hs hnan (Nat.zero_le i) hi,
      sorted_getD_le hs hnan (by omega) (by omega)⟩
  refine ⟨s.getD 0 JSNum.nan, getD_mem hlen, s.getD (s.length - 1) JSNum.nan,
    getD_mem (by omega), hall, ?_⟩
  by_cases heven : s.length % 2 = 0
  · have hfin : (medianOfSorted s).isFinite = true := by
      rcases hc with h | h
      · exact h
      · omega
    have hmed : medianOfSorted s =
        JSNum.div (JSNum.add (s.getD (s.length / 2 - 1) JSNum.nan)
          (s.getD (s.length / 2) JSNum.nan)) (JSNum.ofNat 2) := by
      simp only [medianOfSorted, heven, if_true]
    rw [hmed] at hfin ⊢
    have h1 : s.length / 2 - 1 < s.length := by omega
    have h2 : s.length / 2 < s.length := by omega
    have huv := sorted_getD_le hs hnan (Nat.sub_le (s.length / 2) 1) h2
    obtain ⟨hum, hmv⟩ := JSNum.mid_between (hd _ (getD_mem h1)) (hd _ (getD_mem h2)) huv hfin
    exact ⟨JSNum.le_trans' (hall _ (getD_mem h1)).1 hum,
      JSNum.le_trans' hmv (hall _ (getD_mem h2)).2⟩
  · have hmed : medianOfSorted s = s.getD (s.length / 2) JSNum.nan := by
      simp only [medianOfSorted, heven, if_false]
    rw [hmed]
    exact hall _ (getD_mem (by omega))

theorem isDouble_validNums {xs : List JSVal} (h : ∀ n, num n ∈ xs → JSNum.IsDouble n) :
    ∀ v ∈ validNums xs, JSNum.IsDouble v := by
  intro v hv
  obtain ⟨x, hx, rfl⟩ := List.mem_map.mp hv
  obtain ⟨hx, hvalid⟩ := List.mem_filter.mp hx
  rw [toNumber_of_valid hvalid]
  cases x with
  | num n => exact h n hx
  | str t => exact JSNum.isDouble_roundUnits _ _ _
  | _ => simp [validNumber, JSVal.typeOf] at hvalid

theorem LiesBetween.of_perm {s vals : List JSNum} {m : JSNum} (hp : s.Perm vals)
    (h : LiesBetween s m) : LiesBetween vals m := by
  obtain ⟨lo, hlo, hi, hhi, hall, hm⟩ := h
  exact ⟨lo, hp.subset hlo, hi, hp.subset hhi, fun v hv => hall v (hp.symm.subset hv), hm⟩

theorem calculateMedian_between {xs : List JSVal} {m : JSNum}
    (hnan : ∀ v ∈ validNums xs, v ≠ JSNum.nan)
    (hd : ∀ n, num n ∈ xs → JSNum.IsDouble n)
    (hres : calculateMedian (arr xs) = Except.ok (num m))
    (hc : m.isFinite = true ∨ (validNums xs).length % 2 = 1) :
    LiesBetween (validNums xs) m := by
  have hperm := sortWith_perm (fun a b => JSNum.sub a b) (validNums xs)
  have hv : validNums xs ≠ [] := by
    intro h0
    simp [calculateMedian, h0] at hres
  rw [calculateMedian_of_validNums xs hv] at hres
  have hm : medianOfSorted (sortWith (fun a b => JSNum.sub a b) (validNums xs)) = m :=
    JSVal.num.inj (Except.ok.inj hres)
  rw [← hm] at hc ⊢
  apply LiesBetween.of_perm hperm
  apply medianOfSorted_between
  · intro h0
    rw [h0] at hperm
    exact hv hperm.nil_eq.symm
  · exact sortWith_sorted _ hnan
  · exact fun v hv' => hnan v (hperm.subset hv')
  · exact fun v hv' => isDouble_validNums hd v (hperm.subset hv')
  · rw [hperm.length_eq]
    exact hc

theorem calculateMedianRun_spec (d : JSVal) :
    (calculateMedianRun d).2 = calculateMedian d ∧ (calculateMedianRun d).1.dataset = d := by
  cases d with
  | arr xs =>
    simp only [calculateMedianRun, calculateMedian]
    split
    · exact ⟨rfl, rfl⟩
    · split <;> exact ⟨rfl, rfl⟩
  | _ => exact ⟨rfl, rfl⟩

/-- C19, as amended. For two arrays that are permutations of each other and
whose numeric values are not NaN, the two results of `calculateMedian` are both
`false`, or are numbers that are the same up to the sign of a zero (NaN counting
as the same as NaN).  When the result is a finite number, or the number of
accepted elements is odd, the result lies between the smallest and the largest
numeric value of the accepted elements.  `calculateMedian` leaves its argument
as it was: the array it sorts is the one it built. -/
theorem calculateMedian_perm_between :
    (∀ xs₁ xs₂ : List JSVal, xs₁.Perm xs₂ →
      (∀ v ∈ (xs₁.filter validNumber).map numericValue, v ≠ JSNum.nan) →
      SameMedian (calculateMedian (arr xs₁)) (calculateMedian (arr xs₂))) ∧
    (∀ (xs : List JSVal) (m : JSNum),
      (∀ v ∈ (xs.filter validNumber).map numericValue, v ≠ JSNum.nan) →
      (∀ n, num n ∈ xs → JSNum.IsDouble n) →
      calculateMedian (arr xs) = Except.ok (num m) →
      (m.isFinite = true ∨ (xs.filter validNumber).length % 2 = 1) →
      LiesBetween ((xs.filter validNumber).map numericValue) m) ∧
    (∀ d : JSVal, (calculateMedianRun d).2 = calculateMedian d ∧
      (calculateMedianRun d).1.dataset = d) := by
  refine ⟨?_, ?_, calculateMedianRun_spec⟩
  · intro xs₁ xs₂ hp hnan
    rw [← validNums_eq] at hnan
    exact calculateMedian_perm hp hnan
  · intro xs m hnan hd hres hc
    rw [← validNums_eq] at hnan ⊢
    rw [← validNums_length] at hc
    exact calculateMedian_between hnan hd hres hc

/-! ## Instances of the theorems at concrete inputs -/

theorem validNumber_string_iff_witness :
    isWhiteSpace ' ' = true ∧
      (validNumber (str (' ' :: "5".toList)) = false ∧
        validNumber (str ("5".toList ++ [' '])) = false) ∧
      NumericText "-12.50".toList :=
  ⟨by decide, validNumber_string_iff.2.2.1 "5".toList ' ' (by decide),
    (validNumber_string_iff.1 "-12.50".toList).mp (by decide)⟩

theorem validNumber_nonString_witness :
    JSVal.null.typeOf ≠ JSType.string ∧
      (validNumber null = true ↔ JSVal.null.typeOf = JSType.number) :=
  ⟨by decide, validNumber_nonString.1 null (by decide)⟩

theorem dataDimensions_spec_witness :
    dataDimensions (arr [arr [], num JSNum.nan, arr [null]]) = (3, -1) ∧
      dataDimensions (arr [arr [null, obj], arr [], arr [null]]) = (3, 2) :=
  ⟨dataDimensions_spec.2.2.2.2.1 [arr [], num JSNum.nan, arr [null]] (by decide)
      ⟨num JSNum.nan, by decide, rfl⟩,
    dataDimensions_spec.2.2.2.2.2 [null, obj] [arr [], arr [null]] (by decide)⟩

theorem calculateMean_spec_witness :
    (∃ x ∈ [str "3".toList, obj, num (JSNum.ofNat 1)], validNumber x = true) ∧
      calculateMean (arr [str "3".toList, obj, num (JSNum.ofNat 1)]) =
        num (JSNum.div
          (List.foldl JSNum.add (JSNum.fin false 0)
            (([str "3".toList, obj, num (JSNum.ofNat 1)].filter validNumber).map numericValue))
          (JSNum.ofNat ([str "3".toList, obj, num (JSNum.ofNat 1)].filter validNumber).length)) :=
  ⟨⟨str "3".toList, List.mem_cons_self _ _, by decide⟩,
    calculateMean_spec.2.1 [str "3".toList, obj, num (JSNum.ofNat 1)]
      ⟨str "3".toList, List.mem_cons_self _ _, by decide⟩⟩

theorem findTotal_spec_witness :
    (∃ x ∈ [str "3".toList, obj, num (JSNum.ofNat 1)], validNumber x = true) ∧
      findTotal (arr [str "3".toList, obj, num (JSNum.ofNat 1)]) =
        num (List.foldl JSNum.add (JSNum.fin false 0)
          (([str "3".toList, obj, num (JSNum.ofNat 1)].filter validNumber).map numericValue)) :=
  ⟨⟨str "3".toList, List.mem_cons_self _ _, by decide⟩,
    findTotal_spec.2.1 [str "3".toList, obj, num (JSNum.ofNat 1)]
      ⟨str "3".toList, List.mem_cons_self _ _, by decide⟩⟩

/-- C6 fails as stated.  On `[1, NaN, 1]` every comparison `a - b` the sort makes
is zero or NaN, the array stays as it is, and `calculateMedian` returns its
middle element, NaN.  The numeric values have no arrangement in ascending
order, so that no sorted `s` gives the result; and the only arrangement with
NaN in the middle is the input order itself (with NaN put first or last the
middle element is 1). -/
theorem calculateMedian_spec_counterexample :
    (∃ x ∈ [num (JSNum.ofNat 1), num JSNum.nan, num (JSNum.ofNat 1)], validNumber x = true) ∧
      ([num (JSNum.ofNat 1), num JSNum.nan, num (JSNum.ofNat 1)].filter validNumber).map
          numericValue = [JSNum.ofNat 1, JSNum.nan, JSNum.ofNat 1] ∧
      sortWith (fun a b => JSNum.sub a b) [JSNum.ofNat 1, JSNum.nan, JSNum.ofNat 1] =
        [JSNum.ofNat 1, JSNum.nan, JSNum.ofNat 1] ∧
      calculateMedian (arr [num (JSNum.ofNat 1), num JSNum.nan, num (JSNum.ofNat 1)]) =
        Except.ok (num JSNum.nan) ∧
      (¬ ∃ s : List JSNum,
        s.Perm (([num (JSNum.ofNat 1), num JSNum.nan, num (JSNum.ofNat 1)].filter
          validNumber).map numericValue) ∧
        s.Pairwise (fun a b => JSNum.le a b = true)) ∧
      (∀ s : List JSNum, s.Perm [JSNum.ofNat 1, JSNum.nan, JSNum.ofNat 1] →
        s.get? 1 = some JSNum.nan → s = [JSNum.ofNat 1, JSNum.nan, JSNum.ofNat 1]) := by
  have hvals : ([num (JSNum.ofNat 1), num JSNum.nan, num (JSNum.ofNat 1)].filter
      validNumber).map numericValue = [JSNum.ofNat 1, JSNum.nan, JSNum.ofNat 1] := by
    decide!
  refine ⟨⟨num JSNum.nan, by simp, rfl⟩, hvals, by decide!, by decide!, ?_, ?_⟩
  · rintro ⟨s, hp, hs⟩
    rw [hvals] at hp
    refine not_pairwise_le_of_nan (hp.symm.subset ?_) ?_ hs
    · simp
    · rw [hp.length_eq]
      simp
  · intro s hp hmid
    have hlen : s.length = 3 := by
      rw [hp.length_eq]
      rfl
    match s, hlen with
    | [a, b, c], _ =>
      have hb : b = JSNum.nan := by simpa using hmid
      subst hb
      have hmem : ∀ v ∈ [a, JSNum.nan, c], v = JSNum.ofNat 1 ∨ v = JSNum.nan := by
        intro v hv
        have := hp.subset hv
        simp only [List.mem_cons, List.mem_nil_iff, or_false] at this
        rcases this with h | h | h
        · exact Or.inl h
        · exact Or.inr h
        · exact Or.inl h
      rcases hmem a (by simp) with ha | ha <;> rcases hmem c (by simp) with hc | hc
      · rw [ha, hc]
      · subst ha
        subst hc
        exact absurd hp (by decide!)
      · subst ha
        subst hc
        exact absurd hp (by decide!)
      · subst ha
        subst hc
        exact absurd hp (by decide!)

theorem calculateMedian_spec_witness :
    (∀ x ∈ [str "x".toList, null], validNumber x = false) ∧
      calculateMedian (arr [str "x".toList, null]) = Except.ok (JSVal.bool false) ∧
      (∃ x ∈ [str "7".toList, null, num (JSNum.ofNat 1)], validNumber x = true) ∧
      (∀ v ∈ ([str "7".toList, null, num (JSNum.ofNat 1)].filter validNumber).map numericValue,
        v ≠ JSNum.nan) ∧
      calculateMedian (arr [str "7".toList, null, num (JSNum.ofNat 1)]) =
        Except.ok (num (JSNum.ofNat 4)) ∧
      ∃ s : List JSNum,
        s.Perm (([str "7".toList, null, num (JSNum.ofNat 1)].filter validNumber).map
          numericValue) ∧
        s.Pairwise (fun a b => JSNum.le a b = true) ∧
        (s.length % 2 = 1 → ∃ v, s.get? ((s.length - 1) / 2) = some v ∧
          calculateMedian (arr [str "7".toList, null, num (JSNum.ofNat 1)]) =
            Except.ok (num v)) ∧
        (s.length % 2 = 0 → ∃ u v, s.get? (s.length / 2 - 1) = some u ∧
          s.get? (s.length / 2) = some v ∧
          calculateMedian (arr [str "7".toList, null, num (JSNum.ofNat 1)]) =
            Except.ok (num (JSNum.div (JSNum.add u v) (JSNum.ofNat 2)))) :=
  ⟨by decide,
    calculateMedian_spec.1 [str "x".toList, null] (by decide),
    ⟨str "7".toList, List.mem_cons_self _ _, by decide⟩,
    by decide!,
    by decide!,
    calculateMedian_spec.2.1 [str "7".toList, null, num (JSNum.ofNat 1)]
      ⟨str "7".toList, List.mem_cons_self _ _, by decide⟩ (by decide!)⟩

theorem convertToFloat_idempotent_witness :
    convertToFloat
        (convertToFloat (arr ([[str "1".toList, str "2".toList], [str "x".toList], []].map arr))
          0).1 0 =
      ((convertToFloat (arr ([[str "1".toList, str "2".toList], [str "x".toList], []].map arr))
          0).1, Except.ok 0) ∧
    (convertToFloat (arr ([[str "1".toList, str "2".toList], [str "x".toList], []].map arr))
        0).2 = Except.ok 1 :=
  ⟨convertToFloat_idempotent [[str "1".toList, str "2".toList], [str "x".toList], []] 0,
    by decide!⟩

/-- C7 fails as stated.  With `const r = ['1']` and `df = [r, r]` the dataframe
has two rows, and at the call each of them has at column 0 a cell that is no
number and passes `validNumber`; the first turn of the loop writes the number
into the one row object, the second turn finds a number there, and the call
returns 1, not 2. -/
theorem convertToFloat_spec_counterexample :
    rowsOf [[str "1".toList]] [0, 0] = [[str "1".toList], [str "1".toList]] ∧
      (rowsOf [[str "1".toList]] [0, 0]).countP (fun r =>
        decide (0 < r.length) && decide ((r.getD 0 undefined).typeOf ≠ JSType.number) &&
          validNumber (r.getD 0 undefined)) = 2 ∧
      convertToFloatHeap [[str "1".toList]] [0, 0] 0 = ([[num (JSNum.ofNat 1)]], 1) ∧
      (convertToFloatHeap [[str "1".toList]] [0, 0] 0).2 ≠
        (rowsOf [[str "1".toList]] [0, 0]).countP (fun r =>
          decide (0 < r.length) && decide ((r.getD 0 undefined).typeOf ≠ JSType.number) &&
            validNumber (r.getD 0 undefined)) := by
  refine ⟨by decide, by decide, by decide!, by decide!⟩

theorem convertToFloat_spec_witness :
    ([3, 0, 1, 2] : List Nat).Nodup ∧
      (∀ a ∈ ([3, 0, 1, 2] : List Nat),
        a < ([[null, str "4".toList], [obj], [str "x".toList, str "5".toList],
          [obj, num JSNum.nan], [null, str "6".toList]] : List (List JSVal)).length) ∧
      (convertToFloatHeap [[null, str "4".toList], [obj], [str "x".toList, str "5".toList],
          [obj, num JSNum.nan], [null, str "6".toList]] [3, 0, 1, 2] 1).2 = 2 ∧
      ∃ heap' : List (List JSVal),
        convertToFloatHeap [[null, str "4".toList], [obj], [str "x".toList, str "5".toList],
            [obj, num JSNum.nan], [null, str "6".toList]] [3, 0, 1, 2] 1 =
          (heap', (rowsOf [[null, str "4".toList], [obj], [str "x".toList, str "5".toList],
              [obj, num JSNum.nan], [null, str "6".toList]] [3, 0, 1, 2]).countP (fun r =>
            decide (1 < r.length) && decide ((r.getD 1 undefined).typeOf ≠ JSType.number) &&
              validNumber (r.getD 1 undefined))) ∧
        heap'.length = ([[null, str "4".toList], [obj], [str "x".toList, str "5".toList],
          [obj, num JSNum.nan], [null, str "6".toList]] : List (List JSVal)).length ∧
        (∀ a, a ∉ ([3, 0, 1, 2] : List Nat) → heap'.getD a [] =
          ([[null, str "4".toList], [obj], [str "x".toList, str "5".toList],
            [obj, num JSNum.nan], [null, str "6".toList]] : List (List JSVal)).getD a []) ∧
        (∀ i r r', (rowsOf [[null, str "4".toList], [obj], [str "x".toList, str "5".toList],
            [obj, num JSNum.nan], [null, str "6".toList]] [3, 0, 1, 2]).get? i = some r →
          (rowsOf heap' [3, 0, 1, 2]).get? i = some r' →
          r'.length = r.length ∧
          (r.length ≤ 1 → r' = r) ∧
          ∀ k v, r.get? k = some v →
            r'.get? k = some (if k = 1 ∧ v.typeOf ≠ JSType.number ∧ validNumber v = true
              then num (numericValue v) else v)) ∧
        convertToFloat (arr ((rowsOf [[null, str "4".toList], [obj],
            [str "x".toList, str "5".toList], [obj, num JSNum.nan], [null, str "6".toList]]
            [3, 0, 1, 2]).map arr)) 1 =
          (arr ((rowsOf heap' [3, 0, 1, 2]).map arr),
            Except.ok (convertToFloatHeap [[null, str "4".toList], [obj],
              [str "x".toList, str "5".toList], [obj, num JSNum.nan], [null, str "6".toList]]
              [3, 0, 1, 2] 1).2) :=
  ⟨by decide, by decide, by decide!,
    convertToFloat_spec.1 [[null, str "4".toList], [obj], [str "x".toList, str "5".toList],
      [obj, num JSNum.nan], [null, str "6".toList]] [3, 0, 1, 2] 1 (by decide) (by decide)⟩

theorem flatten_spec_witness :
    (dataDimensions (arr [arr [null], arr [], arr [obj, null]])).2 = 1 ∧
      ∃ rows : List (List JSVal), arr [arr [null], arr [], arr [obj, null]] = arr (rows.map arr) ∧
        flatten (arr [arr [null], arr [], arr [obj, null]]) =
          Except.ok (arr (rows.map (fun r => r.getD 0 undefined))) :=
  ⟨by decide, flatten_spec.1 (arr [arr [null], arr [], arr [obj, null]]) (by decide)⟩

theorem createSlice_noExport_witness :
    str ['a'] ≠ str ['*'] ∧
      createSlice (arr ([[str ['a'], null], [], [str ['b']], [str ['a']]].map arr)) 0
          (str ['a']) [] =
        Except.ok (arr (([[str ['a'], null], [], [str ['b']], [str ['a']]].filter
          (fun r => strictEq (r.getD 0 undefined) (str ['a']))).map arr)) :=
  ⟨by decide,
    createSlice_noExport.2.1 [[str ['a'], null], [], [str ['b']], [str ['a']]] 0 (str ['a'])
      (by decide)⟩

theorem createSlice_export_witness :
    ([2, 0, 2] : List Nat) ≠ [] ∧
      ∃ sel : List (List JSVal),
        createSlice (arr ([[str ['a'], null, obj], [str ['b']], [str ['a']]].map arr)) 0
            (str ['a']) [] = Except.ok (arr (sel.map arr)) ∧
        ∃ out : List (List JSVal),
          createSlice (arr ([[str ['a'], null, obj], [str ['b']], [str ['a']]].map arr)) 0
              (str ['a']) [2, 0, 2] = Except.ok (arr (out.map arr)) ∧
          out.length = sel.length ∧
          ∀ k r o, sel.get? k = some r → out.get? k = some o →
            o.length = ([2, 0, 2] : List Nat).length ∧
            ∀ j i, ([2, 0, 2] : List Nat).get? j = some i →
              o.get? j = some (r.getD i undefined) :=
  ⟨by decide,
    createSlice_export.1 [[str ['a'], null, obj], [str ['b']], [str ['a']]] 0 (str ['a'])
      [2, 0, 2] (by decide)⟩

theorem loadCSV_dataframe_witness :
    (⟨fun _ => some "a,b\n\n c \n".toList⟩ : FileSystem).content "data.csv".toList =
        some "a,b\n\n c \n".toList ∧
      IsCSVRows "a,b\n\n c \n".toList [0] [[" c ".toList]] ∧
      ∃ r c, (loadCSV ⟨fun _ => some "a,b\n\n c \n".toList⟩ "data.csv".toList [0] null).2 =
        Except.ok (toDataframe [[" c ".toList]], r, c) :=
  have hrows : IsCSVRows "a,b\n\n c \n".toList [0] [[" c ".toList]] :=
    (by decide : csvRows "a,b\n\n c \n".toList [0] = [[" c ".toList]]) ▸
      isCSVRows_csvRows "a,b\n\n c \n".toList [0]
  ⟨rfl, hrows,
    loadCSV_dataframe.2.1 ⟨fun _ => some "a,b\n\n c \n".toList⟩ "data.csv".toList
      "a,b\n\n c \n".toList [0] null [[" c ".toList]] rfl hrows (by decide)⟩

theorem loadCSV_cols_witness :
    IsCSVRows "a,b,c\nd\n".toList [] [["a".toList, "b".toList, "c".toList], ["d".toList]] ∧
      ∃ d r, (loadCSV ⟨fun _ => some "a,b,c\nd\n".toList⟩ "data.csv".toList [] null).2 =
        Except.ok (d, r, 3) :=
  have hrows : IsCSVRows "a,b,c\nd\n".toList []
      [["a".toList, "b".toList, "c".toList], ["d".toList]] :=
    (by decide : csvRows "a,b,c\nd\n".toList [] =
      [["a".toList, "b".toList, "c".toList], ["d".toList]]) ▸
      isCSVRows_csvRows "a,b,c\nd\n".toList []
  ⟨hrows,
    loadCSV_cols.1 ⟨fun _ => some "a,b,c\nd\n".toList⟩ "data.csv".toList "a,b,c\nd\n".toList []
      null ["a".toList, "b".toList, "c".toList] [["d".toList]] rfl hrows⟩

theorem loadCSV_rowCount_witness :
    IsCSVRows "a,b,c\nd\n".toList [] [["a".toList, "b".toList, "c".toList], ["d".toList]] ∧
      ∃ (rows : List JSVal) (c : Int),
        (loadCSV ⟨fun _ => some "a,b,c\nd\n".toList⟩ "data.csv".toList [] null).2 =
          Except.ok (arr rows, (rows.length : Int) + 1, c) ∧
        arr rows = toDataframe [["a".toList, "b".toList, "c".toList], ["d".toList]] ∧
        rows.length = 2 :=
  have hrows : IsCSVRows "a,b,c\nd\n".toList []
      [["a".toList, "b".toList, "c".toList], ["d".toList]] :=
    (by decide : csvRows "a,b,c\nd\n".toList [] =
      [["a".toList, "b".toList, "c".toList], ["d".toList]]) ▸
      isCSVRows_csvRows "a,b,c\nd\n".toList []
  ⟨hrows,
    loadCSV_rowCount ⟨fun _ => some "a,b,c\nd\n".toList⟩ "data.csv".toList "a,b,c\nd\n".toList []
      null [["a".toList, "b".toList, "c".toList], ["d".toList]] rfl hrows (by decide)⟩

theorem loadCSV_ignoreCols_witness :
    loadCSV ⟨fun _ => some "a,b\nc,d\n".toList⟩ "data.csv".toList [1] (arr []) =
        loadCSV ⟨fun _ => some "a,b\nc,d\n".toList⟩ "data.csv".toList [1]
          (arr [num (JSNum.fin false 0), str ['x']]) ∧
      (loadCSV ⟨fun _ => some "a,b\nc,d\n".toList⟩ "data.csv".toList [1] (arr [])).2 =
        Except.ok (toDataframe [["a".toList, "b".toList]], 2, 2) :=
  ⟨loadCSV_ignoreCols ⟨fun _ => some "a,b\nc,d\n".toList⟩ "data.csv".toList [1] (arr [])
      (arr [num (JSNum.fin false 0), str ['x']]),
    by decide⟩

theorem loadCSV_missing_witness :
    (⟨fun _ => none⟩ : FileSystem).content "missing.csv".toList = none ∧
      loadCSV ⟨fun _ => none⟩ "missing.csv".toList [1, 2, 3] (arr []) =
        ([FsCall.existsSync "missing.csv".toList], Except.ok (arr [], -1, -1)) :=
  ⟨rfl, loadCSV_missing ⟨fun _ => none⟩ "missing.csv".toList [1, 2, 3] (arr []) rfl⟩

/-- C15 fails as stated: on the flat dataset `["12"]` and column 0 the call
returns 1, not 0 (the string row has length 2 and its character at index 0 is
a digit), and on `[null]` it throws a `TypeError`. -/
theorem convertToFloat_nonDataframe_counterexample :
    convertToFloat (arr [str "12".toList]) 0 = (arr [str "12".toList], Except.ok 1) ∧
      (convertToFloat (arr [str "12".toList]) 0).2 ≠ Except.ok 0 ∧
      (convertToFloat (arr [null]) 0).2 = Except.error JSError.typeError := by
  decide

theorem convertToFloat_nonDataframe_witness :
    (∀ e ∈ [num JSNum.nan, JSVal.bool true, obj, str "a1".toList, str [],
          str [Char.ofNat 128512, '1']],
        passedOver 0 e = true) ∧
      convertToFloat (arr [num JSNum.nan, JSVal.bool true, obj, str "a1".toList, str [],
          str [Char.ofNat 128512, '1']]) 0 =
        (arr [num JSNum.nan, JSVal.bool true, obj, str "a1".toList, str [],
          str [Char.ofNat 128512, '1']], Except.ok 0) ∧
      (∀ e ∈ [str [Char.ofNat 128512, '1'], JSVal.bool false], e.isArray = false) ∧
      codeUnits [Char.ofNat 128512, '1'] = [none, none, some '1'] ∧
      convertToFloat (arr [str [Char.ofNat 128512, '1'], JSVal.bool false]) 2 =
        (arr [str [Char.ofNat 128512, '1'], JSVal.bool false], Except.ok 1) ∧
      ¬ ∀ e ∈ [str [Char.ofNat 128512, '1'], JSVal.bool false], passedOver 2 e = true :=
  have hna : ∀ e ∈ [str [Char.ofNat 128512, '1'], JSVal.bool false], e.isArray = false := by
    decide
  have hres : convertToFloat (arr [str [Char.ofNat 128512, '1'], JSVal.bool false]) 2 =
      (arr [str [Char.ofNat 128512, '1'], JSVal.bool false], Except.ok 1) := by
    decide
  ⟨by decide,
    convertToFloat_nonDataframe.2.2.1
      [num JSNum.nan, JSVal.bool true, obj, str "a1".toList, str [],
        str [Char.ofNat 128512, '1']] 0 (by decide),
    hna, by decide, hres,
    fun hp => absurd
      ((convertToFloat_nonDataframe.2.2.2 [str [Char.ofNat 128512, '1'], JSVal.bool false] 2
        hna).2.mpr hp)
      (by rw [hres]; decide)⟩

theorem convertToFloat_preserves_aggregates_witness :
    (∀ r ∈ [[str "1.5".toList, null], [str "x".toList], [num (JSNum.ofNat 2)],
        [str "-4".toList]], 0 < r.length) ∧
      (convertToFloat (arr ([[str "1.5".toList, null], [str "x".toList], [num (JSNum.ofNat 2)],
        [str "-4".toList]].map arr)) 0).2 = Except.ok 2 ∧
      ∃ rows' : List (List JSVal),
        (convertToFloat (arr ([[str "1.5".toList, null], [str "x".toList],
          [num (JSNum.ofNat 2)], [str "-4".toList]].map arr)) 0).1 = arr (rows'.map arr) ∧
        findTotal (arr (rows'.map (fun r => r.getD 0 undefined))) =
          findTotal (arr ([[str "1.5".toList, null], [str "x".toList], [num (JSNum.ofNat 2)],
            [str "-4".toList]].map (fun r => r.getD 0 undefined))) ∧
        calculateMean (arr (rows'.map (fun r => r.getD 0 undefined))) =
          calculateMean (arr ([[str "1.5".toList, null], [str "x".toList],
            [num (JSNum.ofNat 2)], [str "-4".toList]].map (fun r => r.getD 0 undefined))) ∧
        calculateMedian (arr (rows'.map (fun r => r.getD 0 undefined))) =
          calculateMedian (arr ([[str "1.5".toList, null], [str "x".toList],
            [num (JSNum.ofNat 2)], [str "-4".toList]].map (fun r => r.getD 0 undefined))) :=
  ⟨by decide, by decide!,
    convertToFloat_preserves_aggregates.1
      [[str "1.5".toList, null], [str "x".toList], [num (JSNum.ofNat 2)], [str "-4".toList]] 0
      (by decide)⟩

/-- C19 fails as stated.  The median of the largest finite double taken twice
is `Infinity`, a number above both values, although the array has no NaN and
every array is a permutation of itself.  The arrays `[-0, 0, 1]` and
`[0, -0, 1]` are permutations of each other and their medians are the two
different zeros. -/
theorem calculateMedian_perm_between_counterexample :
    JSNum.IsDouble maxDouble ∧
      calculateMedian (arr [num maxDouble, num maxDouble]) =
        Except.ok (num (JSNum.inf false)) ∧
      JSNum.le (JSNum.inf false) maxDouble = false ∧
      ¬ LiesBetween (([num maxDouble, num maxDouble].filter validNumber).map numericValue)
        (JSNum.inf false) ∧
      calculateMedian (arr [num (JSNum.fin true 0), num (JSNum.fin false 0),
          num (JSNum.ofNat 1)]) = Except.ok (num (JSNum.fin false 0)) ∧
      calculateMedian (arr [num (JSNum.fin false 0), num (JSNum.fin true 0),
          num (JSNum.ofNat 1)]) = Except.ok (num (JSNum.fin true 0)) := by
  refine ⟨⟨JSNum.representable_mul_pow _ _ (by decide), by decide!⟩, by decide!, by decide!,
    ?_, by decide!, by decide!⟩
  rintro ⟨lo, -, hi, hhi, -, -, hle⟩
  have hval : ([num maxDouble, num maxDouble].filter validNumber).map numericValue =
      [maxDouble, maxDouble] := rfl
  rw [hval] at hhi
  have hhi' : hi = maxDouble := by
    simp only [List.mem_cons, List.mem_nil_iff, or_false, or_self] at hhi
    exact hhi
  rw [hhi'] at hle
  have : JSNum.le (JSNum.inf false) maxDouble = false := by decide!
  rw [this] at hle
  exact absurd hle (by decide)

theorem calculateMedian_perm_between_witness :
    ([str "4".toList, num (JSNum.ofNat 1), null, str "2.5".toList] : List JSVal).Perm
        [null, str "2.5".toList, str "4".toList, num (JSNum.ofNat 1)] ∧
      (∀ v ∈ ([str "4".toList, num (JSNum.ofNat 1), null, str "2.5".toList].filter
          validNumber).map numericValue, v ≠ JSNum.nan) ∧
      SameMedian
        (calculateMedian (arr [str "4".toList, num (JSNum.ofNat 1), null, str "2.5".toList]))
        (calculateMedian (arr [null, str "2.5".toList, str "4".toList, num (JSNum.ofNat 1)])) ∧
      calculateMedian (arr [str "4".toList, num (JSNum.ofNat 1), null, str "2.5".toList]) =
        Except.ok (num (JSNum.div (JSNum.ofNat 5) (JSNum.ofNat 2))) ∧
      LiesBetween
        (([str "4".toList, num (JSNum.ofNat 1), null, str "2.5".toList].filter
          validNumber).map numericValue)
        (JSNum.div (JSNum.ofNat 5) (JSNum.ofNat 2)) :=
  have hperm : ([str "4".toList, num (JSNum.ofNat 1), null, str "2.5".toList] : List JSVal).Perm
      [null, str "2.5".toList, str "4".toList, num (JSNum.ofNat 1)] := by
    decide!
  have hnan : ∀ v ∈ ([str "4".toList, num (JSNum.ofNat 1), null, str "2.5".toList].filter
      validNumber).map numericValue, v ≠ JSNum.nan := by
    decide!
  have hres : calculateMedian
      (arr [str "4".toList, num (JSNum.ofNat 1), null, str "2.5".toList]) =
      Except.ok (num (JSNum.div (JSNum.ofNat 5) (JSNum.ofNat 2))) := by
    decide!
  ⟨hperm, hnan,
    calculateMedian_perm_between.1 _ _ hperm hnan,
    hres,
    calculateMedian_perm_between.2.1 _ _ hnan
      (fun n hn => by
        have : n = JSNum.ofNat 1 := by
          simp only [List.mem_cons, List.mem_nil_iff, or_false] at hn
          rcases hn with h | h | h | h
          · exact absurd h (by simp)
          · exact JSVal.num.inj h
          · exact absurd h (by simp)
          · exact absurd h (by simp)
        rw [this]
        exact JSNum.isDouble_roundUnits _ _ _)
      hres (Or.inl (by decide!))⟩

end Dfr
